import Mathlib

/-!
# The live list-view synchronizer of AirDC++ Web API (ListViewController.h)

A shallow embedding of `webserver::ListViewController<T, PropertyCount>`:
the merge queue (`ItemTasks`, `ViewTasks`), the settings collector
(`IntCollector`), the notification entry points and the periodic job
`runTasks`, followed by theorems about them.

Modelling conventions

* `T` is the item handle type of the template. The C++ code orders handles with
  `std::less<T>` (keys of `std::map<T, MergeTask>`) and reads the token through
  `aItem->getToken()`; here `T` carries a linear order and the token is the
  function `getToken` of the environment.
* `int` values are integers (`Int`). The two `int` computations of `runTasks` that can
  leave the range of `int` for settings the request handler accepts wrap around:
  `rangeStart_++` (`intIncrement`) and `totalItemCount - newStart` (`wrapInt`).
  List sizes are taken as they are.
* `PropertyIdSet` is `std::set<int>`, a finite set of integers.
* Locks are not modelled: every operation runs atomically.
* Undefined behaviour (`allItems.erase(allItems.end())`) is the result `none`.
-/

namespace webserver

/-! ## Property schema (Property.h is outside the sources; shapes taken from its uses) -/

/-- The set of property ids, `std::set<int>`. -/
abbrev PropertyIdSet := Finset Int

/-- Sort methods of a property, as used by the switch of `itemSort`. -/
inductive SortMethod where
  | SORT_NUMERIC
  | SORT_TEXT
  | SORT_CUSTOM
  | SORT_NONE
deriving DecidableEq, Repr

/-- One entry of `itemHandler.properties`. -/
structure PropertyType where
  id : Int
  name : String
  sortMethod : SortMethod
deriving DecidableEq, Repr

/-- Modelled from the spec: `toPropertyIdSet` (Property.h is not among the sources),
the ids of all schema properties ("all requested properties" of section 4.4 step 6). -/
def toPropertyIdSet (properties : List PropertyType) : PropertyIdSet :=
  (properties.map (fun p => p.id)).toFinset

/-- Modelled from the spec: `findPropertyByName` (Property.h is not among the sources),
the id of the first property with the given name, `-1` when there is none. -/
def findPropertyByName (aName : String) (properties : List PropertyType) : Int :=
  match properties.find? (fun p => p.name == aName) with
  | some p => p.id
  | none => -1

/-! ## Merge queue -/

/-- The enum `Tasks`: "Must be in merging order (lower ones replace other)". -/
inductive Tasks where
  | UPDATE_ITEM
  | ADD_ITEM
  | REMOVE_ITEM
deriving DecidableEq, Repr

/-- The enumerator values: `UPDATE_ITEM = 0, ADD_ITEM, REMOVE_ITEM`. -/
def Tasks.val : Tasks → Int
  | .UPDATE_ITEM => 0
  | .ADD_ITEM => 1
  | .REMOVE_ITEM => 2

/-- The struct `ItemTasks::MergeTask`; `type` is the `int8_t` field. -/
structure MergeTask where
  type : Int
  updatedProperties : PropertyIdSet
deriving DecidableEq

/-- The method `MergeTask::merge`. -/
def MergeTask.merge (self aTask : MergeTask) : MergeTask :=
  -- Ignore
  if self.type < aTask.type then self
  -- Merge
  else if self.type = aTask.type then
    { self with updatedProperties := self.updatedProperties ∪ aTask.updatedProperties }
  -- Replace the task
  else { type := aTask.type, updatedProperties := aTask.updatedProperties }

section Queue

variable {T : Type} [LinearOrder T]

/-- The typedef `TaskMap` (`std::map<T, MergeTask>`), as the list of its entries in key order. -/
abbrev TaskMap (T : Type) := List (T × MergeTask)

/-- Lookup `tasks.find(aItem)`. -/
def TaskMap.find (m : TaskMap T) (aItem : T) : Option MergeTask :=
  match m with
  | [] => none
  | (k, v) :: rest => if k = aItem then some v else TaskMap.find rest aItem

/-- Insertion `tasks.emplace(aItem, aData)`: keeps key order, keeps an existing entry. -/
def TaskMap.emplace (m : TaskMap T) (aItem : T) (aData : MergeTask) : TaskMap T :=
  match m with
  | [] => [(aItem, aData)]
  | (k, v) :: rest =>
    if aItem < k then (aItem, aData) :: (k, v) :: rest
    else if aItem = k then (k, v) :: rest
    else (k, v) :: TaskMap.emplace rest aItem aData

/-- In-place change of the entry the iterator `j` points to: `(*j).second.merge(aData)`. -/
def TaskMap.mergeAt (m : TaskMap T) (aItem : T) (aData : MergeTask) : TaskMap T :=
  match m with
  | [] => []
  | (k, v) :: rest =>
    if k = aItem then (k, v.merge aData) :: rest
    else (k, v) :: TaskMap.mergeAt rest aItem aData

/-- The invariant of `std::map`: the keys of the entries are strictly increasing. -/
def TaskMap.WF (m : TaskMap T) : Prop :=
  (m.map Prod.fst).Pairwise (fun a b => a < b)

/-- The method `ItemTasks::add`. -/
def ItemTasks.add (tasks : TaskMap T) (aItem : T) (aData : MergeTask) : TaskMap T :=
  match TaskMap.find tasks aItem with
  | some _ => TaskMap.mergeAt tasks aItem aData
  | none => TaskMap.emplace tasks aItem aData

/-- The method `ItemTasks::get`: swaps the queue with the caller's map;
returns (the caller's map afterwards, the queue afterwards). -/
def ItemTasks.get (tasks : TaskMap T) (map : TaskMap T) : TaskMap T × TaskMap T :=
  (tasks, map)

/-- The class `ViewTasks`: the task map and the property ids touched by updates. -/
structure ViewTasks (T : Type) where
  updatedProperties : PropertyIdSet
  tasks : TaskMap T

/-- A freshly constructed (or cleared) queue. -/
def ViewTasks.empty : ViewTasks T :=
  { updatedProperties := ∅, tasks := [] }

/-- The method `ViewTasks::addItem`. -/
def ViewTasks.addItem (q : ViewTasks T) (aItem : T) : ViewTasks T :=
  { q with tasks := ItemTasks.add q.tasks aItem ⟨Tasks.ADD_ITEM.val, ∅⟩ }

/-- The method `ViewTasks::removeItem`. -/
def ViewTasks.removeItem (q : ViewTasks T) (aItem : T) : ViewTasks T :=
  { q with tasks := ItemTasks.add q.tasks aItem ⟨Tasks.REMOVE_ITEM.val, ∅⟩ }

/-- The method `ViewTasks::updateItem`. -/
def ViewTasks.updateItem (q : ViewTasks T) (aItem : T) (aUpdatedProperties : PropertyIdSet) :
    ViewTasks T :=
  { updatedProperties := q.updatedProperties ∪ aUpdatedProperties,
    tasks := ItemTasks.add q.tasks aItem ⟨Tasks.UPDATE_ITEM.val, aUpdatedProperties⟩ }

/-- The method `ViewTasks::get`, called with the output containers `map` and
`updatedProperties_`: returns their contents afterwards and the queue afterwards. -/
def ViewTasks.get (q : ViewTasks T) (map : TaskMap T) (updatedProperties_ : PropertyIdSet) :
    TaskMap T × PropertyIdSet × ViewTasks T :=
  let r := ItemTasks.get q.tasks map
  (r.1, q.updatedProperties, { updatedProperties := updatedProperties_, tasks := r.2 })

/-- The method `ViewTasks::clear`. -/
def ViewTasks.clear (_q : ViewTasks T) : ViewTasks T :=
  { updatedProperties := ∅, tasks := [] }

/-- Enqueue one task of the given type through the public entry points of `ViewTasks`
(`updateItem`, `addItem`, `removeItem`); the property set is used by updates only. -/
def ViewTasks.enqueue (q : ViewTasks T) (aItem : T) (type : Tasks) (props : PropertyIdSet) :
    ViewTasks T :=
  match type with
  | .UPDATE_ITEM => q.updateItem aItem props
  | .ADD_ITEM => q.addItem aItem
  | .REMOVE_ITEM => q.removeItem aItem

/-- A sequence of calls of `updateItem`, `addItem` and `removeItem`, from left to right. -/
def ViewTasks.enqueueAll (q : ViewTasks T) : List (T × Tasks × PropertyIdSet) → ViewTasks T
  | [] => q
  | op :: ops => ViewTasks.enqueueAll (q.enqueue op.1 op.2.1 op.2.2) ops

/-- The union of the property sets passed to the `updateItem` calls of a sequence. -/
def updatedUnion : List (T × Tasks × PropertyIdSet) → PropertyIdSet
  | [] => ∅
  | op :: ops =>
    if op.2.1 = Tasks.UPDATE_ITEM then op.2.2 ∪ updatedUnion ops else updatedUnion ops

/-- A queue without tasks has no accumulated property ids: both members are filled by
`updateItem` only and emptied together by `get` and `clear`. -/
def ViewTasks.Consistent (q : ViewTasks T) : Prop :=
  q.tasks = [] → q.updatedProperties = ∅

end Queue

/-! ## Settings collector -/

/-- The enum `IntCollector::ValueType` (without the sentinel `TYPE_LAST`). -/
inductive ValueType where
  | TYPE_SORT_PROPERTY
  | TYPE_SORT_ASCENDING
  | TYPE_RANGE_START
  | TYPE_MAX_COUNT
deriving DecidableEq, Repr

/-- The typedef `IntCollector::ValueMap` (`std::map<ValueType, int>`): one optional
value per key, `none` when the key is not in the map. -/
structure ValueMap where
  sortProperty : Option Int
  sortAscending : Option Int
  rangeStart : Option Int
  maxCount : Option Int
deriving DecidableEq, Repr

/-- The empty map. -/
def ValueMap.empty : ValueMap :=
  { sortProperty := none, sortAscending := none, rangeStart := none, maxCount := none }

/-- Lookup `m.find(k)`. -/
def ValueMap.find (m : ValueMap) : ValueType → Option Int
  | .TYPE_SORT_PROPERTY => m.sortProperty
  | .TYPE_SORT_ASCENDING => m.sortAscending
  | .TYPE_RANGE_START => m.rangeStart
  | .TYPE_MAX_COUNT => m.maxCount

/-- Assignment `m[k] = v`. -/
def ValueMap.assign (m : ValueMap) (k : ValueType) (v : Int) : ValueMap :=
  match k with
  | .TYPE_SORT_PROPERTY => { m with sortProperty := some v }
  | .TYPE_SORT_ASCENDING => { m with sortAscending := some v }
  | .TYPE_RANGE_START => { m with rangeStart := some v }
  | .TYPE_MAX_COUNT => { m with maxCount := some v }

/-- Read access `m[k]` of `std::map`: a missing key is inserted with the value `0`.
Returns the value read and the map afterwards. -/
def ValueMap.index (m : ValueMap) (k : ValueType) : Int × ValueMap :=
  match m.find k with
  | some v => (v, m)
  | none => (0, m.assign k 0)

/-- The value read by `m[k]`. -/
def ValueMap.get (m : ValueMap) (k : ValueType) : Int :=
  (m.index k).1

/-- The keys in the order of the enum, `0 .. TYPE_LAST - 1`. -/
def ValueType.all : List ValueType :=
  [.TYPE_SORT_PROPERTY, .TYPE_SORT_ASCENDING, .TYPE_RANGE_START, .TYPE_MAX_COUNT]

/-- The entries of the map in key order. -/
def ValueMap.entries (m : ValueMap) : List (ValueType × Int) :=
  List.filterMap (fun k => (m.find k).map (fun v => (k, v))) ValueType.all

/-- The class `IntCollector`. -/
structure IntCollector where
  changed : Bool
  values : ValueMap
deriving DecidableEq, Repr

/-- The method `IntCollector::reset`: every key gets `-1`; `changed` is not touched. -/
def IntCollector.reset (c : IntCollector) : IntCollector :=
  { c with values := List.foldl (fun m k => m.assign k (-1)) c.values ValueType.all }

/-- The constructor `IntCollector()`: `changed = true`, then `reset()`. -/
def IntCollector.new : IntCollector :=
  IntCollector.reset { changed := true, values := ValueMap.empty }

/-- The method `IntCollector::set(ValueType, int)`. -/
def IntCollector.set (c : IntCollector) (aType : ValueType) (aValue : Int) : IntCollector :=
  { changed := true, values := c.values.assign aType aValue }

/-- The method `IntCollector::set(const ValueMap&)`. -/
def IntCollector.setMany (c : IntCollector) (aMap : ValueMap) : IntCollector :=
  { changed := true,
    values := List.foldl (fun m i => m.assign i.1 i.2) c.values aMap.entries }

/-- The method `IntCollector::getAll`: returns the values and the collector afterwards. -/
def IntCollector.getAll (c : IntCollector) : ValueMap × IntCollector :=
  (c.values, { c with changed := false })

/-- The method `IntCollector::hasChanged`. -/
def IntCollector.hasChanged (c : IntCollector) : Bool :=
  c.changed

/-! ## Collaborators -/

/-- Modelled from the spec: the state of the Filter Capability (`PropertyFilter.h` is not
among the sources): the pattern, the match method and the property the filter looks at. -/
structure PropertyFilter where
  pattern : String
  method : Int
  property : Int
deriving DecidableEq, Repr

/-- Modelled from the spec: `PropertyFilter::clear` ("clears the filter"): the pattern
becomes empty. -/
def PropertyFilter.clear (f : PropertyFilter) : PropertyFilter :=
  { f with pattern := "" }

/-- Modelled from the spec: `PropertyFilter::setFilterMethod`. -/
def PropertyFilter.setFilterMethod (f : PropertyFilter) (aMethod : Int) : PropertyFilter :=
  { f with method := aMethod }

/-- Modelled from the spec: `PropertyFilter::setFilterProperty`. -/
def PropertyFilter.setFilterProperty (f : PropertyFilter) (aProperty : Int) : PropertyFilter :=
  { f with property := aProperty }

/-- Modelled from the spec: `PropertyFilter::setText`. -/
def PropertyFilter.setText (f : PropertyFilter) (aPattern : String) : PropertyFilter :=
  { f with pattern := aPattern }

/-- The class `PropertyItemHandler<T>` as far as the controller uses it. Numeric property
values (`double` in C++) are integers here. -/
structure PropertyItemHandler (T : Type) where
  properties : List PropertyType
  numberF : T → Int → Int
  stringF : T → Int → String
  customSorterF : T → T → Int → Int

/-- Everything the controller gets from outside: the token of a handle, the item handler,
the current snapshot of the source (`itemListF()`), the filter predicate
(`filter.match(filter.prepare(), numberF, stringF)`), `Util::stricmp` and
`Serializer::serializeItemProperties`, whose result has the type `J`. -/
structure Env (T : Type) (J : Type) where
  getToken : T → Nat
  itemHandler : PropertyItemHandler T
  itemListF : List T
  filterMatch : PropertyFilter → (Int → Int) → (Int → String) → Bool
  stricmp : String → String → Int
  serializeItemProperties : T → PropertyIdSet → PropertyItemHandler T → J

/-! ## Outbound message -/

/-- One element of the `items` array: `id` and, when present, `properties`. -/
structure ItemJson (J : Type) where
  id : Option Nat
  properties : Option J
deriving DecidableEq, Repr

/-- The JSON object `j` built by `runTasks`; a key that was never assigned is `none`. -/
structure Payload (J : Type) where
  items : Option (List (ItemJson J))
  total_items : Option Int
  range_offset : Option Int
  range_start : Option Int
deriving DecidableEq, Repr

/-- The default-constructed `json j` (null). -/
def Payload.null {J : Type} : Payload J :=
  { items := none, total_items := none, range_offset := none, range_start := none }

/-- The test `j.is_null()`. -/
def Payload.is_null {J : Type} (j : Payload J) : Bool :=
  j.items.isNone && j.total_items.isNone && j.range_offset.isNone && j.range_start.isNone

/-- The elements of the `items` array, none when the key is absent. -/
def Payload.itemEntries {J : Type} (j : Payload J) : List (ItemJson J) :=
  j.items.getD []

/-- Assignment `json_["items"][pos][...] = ...`: the array is created by the first
assignment and grows with null elements up to `pos`; `f` changes the element at `pos`. -/
def Payload.setItem {J : Type} (j : Payload J) (pos : Nat) (f : ItemJson J → ItemJson J) :
    Payload J :=
  let arr := j.items.getD []
  let arr := arr ++ List.replicate (pos + 1 - arr.length) { id := none, properties := none }
  { j with items := some (arr.modify f pos) }

/-! ## The controller -/

/-- The data members of `ListViewController` that change; `timerRunning` stands for
`timer->isRunning()`. -/
structure ListViewController (T : Type) where
  filter : PropertyFilter
  currentViewItems : List T
  allItems : List T
  active : Bool
  timerRunning : Bool
  tasks : ViewTasks T
  itemListChanged : Bool
  currentValues : IntCollector
  prevTotalCount : Int
  prevValues : ValueMap

/-- The request body of a settings POST; an absent key is `none`. -/
structure SettingsJson where
  range_start : Option Int
  max_count : Option Int
  sort_property : Option String
  sort_ascending : Option Bool
  paused : Option Bool
deriving DecidableEq, Repr

/-- The request body of a filter POST. -/
structure FilterJson where
  pattern : String
  method : Int
  property : String
deriving DecidableEq, Repr

/-- What a run of `runTasks` did: which `return` it left through, and for a run that
reached the end what `sendJson` sent (`none` when it sent nothing). -/
inductive TickOutcome (J : Type) where
  | noChanges
  | sortPropertyUnset
  | rangeStartNegative
  | countNegative
  | completed (sent : Option (Payload J))
deriving DecidableEq, Repr

/-- The message a run of `runTasks` handed to `module->send`, if any. -/
def TickOutcome.message {J : Type} : TickOutcome J → Option (Payload J)
  | .completed sent => sent
  | _ => none

section Controller

variable {T : Type} [LinearOrder T] {J : Type}

/-- The state after the constructor: member initialisers of the class. -/
def ListViewController.new : ListViewController T :=
  { filter := { pattern := "", method := 0, property := -1 },
    currentViewItems := [],
    allItems := [],
    active := false,
    timerRunning := false,
    tasks := ViewTasks.empty,
    itemListChanged := false,
    currentValues := IntCollector.new,
    prevTotalCount := -1,
    prevValues := ValueMap.empty }

/-- The method `matchesFilter`. -/
def matchesFilter (env : Env T J) (filter : PropertyFilter) (aItem : T) : Bool :=
  env.filterMatch filter
    (fun aProperty => env.itemHandler.numberF aItem aProperty)
    (fun aProperty => env.itemHandler.stringF aItem aProperty)

/-- The method `findItem`: the position of the first element with the token of `aItem`;
`none` is `aItems.end()`. -/
def findItem (env : Env T J) (aItem : T) (aItems : List T) : Option Nat :=
  match aItems with
  | [] => none
  | i :: rest =>
    if env.getToken aItem = env.getToken i then some 0
    else (findItem env aItem rest).map (fun n => n + 1)

/-- The method `isInList`. -/
def isInList (env : Env T J) (aItem : T) (aItems : List T) : Bool :=
  (findItem env aItem aItems).isSome

/-- The method `getPosition`. -/
def getPosition (env : Env T J) (aItem : T) (aItems : List T) : Int :=
  match findItem env aItem aItems with
  | none => -1
  | some i => (i : Int)

/-- The method `updateList`. -/
def updateList (env : Env T J) (s : ListViewController T) : ListViewController T :=
  { s with allItems := env.itemListF, itemListChanged := true }

/-- The method `clearItems`. -/
def clearItems (s : ListViewController T) : ListViewController T :=
  { s with tasks := s.tasks.clear, currentViewItems := [], allItems := [], prevTotalCount := -1 }

/-- The method `stop`. -/
def stop (s : ListViewController T) : ListViewController T :=
  let s := { s with active := false, timerRunning := false }
  let s := clearItems s
  let s := { s with currentValues := s.currentValues.reset }
  { s with filter := s.filter.clear }

/-- The method `setResetItems`. -/
def setResetItems (env : Env T J) (s : ListViewController T) : ListViewController T :=
  let s := clearItems s
  let s := { s with currentValues := s.currentValues.set .TYPE_RANGE_START 0 }
  updateList env s

/-- The method `onItemAdded`. -/
def onItemAdded (env : Env T J) (s : ListViewController T) (aItem : T) : ListViewController T :=
  if !s.active then s
  else if !matchesFilter env s.filter aItem then s
  else { s with tasks := s.tasks.addItem aItem }

/-- The method `onItemRemoved`; `*pos` is the element of `allItems` that was found. -/
def onItemRemoved (env : Env T J) (s : ListViewController T) (aItem : T) :
    ListViewController T :=
  if !s.active then s
  else
    match findItem env aItem s.allItems with
    | none => s
    | some pos =>
      match s.allItems[pos]? with
      | none => s
      | some i => { s with tasks := s.tasks.removeItem i }

/-- The method `onItemUpdated`. -/
def onItemUpdated (env : Env T J) (s : ListViewController T) (aItem : T)
    (aUpdatedProperties : PropertyIdSet) : ListViewController T :=
  if !s.active then s
  else
    let inList := isInList env aItem s.allItems
    if !matchesFilter env s.filter aItem then
      if inList then { s with tasks := s.tasks.removeItem aItem }
      else s
    else if !inList then { s with tasks := s.tasks.addItem aItem }
    else { s with tasks := s.tasks.updateItem aItem aUpdatedProperties }

/-- The method `onItemsUpdated`. -/
def onItemsUpdated (env : Env T J) (s : ListViewController T) (aItems : List T)
    (aUpdatedProperties : PropertyIdSet) : ListViewController T :=
  if !s.active then s
  else aItems.foldl (fun s item => onItemUpdated env s item aUpdatedProperties) s

/-- The method `onFilterUpdated`. -/
def onFilterUpdated (env : Env T J) (s : ListViewController T) : ListViewController T :=
  let itemsNew := env.itemListF.filter (fun i => matchesFilter env s.filter i)
  { s with allItems := itemsNew, itemListChanged := true }

/-- The method `resetFilter`. -/
def resetFilter (env : Env T J) (s : ListViewController T) : ListViewController T :=
  onFilterUpdated env { s with filter := s.filter.clear }

/-- The method `setFilter`. -/
def setFilter (env : Env T J) (s : ListViewController T) (aPattern : String) (aMethod : Int)
    (aProperty : Int) : ListViewController T :=
  let filter := ((s.filter.setFilterMethod aMethod).setFilterProperty aProperty).setText aPattern
  onFilterUpdated env { s with filter := filter }

/-- The method `handlePostFilter`; it always answers `no_content`. -/
def handlePostFilter (env : Env T J) (s : ListViewController T) (reqJson : FilterJson) :
    ListViewController T :=
  if reqJson.pattern.isEmpty then resetFilter env s
  else setFilter env s reqJson.pattern reqJson.method
    (findPropertyByName reqJson.property env.itemHandler.properties)

/-- The method `handleDeleteFilter`. -/
def handleDeleteFilter (env : Env T J) (s : ListViewController T) : ListViewController T :=
  resetFilter env s

/-- The method `parseProperties`; `Except.error` is the thrown `std::invalid_argument`
together with the controller as it is when the exception leaves the method. -/
def parseProperties (env : Env T J) (s : ListViewController T) (j : SettingsJson) :
    Except (String × ListViewController T) (ListViewController T) := do
  let v1 ← match j.range_start with
    | some start =>
      if start < 0 then Except.error ("Negative range start not allowed", s)
      else pure (ValueMap.empty.assign .TYPE_RANGE_START start)
    | none => pure ValueMap.empty
  let v2 := match j.max_count with
    | some e => v1.assign .TYPE_MAX_COUNT e
    | none => v1
  let v3 ← match j.sort_property with
    | some name =>
      let prop := findPropertyByName name env.itemHandler.properties
      if prop = -1 then Except.error ("Invalid sort property", s)
      else pure (v2.assign .TYPE_SORT_PROPERTY prop)
    | none => pure v2
  let v4 := match j.sort_ascending with
    | some sortAscending => v3.assign .TYPE_SORT_ASCENDING (if sortAscending then 1 else 0)
    | none => v3
  let running := match j.paused with
    | some paused =>
      if paused && s.timerRunning then false
      else if !paused && !s.timerRunning then true
      else s.timerRunning
    | none => s.timerRunning
  let s := { s with timerRunning := running }
  if v4.entries.isEmpty then pure s
  else pure { s with currentValues := s.currentValues.setMany v4 }

/-- The method `handlePostSettings`; an exception of `parseProperties` passes through. -/
def handlePostSettings (env : Env T J) (s : ListViewController T) (j : SettingsJson) :
    Except (String × ListViewController T) (ListViewController T) := do
  let s ← parseProperties env s j
  if !s.active then
    let s := updateList env { s with active := true }
    pure { s with timerRunning := true }
  else pure s

/-- The method `handleReset`. -/
def handleReset (s : ListViewController T) : ListViewController T :=
  stop s

/-! ## The periodic job -/

/-- The helper `compare` of the client library: `(v1 < v2) ? -1 : ((v1 == v2) ? 0 : 1)`. -/
def Util.compare (v1 v2 : Int) : Int :=
  if v1 < v2 then -1 else if v1 = v2 then 0 else 1

/-- The sort method `aItemHandler.properties[aSortProperty].sortMethod`; `none` when the
index is outside the schema. -/
def sortMethodAt (properties : List PropertyType) (aSortProperty : Int) : Option SortMethod :=
  if aSortProperty < 0 then none
  else (properties[aSortProperty.toNat]?).map (fun p => p.sortMethod)

/-- The static method `itemSort`. -/
def itemSort (env : Env T J) (t1 t2 : T) (aSortProperty aSortAscending : Int) : Bool :=
  let res : Int :=
    match sortMethodAt env.itemHandler.properties aSortProperty with
    | some .SORT_NUMERIC =>
      Util.compare (env.itemHandler.numberF t1 aSortProperty)
        (env.itemHandler.numberF t2 aSortProperty)
    | some .SORT_TEXT =>
      env.stricmp (env.itemHandler.stringF t1 aSortProperty)
        (env.itemHandler.stringF t2 aSortProperty)
    | some .SORT_CUSTOM => env.itemHandler.customSorterF t1 t2 aSortProperty
    | _ => 0
  if aSortAscending = 1 then decide (res < 0) else decide (res > 0)

/-- Insertion of one element for `sortItems`: `a` goes before the first element that is
not ordered before it. -/
def sortInsert (comp : T → T → Bool) (a : T) : List T → List T
  | [] => [a]
  | b :: l => if comp b a then b :: sortInsert comp a l else a :: b :: l

/-- The call `std::sort(allItems.begin(), allItems.end(), comp)`. C++ leaves the order of
equivalent elements open; the model is an insertion sort. -/
def sortItems (comp : T → T → Bool) : List T → List T
  | [] => []
  | a :: l => sortInsert comp a (sortItems comp l)

/-- The loop of `std::lower_bound` (binary search) on the range of length `len` starting
at `first`; `comp e` is `comp(e, value)`. The first argument bounds the number of rounds. -/
def lowerBoundLoop (comp : T → Bool) (l : List T) : Nat → Nat → Nat → Nat
  | 0, first, _ => first
  | fuel + 1, first, len =>
    if len = 0 then first
    else
      let half := len / 2
      let middle := first + half
      match l[middle]? with
      | none => first
      | some m =>
        if comp m then lowerBoundLoop comp l fuel (middle + 1) (len - half - 1)
        else lowerBoundLoop comp l fuel first half

/-- The call `std::lower_bound(l.begin(), l.end(), value, comp)` as a position. -/
def lowerBound (comp : T → Bool) (l : List T) : Nat :=
  lowerBoundLoop comp l l.length 0 l.length

/-- The largest value of the type `int`, which has 32 bits. -/
def INT_MAX : Int := 2147483647

/-- The smallest value of the type `int`. -/
def INT_MIN : Int := -2147483648

/-- The value an `int` holds when it is assigned the arithmetic result `x`: a result above
`INT_MAX` wraps around to a negative value and a result below `INT_MIN` to a non-negative
one. For every result that one addition or subtraction of two `int`s can have (absolute
value below `2^32`) this is `x` reduced modulo `2^32` into the range of `int`. -/
def wrapInt (x : Int) : Int :=
  if x > INT_MAX then x % 2147483648 - 2147483648
  else if x < INT_MIN then x % 2147483648
  else x

/-- The statement `x++` on an `int`: the value after `INT_MAX` is `INT_MIN`. -/
def intIncrement (x : Int) : Int :=
  if x = INT_MAX then INT_MIN else x + 1

/-- The method `handleAddItem`: returns `allItems` and `rangeStart_` afterwards;
`rangeStart_` is an `int` reference and `rangeStart_++` wraps around at `INT_MAX`. -/
def handleAddItem (env : Env T J) (allItems : List T) (aItem : T)
    (aSortProperty aSortAscending : Int) (rangeStart_ : Int) : List T × Int :=
  let pos := lowerBound (fun e => itemSort env e aItem aSortProperty aSortAscending) allItems
  let allItems := allItems.insertIdx pos aItem
  if (pos : Int) < rangeStart_ then (allItems, intIncrement rangeStart_)
  else (allItems, rangeStart_)

/-- The method `handleRemoveItem`: returns `allItems` and `rangeStart_` afterwards;
`none` when the item is not found, where the code erases `allItems.end()`. The statement
`rangeStart_--` runs only for `rangeStart_ > pos >= 0`, where it cannot leave the range of
`int`. -/
def handleRemoveItem (env : Env T J) (allItems : List T) (aItem : T) (rangeStart_ : Int) :
    Option (List T × Int) :=
  match findItem env aItem allItems with
  | none => none
  | some pos =>
    let allItems := allItems.eraseIdx pos
    if (pos : Int) < rangeStart_ then some (allItems, rangeStart_ - 1)
    else some (allItems, rangeStart_)

/-- The expression `needSort` of `runTasks` with the short-circuit evaluation of `||`:
returns its value and `prevValues` afterwards (`prevValues[k]` inserts a missing key). -/
def needSort (updatedProperties : PropertyIdSet) (prevValues : ValueMap)
    (sortProperty sortAscending : Int) (itemListChanged : Bool) : Bool × ValueMap :=
  if sortProperty ∈ updatedProperties then (true, prevValues)
  else
    let r1 := prevValues.index .TYPE_SORT_ASCENDING
    if r1.1 ≠ sortAscending then (true, r1.2)
    else
      let r2 := r1.2.index .TYPE_SORT_PROPERTY
      if r2.1 ≠ sortProperty then (true, r2.2)
      else (itemListChanged, r2.2)

/-- The loop "Go through the tasks" of `runTasks` over the entries of `tl` in key order;
the state is `allItems`, `newStart` and `updatedItems`. -/
def taskLoop (env : Env T J) (sortProperty sortAscending : Int) :
    TaskMap T → List T × Int × TaskMap T → Option (List T × Int × TaskMap T)
  | [], st => some st
  | (k, t) :: rest, (allItems, newStart, updatedItems) =>
    if t.type = Tasks.ADD_ITEM.val then
      let r := handleAddItem env allItems k sortProperty sortAscending newStart
      taskLoop env sortProperty sortAscending rest (r.1, r.2, updatedItems)
    else if t.type = Tasks.REMOVE_ITEM.val then
      match handleRemoveItem env allItems k newStart with
      | none => none
      | some r => taskLoop env sortProperty sortAscending rest (r.1, r.2, updatedItems)
    else if t.type = Tasks.UPDATE_ITEM.val then
      taskLoop env sortProperty sortAscending rest
        (allItems, newStart, TaskMap.emplace updatedItems k t)
    else taskLoop env sortProperty sortAscending rest (allItems, newStart, updatedItems)

/-- The method `appendItemPosition`. -/
def appendItemPosition (env : Env T J) (aItem : T) (json_ : Payload J) (pos : Nat) :
    Payload J :=
  json_.setItem pos (fun e => { e with id := some (env.getToken aItem) })

/-- The method `appendItem` with a property set (four arguments). -/
def appendItemProperties (env : Env T J) (aItem : T) (json_ : Payload J) (pos : Nat)
    (aPropertyIds : PropertyIdSet) : Payload J :=
  let properties := env.serializeItemProperties aItem aPropertyIds env.itemHandler
  (appendItemPosition env aItem json_ pos).setItem pos
    (fun e => { e with properties := some properties })

/-- The method `appendItem` without a property set (three arguments). -/
def appendItem (env : Env T J) (aItem : T) (json_ : Payload J) (pos : Nat) : Payload J :=
  appendItemProperties env aItem json_ pos (toPropertyIdSet env.itemHandler.properties)

/-- The loop "List items" of `runTasks`, from position `pos` on. -/
def listItems (env : Env T J) (updatedItems : TaskMap T) (oldViewItems : List T) :
    List T → Nat → Payload J → Payload J
  | [], _, j => j
  | item :: rest, pos, j =>
    let j :=
      if !isInList env item oldViewItems then appendItem env item j pos
      else
        match TaskMap.find updatedItems item with
        | some props => appendItemProperties env item j pos props.updatedProperties
        | none => appendItemPosition env item j pos
    listItems env updatedItems oldViewItems rest (pos + 1) j

/-- The element that the loop "List items" writes for one item of the new window. -/
def itemEntry (env : Env T J) (updatedItems : TaskMap T) (oldViewItems : List T) (item : T) :
    ItemJson J :=
  if !isInList env item oldViewItems then
    { id := some (env.getToken item),
      properties := some (env.serializeItemProperties item
        (toPropertyIdSet env.itemHandler.properties) env.itemHandler) }
  else
    match TaskMap.find updatedItems item with
    | some props =>
      { id := some (env.getToken item),
        properties := some (env.serializeItemProperties item props.updatedProperties
          env.itemHandler) }
    | none => { id := some (env.getToken item), properties := none }

/-- The list `l` is in the order of `itemSort` for the given sort property and direction:
no adjacent pair `(a, b)` has `itemSort(b, a)`. -/
def sortedBy (env : Env T J) (aSortProperty aSortAscending : Int) (l : List T) : Prop :=
  List.Chain' (fun a b => itemSort env b a aSortProperty aSortAscending = false) l

/-- The method `sendJson`: the message handed to `module->send`, if any. -/
def sendJson (j : Payload J) : Option (Payload J) :=
  if j.is_null then none else some j

/-- The second half of `runTasks`, from "Get the new visible items" to `sendJson(j)`:
`s` is the state after the task loop and `updateValues`, `newStart`, `updatedItems` are the
local variables at that point. The difference `totalItemCount - newStart` is an `int` and
wraps around when `newStart` is `INT_MIN` after an overflow of the task loop; the
difference `newStart - updateValues[TYPE_RANGE_START]` is taken of two non-negative `int`s
and stays in range. -/
def runTasksFinish (env : Env T J) (s : ListViewController T) (updateValues : ValueMap)
    (newStart : Int) (updatedItems : TaskMap T) : ListViewController T × TickOutcome J :=
  -- Get the new visible items
  let totalItemCount : Int := (s.allItems.length : Int)
  let newStart := if newStart ≥ totalItemCount then 0 else newStart
  let r := updateValues.index .TYPE_MAX_COUNT
  let updateValues := r.2
  let count := min (wrapInt (totalItemCount - newStart)) r.1
  if count < 0 then (s, .countNegative)
  else
    let viewItemsNew := (s.allItems.drop newStart.toNat).take count.toNat
    let oldViewItems := s.currentViewItems
    -- List items
    let j := listItems env updatedItems oldViewItems viewItemsNew 0 Payload.null
    let changedTotal := decide (totalItemCount ≠ s.prevTotalCount)
    let prevTotal := if changedTotal then totalItemCount else s.prevTotalCount
    let s := { s with prevTotalCount := prevTotal }
    let total := if changedTotal then some totalItemCount else j.total_items
    let j := { j with total_items := total }
    let r := updateValues.index .TYPE_RANGE_START
    let updateValues := r.2
    let startOffset := newStart - r.1
    let offset := if startOffset ≠ 0 then some startOffset else j.range_offset
    let j := { j with range_offset := offset }
    let j := { j with range_start := some newStart }
    let s := { s with currentViewItems := viewItemsNew, prevValues := updateValues }
    (s, .completed (sendJson j))

/-- The method `runTasks`: the state afterwards and the outcome; `none` when the run
erases `allItems.end()`. The part after the task loop is `runTasksFinish`. -/
def runTasks (env : Env T J) (s : ListViewController T) :
    Option (ListViewController T × TickOutcome J) :=
  let drained := s.tasks.get [] ∅
  let tl := drained.1
  let updatedProperties := drained.2.1
  let s := { s with tasks := drained.2.2 }
  if tl.isEmpty && !s.currentValues.hasChanged && !s.itemListChanged then
    some (s, .noChanges)
  else
    let r := s.currentValues.getAll
    let s := { s with currentValues := r.2 }
    let r := r.1.index .TYPE_SORT_ASCENDING
    let sortAscending := r.1
    let r := r.2.index .TYPE_SORT_PROPERTY
    let sortProperty := r.1
    let updateValues := r.2
    if sortProperty < 0 then some (s, .sortPropertyUnset)
    else
      let ns := needSort updatedProperties s.prevValues sortProperty sortAscending
        s.itemListChanged
      let comp := fun t1 t2 => itemSort env t1 t2 sortProperty sortAscending
      let sorted := if ns.1 then sortItems comp s.allItems else s.allItems
      let s := { s with prevValues := ns.2, allItems := sorted }
      let r := updateValues.index .TYPE_RANGE_START
      let newStart := r.1
      let updateValues := r.2
      if newStart < 0 then some (s, .rangeStartNegative)
      else
        let s := { s with itemListChanged := false }
        -- Go through the tasks
        match taskLoop env sortProperty sortAscending tl (s.allItems, newStart, []) with
        | none => none
        | some (allItems, newStart, updatedItems) =>
          some (runTasksFinish env { s with allItems := allItems } updateValues newStart
            updatedItems)

/-! ## The controller in its surroundings

The source collaborator owns the collection returned by `itemListF()` and calls the
notification methods when the collection changes; the session layer delivers requests; the
timer runs `runTasks` while it is started. -/

/-- The controller together with its collaborators and the messages sent so far. -/
structure World (T : Type) (J : Type) where
  env : Env T J
  lvc : ListViewController T
  sent : List (Payload J)

/-- What can happen to a controller. -/
inductive Event (T : Type) where
  | postSettings (j : SettingsJson)
  | postFilter (j : FilterJson)
  | deleteFilter
  | deleteView
  | sourceAdd (x : T)
  | sourceRemove (x : T)
  | sourceUpdate (x : T) (property : Int) (value : Int)
  | timerTick
  | sourceReset (items : List T)

/-- The world before any request: a constructed controller over the given collaborators. -/
def World.init (env : Env T J) : World T J :=
  { env := env, lvc := ListViewController.new, sent := [] }

/-- One event. A rejected request leaves the controller as it is when the exception is
thrown; the timer only runs `runTasks` while it is started; `none` when `runTasks` has no
defined result; the source calls `setResetItems` when it replaces its collection. -/
def World.step (w : World T J) : Event T → Option (World T J)
  | .postSettings j =>
    match handlePostSettings w.env w.lvc j with
    | .ok s => some { w with lvc := s }
    | .error e => some { w with lvc := e.2 }
  | .postFilter j => some { w with lvc := handlePostFilter w.env w.lvc j }
  | .deleteFilter => some { w with lvc := handleDeleteFilter w.env w.lvc }
  | .deleteView => some { w with lvc := handleReset w.lvc }
  | .sourceAdd x =>
    if isInList w.env x w.env.itemListF then some w
    else
      let env := { w.env with itemListF := w.env.itemListF ++ [x] }
      some { w with env := env, lvc := onItemAdded env w.lvc x }
  | .sourceRemove x =>
    match findItem w.env x w.env.itemListF with
    | none => some w
    | some pos =>
      let env := { w.env with itemListF := w.env.itemListF.eraseIdx pos }
      some { w with env := env, lvc := onItemRemoved env w.lvc x }
  | .sourceUpdate x property value =>
    let h := w.env.itemHandler
    let numberF := fun t p => if t = x ∧ p = property then value else h.numberF t p
    let env := { w.env with itemHandler := { h with numberF := numberF } }
    some { w with env := env, lvc := onItemUpdated env w.lvc x {property} }
  | .timerTick =>
    if !w.lvc.timerRunning then some w
    else
      match runTasks w.env w.lvc with
      | none => none
      | some (s, .completed (some j)) => some { w with lvc := s, sent := w.sent ++ [j] }
      | some (s, _) => some { w with lvc := s }
  | .sourceReset items =>
    let env := { w.env with itemListF := items }
    some { w with env := env, lvc := setResetItems env w.lvc }

/-- A sequence of events, from left to right. -/
def World.run (w : World T J) : List (Event T) → Option (World T J)
  | [] => some w
  | e :: es =>
    match w.step e with
    | none => none
    | some w => World.run w es

end Controller

/-! ## A concrete instance

Handles are natural numbers and the token of a handle is the number itself. The schema has
two numeric properties: property `0` of the item `n` is `n`, property `1` is `100 - n`.
The filter accepts everything when its pattern is empty and otherwise the items whose
text for the filter property equals the pattern; the text of every property of an item
is "even" or "odd". Serialized properties are the pairs of id and numeric value of the
requested schema properties. -/

/-- The item handler of the instance. -/
def demoHandler : PropertyItemHandler Nat :=
  { properties := [⟨0, "size", .SORT_NUMERIC⟩, ⟨1, "free", .SORT_NUMERIC⟩],
    numberF := fun t p => if p = 0 then (t : Int) else 100 - (t : Int),
    stringF := fun t _ => if t % 2 = 0 then "even" else "odd",
    customSorterF := fun _ _ _ => 0 }

/-- The collaborators of the instance over the given source collection. -/
def demoEnv (snapshot : List Nat) : Env Nat (List (Int × Int)) :=
  { getToken := fun t => t,
    itemHandler := demoHandler,
    itemListF := snapshot,
    filterMatch := fun f _ stringF => f.pattern.isEmpty || stringF f.property == f.pattern,
    stricmp := fun a b => if a < b then -1 else if a = b then 0 else 1,
    serializeItemProperties := fun t ids h =>
      (h.properties.filter (fun p => decide (p.id ∈ ids))).map
        (fun p => (p.id, h.numberF t p.id)) }

/-- A settings POST with all four values: window `[0, 3)`, ascending by "size". -/
def demoSettings : SettingsJson :=
  { range_start := some 0, max_count := some 3, sort_property := some "size",
    sort_ascending := some true, paused := none }

/-- A settings POST without `max_count`: start `0`, ascending by "size". -/
def demoSettingsNoCount : SettingsJson :=
  { range_start := some 0, max_count := none, sort_property := some "size",
    sort_ascending := some true, paused := none }

/-- A settings POST that sets `max_count` and switches to descending order. -/
def demoSettingsDescending : SettingsJson :=
  { range_start := none, max_count := some 10, sort_property := none,
    sort_ascending := some false, paused := none }

/-- A filter POST: only items whose "size" text is "even". -/
def demoFilterEven : FilterJson :=
  { pattern := "even", method := 0, property := "size" }

/-- The world reached from a fresh controller over `snapshot` by `events`. -/
def demoWorld (snapshot : List Nat) (events : List (Event Nat)) : World Nat (List (Int × Int)) :=
  ((World.init (demoEnv snapshot)).run events).getD (World.init (demoEnv snapshot))

/-- The controller after one more run of `runTasks` in the world `w`. -/
def demoTickState (w : World Nat (List (Int × Int))) : ListViewController Nat :=
  match runTasks w.env w.lvc with
  | some (s, _) => s
  | none => w.lvc

/-- The message sent by one more run of `runTasks` in the world `w`. -/
def demoTickPayload (w : World Nat (List (Int × Int))) : Payload (List (Int × Int)) :=
  match runTasks w.env w.lvc with
  | some (_, .completed (some p)) => p
  | _ => Payload.null

/-- Source `[5, 3, 9]`, view activated with `demoSettings`, no run of the timer yet. -/
def worldActivated : World Nat (List (Int × Int)) :=
  demoWorld [5, 3, 9] [.postSettings demoSettings]

/-- As `worldActivated`, then one run of the timer and the source gains the item `1`. -/
def worldAdded : World Nat (List (Int × Int)) :=
  demoWorld [5, 3, 9] [.postSettings demoSettings, .timerTick, .sourceAdd 1]

/-- As `worldAdded`, and property `1` of the item `5` changes to `42`. -/
def worldUpdated : World Nat (List (Int × Int)) :=
  demoWorld [5, 3, 9]
    [.postSettings demoSettings, .timerTick, .sourceAdd 1, .sourceUpdate 5 1 42]

/-- Source `[2, 4]`, filter "even" posted, then the view activated. -/
def worldEven : World Nat (List (Int × Int)) :=
  demoWorld [2, 4] [.postFilter demoFilterEven, .postSettings demoSettings]

/-- The events before the run of the timer that leaves the list unsorted: activation
without `max_count`, one run of the timer, then `max_count` and descending order. -/
def eventsUnsorted : List (Event Nat) :=
  [.postSettings demoSettingsNoCount, .timerTick, .postSettings demoSettingsDescending]

/-- The world after `eventsUnsorted` over the source `[1, 2, 3]`. -/
def worldUnsorted : World Nat (List (Int × Int)) :=
  demoWorld [1, 2, 3] eventsUnsorted

/-- The events that duplicate an item: activation, one run of the timer, the source gains
the item `7`, the filter is deleted, one run of the timer. -/
def eventsDuplicate : List (Event Nat) :=
  [.postSettings demoSettings, .timerTick, .sourceAdd 7, .deleteFilter, .timerTick]

/-- The events that activate a view after a filter was posted. -/
def eventsFilterFirst : List (Event Nat) :=
  [.postFilter demoFilterEven, .postSettings demoSettings]

/-- As `worldActivated`, then one run of the timer: the window `[3, 5, 9]` has been sent. -/
def worldTicked : World Nat (List (Int × Int)) :=
  demoWorld [5, 3, 9] [.postSettings demoSettings, .timerTick]

/-- As `worldTicked`, then the filter is deleted. -/
def worldRefiltered : World Nat (List (Int × Int)) :=
  demoWorld [5, 3, 9] [.postSettings demoSettings, .timerTick, .deleteFilter]

/-- A filter POST whose property name is not in the schema. -/
def demoFilterUnknown : FilterJson :=
  { pattern := "even", method := 0, property := "nope" }

/-- A settings POST with a negative `range_start` and other keys. -/
def demoSettingsNegative : SettingsJson :=
  { range_start := some (-1), max_count := some 5, sort_property := some "size",
    sort_ascending := some false, paused := some true }

/-- The tasks of a sequence queued one after the other for the item `x` with
`ItemTasks::add`, starting from the map `m`. -/
def enqueueTasks {T : Type} [LinearOrder T] (x : T) (m : TaskMap T) :
    List MergeTask → TaskMap T
  | [] => m
  | t :: ts => enqueueTasks x (ItemTasks.add m x t) ts

/-- The task `r` has the smallest type occurring in `l` and the union of the property sets
of the tasks of `l` that have this type. -/
def MergeTask.IsMergeOf (r : MergeTask) (l : List MergeTask) : Prop :=
  (∃ t ∈ l, t.type = r.type) ∧
  (∀ t ∈ l, r.type ≤ t.type) ∧
  (∀ i : Int, i ∈ r.updatedProperties ↔ ∃ t ∈ l, t.type = r.type ∧ i ∈ t.updatedProperties)

/-- The tokens of the items that have a task of the given type in the drained map, in
key order. -/
def taskTokens {T J : Type} (env : Env T J) (type : Tasks) (tl : TaskMap T) : List Nat :=
  (tl.filter (fun e => decide (e.2.type = type.val))).map (fun e => env.getToken e.1)

/-- A settings POST whose `range_start` lies beyond the three items of the source. -/
def demoSettingsBeyond : SettingsJson :=
  { range_start := some 5, max_count := some 3, sort_property := some "size",
    sort_ascending := some true, paused := none }

/-- Source `[5, 3, 9]`, view activated with `demoSettingsBeyond`, no run of the timer yet. -/
def worldBeyond : World Nat (List (Int × Int)) :=
  demoWorld [5, 3, 9] [.postSettings demoSettingsBeyond]

/-- A settings POST without a sort property: window `[0, 3)` only. -/
def demoSettingsNoSort : SettingsJson :=
  { range_start := some 0, max_count := some 3, sort_property := none,
    sort_ascending := none, paused := none }

/-- The events that leave an Update pending for the item `4` while it is absent from the
list: activation, one run of the timer, property `1` of `4` changes, the source loses `4`,
the filter is deleted. -/
def eventsPendingUpdate : List (Event Nat) :=
  [.postSettings demoSettings, .timerTick, .sourceUpdate 4 1 42, .sourceRemove 4,
    .deleteFilter]

/-- The world after `eventsPendingUpdate` over the source `[5, 3, 9, 4]`. -/
def worldPendingUpdate : World Nat (List (Int × Int)) :=
  demoWorld [5, 3, 9, 4] eventsPendingUpdate

/-- As `worldPendingUpdate`, then the source gains the item `4` and loses it again. -/
def worldReadded : World Nat (List (Int × Int)) :=
  demoWorld [5, 3, 9, 4] (eventsPendingUpdate ++ [.sourceAdd 4, .sourceRemove 4])

/-- The events that drop an inserted item without a Remove: activation, one run of the
timer, the source gains `4` and loses it again, one run of the timer, the filter is
deleted. -/
def eventsRebuilt : List (Event Nat) :=
  [.postSettings demoSettings, .timerTick, .sourceAdd 4, .sourceRemove 4, .timerTick,
    .deleteFilter]

/-- The events in which a run of the timer stops at the sort property check: activation
without a sort property, the source gains `4` and loses it again, one run of the timer,
then the sort property is posted. -/
def eventsUnsortedTick : List (Event Nat) :=
  [.postSettings demoSettingsNoSort, .sourceAdd 4, .sourceRemove 4, .timerTick,
    .postSettings demoSettings]

/-- As `worldTicked`, then the source gains the item `4` and loses it again. -/
def worldAddedRemoved : World Nat (List (Int × Int)) :=
  demoWorld [5, 3, 9] [.postSettings demoSettings, .timerTick, .sourceAdd 4, .sourceRemove 4]

/-- The events that leave a Remove pending for an item that is no longer in the list:
activation, one run of the timer, the source loses the item `2`, the filter is deleted. -/
def eventsStaleRemove : List (Event Nat) :=
  [.postSettings demoSettings, .timerTick, .sourceRemove 2, .deleteFilter]

/-- The world after `eventsStaleRemove` over the source `[1, 2, 3]`. -/
def worldStaleRemove : World Nat (List (Int × Int)) :=
  demoWorld [1, 2, 3] eventsStaleRemove

/-- As `worldUpdated`, and the source loses the item `9`: an Add, an Update and a Remove
are pending. -/
def worldMixed : World Nat (List (Int × Int)) :=
  demoWorld [5, 3, 9]
    [.postSettings demoSettings, .timerTick, .sourceAdd 1, .sourceUpdate 5 1 42,
      .sourceRemove 9]

/-- The events in which the view is stopped and activated again between two runs of the
timer. -/
def eventsRestarted : List (Event Nat) :=
  [.postSettings demoSettings, .timerTick, .deleteView, .postSettings demoSettings,
    .timerTick]

/-- The events in which the items are reset between two runs of the timer. -/
def eventsItemsReset : List (Event Nat) :=
  [.postSettings demoSettings, .timerTick, .sourceReset [5, 3, 9], .timerTick]

/-- As `worldTicked`, then property `1` of the item `5` changes to `42`. -/
def worldTouched : World Nat (List (Int × Int)) :=
  demoWorld [5, 3, 9] [.postSettings demoSettings, .timerTick, .sourceUpdate 5 1 42]

/-! ## Lemmas -/

set_option linter.unusedSectionVars false

section Lemmas

variable {T : Type} [LinearOrder T] {J : Type}

/-- Changing the last element of a list through `List.modify`. -/
theorem modify_append_singleton {α : Type} (f : α → α) (arr : List α) (e : α) :
    (arr ++ [e]).modify f arr.length = arr ++ [f e] := by
  induction arr with
  | nil => simp
  | cons a l ih => simp [ih]

/-- Assigning to the element one past the end of the `items` array appends one element. -/
theorem setItem_at_length (j : Payload J) (f : ItemJson J → ItemJson J)
    (pos : Nat) (h : j.itemEntries.length = pos) :
    j.setItem pos f = { j with items := some (j.itemEntries ++ [f ⟨none, none⟩]) } := by
  unfold Payload.setItem
  simp only [Payload.itemEntries] at h
  subst h
  simp [Payload.itemEntries, modify_append_singleton]

/-- Assigning to the last element of the `items` array changes that element. -/
theorem setItem_at_last (j : Payload J) (f : ItemJson J → ItemJson J)
    (arr : List (ItemJson J)) (e : ItemJson J) (h : j.items = some (arr ++ [e])) :
    j.setItem arr.length f = { j with items := some (arr ++ [f e]) } := by
  unfold Payload.setItem
  simp [h, modify_append_singleton]

/-- The loop "List items" appends one `itemEntry` per item, in order. -/
theorem listItems_spec (env : Env T J) (updatedItems : TaskMap T) (oldViewItems : List T) :
    ∀ (items : List T) (pos : Nat) (j : Payload J), j.itemEntries.length = pos →
      (listItems env updatedItems oldViewItems items pos j).itemEntries =
          j.itemEntries ++ items.map (itemEntry env updatedItems oldViewItems) ∧
        (listItems env updatedItems oldViewItems items pos j).total_items = j.total_items ∧
        (listItems env updatedItems oldViewItems items pos j).range_offset = j.range_offset ∧
        (listItems env updatedItems oldViewItems items pos j).range_start = j.range_start := by
  intro items
  induction items with
  | nil => intro pos j _; simp [listItems]
  | cons item rest ih =>
    intro pos j h
    have hpos : appendItemPosition env item j pos =
        { j with items := some (j.itemEntries ++ [⟨some (env.getToken item), none⟩]) } := by
      unfold appendItemPosition
      rw [setItem_at_length j _ pos h]
    have hprops : ∀ ps, appendItemProperties env item j pos ps =
        { j with items := some (j.itemEntries ++
          [⟨some (env.getToken item), some (env.serializeItemProperties item ps env.itemHandler)⟩]) } := by
      intro ps
      unfold appendItemProperties
      rw [hpos]
      have := setItem_at_last
        ({ j with items := some (j.itemEntries ++ [⟨some (env.getToken item), none⟩]) } : Payload J)
        (fun e => { e with properties := some (env.serializeItemProperties item ps env.itemHandler) })
        j.itemEntries ⟨some (env.getToken item), none⟩ rfl
      rw [h] at this
      simpa using this
    have key : (if !isInList env item oldViewItems then appendItem env item j pos
        else match TaskMap.find updatedItems item with
          | some props => appendItemProperties env item j pos props.updatedProperties
          | none => appendItemPosition env item j pos) =
        { j with items := some (j.itemEntries ++ [itemEntry env updatedItems oldViewItems item]) } := by
      unfold itemEntry appendItem
      by_cases hin : isInList env item oldViewItems = true
      · simp only [hin, Bool.not_true, Bool.false_eq_true, if_false]
        cases hf : TaskMap.find updatedItems item with
        | none => simp [hpos]
        | some t => simp [hprops]
      · simp only [Bool.not_eq_true] at hin
        simp [hin, hprops]
    simp only [listItems]
    rw [key]
    have hlen : (({ j with items := some (j.itemEntries ++
        [itemEntry env updatedItems oldViewItems item]) } : Payload J)).itemEntries.length = pos + 1 := by
      simp [Payload.itemEntries] at h ⊢
      exact h
    have := ih (pos + 1) _ hlen
    simpa [Payload.itemEntries] using this

/-- Reading a key does not change what any key reads afterwards. -/
theorem valueMap_index_snd_get (m : ValueMap) (k k' : ValueType) :
    (m.index k).2.get k' = m.get k' := by
  cases m with
  | mk a b c d =>
    cases k <;> cases k' <;> cases a <;> cases b <;> cases c <;> cases d <;>
      simp [ValueMap.get, ValueMap.index, ValueMap.find, ValueMap.assign]

/-- The value returned by `ValueMap.index` is `ValueMap.get`. -/
theorem valueMap_index_fst (m : ValueMap) (k : ValueType) : (m.index k).1 = m.get k := rfl

/-- Assignments to `items` leave `total_items` alone. -/
theorem setItem_total_items (j : Payload J) (pos : Nat) (f : ItemJson J → ItemJson J) :
    (j.setItem pos f).total_items = j.total_items := rfl

/-- Assignments to `items` leave `range_offset` alone. -/
theorem setItem_range_offset (j : Payload J) (pos : Nat) (f : ItemJson J → ItemJson J) :
    (j.setItem pos f).range_offset = j.range_offset := rfl

/-- Assignments to `items` leave `range_start` alone. -/
theorem setItem_range_start (j : Payload J) (pos : Nat) (f : ItemJson J → ItemJson J) :
    (j.setItem pos f).range_start = j.range_start := rfl

/-- The loop "List items" only writes the `items` key. -/
theorem listItems_fields (env : Env T J) (updatedItems : TaskMap T)
    (oldViewItems : List T) (items : List T) :
    ∀ (pos : Nat) (j : Payload J),
      (listItems env updatedItems oldViewItems items pos j).total_items = j.total_items ∧
      (listItems env updatedItems oldViewItems items pos j).range_offset = j.range_offset ∧
      (listItems env updatedItems oldViewItems items pos j).range_start = j.range_start := by
  induction items with
  | nil => intro pos j; simp [listItems]
  | cons item rest ih =>
    intro pos j
    simp only [listItems]
    obtain ⟨h1, h2, h3⟩ := ih (pos + 1)
      (if !isInList env item oldViewItems then appendItem env item j pos
        else match TaskMap.find updatedItems item with
          | some props => appendItemProperties env item j pos props.updatedProperties
          | none => appendItemPosition env item j pos)
    rw [h1, h2, h3]
    split
    · simp [appendItem, appendItemProperties, appendItemPosition, setItem_total_items,
        setItem_range_offset, setItem_range_start]
    · split <;> simp [appendItemProperties, appendItemPosition, setItem_total_items,
        setItem_range_offset, setItem_range_start]

/-- A message with `range_start` is not null and is sent. -/
theorem sendJson_range_start (j : Payload J) (n : Int) (h : j.range_start = some n) :
    sendJson j = some j := by
  simp [sendJson, Payload.is_null, h]

/-- What a run of `runTasksFinish` that reaches `sendJson` computes. -/
theorem runTasksFinish_completed (env : Env T J) (s s' : ListViewController T)
    (uv : ValueMap) (start1 : Int) (updatedItems : TaskMap T) (sent : Option (Payload J))
    (h : runTasksFinish env s uv start1 updatedItems = (s', .completed sent)) :
    ∃ (newStart count : Int),
      newStart = (if start1 ≥ (s.allItems.length : Int) then 0 else start1) ∧
      count = min (wrapInt ((s.allItems.length : Int) - newStart)) (uv.get .TYPE_MAX_COUNT) ∧
      0 ≤ count ∧
      s'.allItems = s.allItems ∧
      s'.currentViewItems = (s.allItems.drop newStart.toNat).take count.toNat ∧
      sent = some
        { items := (listItems env updatedItems s.currentViewItems s'.currentViewItems 0
            Payload.null).items,
          total_items :=
            if (s.allItems.length : Int) ≠ s.prevTotalCount then some (s.allItems.length : Int)
            else none,
          range_offset :=
            if newStart - uv.get .TYPE_RANGE_START ≠ 0 then
              some (newStart - uv.get .TYPE_RANGE_START)
            else none,
          range_start := some newStart } ∧
      s'.prevTotalCount = (s.allItems.length : Int) ∧
      (∀ k, s'.prevValues.get k = uv.get k) ∧
      s'.tasks = s.tasks ∧ s'.filter = s.filter ∧ s'.active = s.active ∧
      s'.timerRunning = s.timerRunning ∧ s'.itemListChanged = s.itemListChanged ∧
      s'.currentValues = s.currentValues := by
  unfold runTasksFinish at h
  simp only [valueMap_index_fst, valueMap_index_snd_get] at h
  by_cases hc : min (wrapInt ((s.allItems.length : Int) -
      (if start1 ≥ (s.allItems.length : Int) then 0 else start1))) (uv.get .TYPE_MAX_COUNT) < 0
  · rw [if_pos hc] at h
    simp at h
  · rw [if_neg hc] at h
    simp only [Prod.mk.injEq, TickOutcome.completed.injEq] at h
    obtain ⟨hs, hsent⟩ := h
    subst hs
    subst hsent
    refine ⟨_, _, rfl, rfl, not_lt.mp hc, rfl, rfl, ?_, ?_, ?_, rfl, rfl, rfl, rfl, rfl, rfl⟩
    · rw [sendJson_range_start _ _ rfl]
      simp [Payload.null, listItems_fields]
    · simp only [decide_eq_true_eq]
      split
      · rfl
      · rename_i hne; simp only [ne_eq, not_not] at hne; exact hne.symm
    · intro k; simp [valueMap_index_snd_get]

/-- Lookup after `emplace` of a key that was absent. -/
theorem taskMap_find_emplace (m : TaskMap T) (k : T) (t : MergeTask) (k' : T)
    (hk : TaskMap.find m k = none) :
    TaskMap.find (TaskMap.emplace m k t) k' =
      if k' = k then some t else TaskMap.find m k' := by
  induction m with
  | nil =>
    by_cases h : k' = k
    · simp [TaskMap.emplace, TaskMap.find, h]
    · have h' : ¬ k = k' := fun e => h e.symm
      simp [TaskMap.emplace, TaskMap.find, h, h']
  | cons e rest ih =>
    obtain ⟨a, v⟩ := e
    have hne : ¬ a = k := by
      intro e
      simp [TaskMap.find, e] at hk
    have hk' : TaskMap.find rest k = none := by
      simpa [TaskMap.find, hne] using hk
    have heq : ¬ k = a := fun e => hne e.symm
    unfold TaskMap.emplace
    by_cases hlt : k < a
    · by_cases h : k' = k
      · subst h; simp [hlt, TaskMap.find]
      · have h' : ¬ k = k' := fun e => h e.symm
        simp [hlt, TaskMap.find, h, h']
    · simp only [hlt, heq, if_false, TaskMap.find]
      rw [ih hk']
      by_cases h : k' = k
      · subst h; simp [hne]
      · simp [h]

/-- A key below all keys of the map is not found. -/
theorem taskMap_find_eq_none_of_lt (m : TaskMap T) (k : T)
    (h : ∀ e ∈ m, k < e.1) : TaskMap.find m k = none := by
  induction m with
  | nil => rfl
  | cons e rest ih =>
    obtain ⟨a, v⟩ := e
    have ha : k < a := h (a, v) (List.mem_cons_self _ _)
    have hne : ¬ a = k := fun e => lt_irrefl _ (e ▸ ha)
    simp only [TaskMap.find, hne, if_false]
    exact ih (fun e he => h e (List.mem_cons_of_mem _ he))

/-- What the task loop leaves in `updatedItems` for every key. -/
theorem taskLoop_updatedItems (env : Env T J) (sp sa : Int) :
    ∀ (tl : TaskMap T) (items : List T) (start : Int) (upd : TaskMap T)
      (items' : List T) (start' : Int) (upd' : TaskMap T),
      TaskMap.WF tl → (∀ e ∈ tl, TaskMap.find upd e.1 = none) →
      taskLoop env sp sa tl (items, start, upd) = some (items', start', upd') →
      ∀ k, TaskMap.find upd' k =
        match TaskMap.find upd k with
        | some t => some t
        | none =>
          match TaskMap.find tl k with
          | some t => if t.type = Tasks.UPDATE_ITEM.val then some t else none
          | none => none := by
  intro tl
  induction tl with
  | nil =>
    intro items start upd items' start' upd' _ _ h k
    simp only [taskLoop, Option.some.injEq, Prod.mk.injEq] at h
    obtain ⟨_, _, h3⟩ := h
    subst h3
    cases TaskMap.find upd k <;> simp [TaskMap.find]
  | cons e rest ih =>
    intro items start upd items' start' upd' hwf hfresh h k
    obtain ⟨a, t⟩ := e
    have hwf' : TaskMap.WF rest := (List.pairwise_cons.mp hwf).2
    have hlt : ∀ e ∈ rest, a < e.1 := by
      intro e he
      exact (List.pairwise_cons.mp hwf).1 e.1 (List.mem_map_of_mem _ he)
    have hfresh' : ∀ e ∈ rest, TaskMap.find upd e.1 = none :=
      fun e he => hfresh e (List.mem_cons_of_mem _ he)
    have hrest_a : TaskMap.find rest a = none := taskMap_find_eq_none_of_lt rest a hlt
    have hupd_a : TaskMap.find upd a = none := hfresh (a, t) (List.mem_cons_self _ _)
    unfold taskLoop at h
    by_cases h1 : t.type = Tasks.ADD_ITEM.val
    · simp only [h1, if_true] at h
      rw [ih _ _ _ _ _ _ hwf' hfresh' h k]
      cases hk : TaskMap.find upd k with
      | some u => rfl
      | none =>
        by_cases hak : a = k
        · subst hak; simp [TaskMap.find, hrest_a, h1, Tasks.val]
        · simp [TaskMap.find, hak]
    · simp only [h1, if_false] at h
      by_cases h2 : t.type = Tasks.REMOVE_ITEM.val
      · simp only [h2, if_true] at h
        cases hr : handleRemoveItem env items a start with
        | none => simp [hr] at h
        | some r =>
          simp only [hr] at h
          rw [ih _ _ _ _ _ _ hwf' hfresh' h k]
          cases hk : TaskMap.find upd k with
          | some u => rfl
          | none =>
            by_cases hak : a = k
            · subst hak; simp [TaskMap.find, hrest_a, h2, Tasks.val]
            · simp [TaskMap.find, hak]
      · simp only [h2, if_false] at h
        by_cases h3 : t.type = Tasks.UPDATE_ITEM.val
        · simp only [h3, if_true] at h
          have hfresh'' : ∀ e ∈ rest, TaskMap.find (TaskMap.emplace upd a t) e.1 = none := by
            intro e he
            rw [taskMap_find_emplace _ _ _ _ hupd_a]
            have : ¬ e.1 = a := fun h => lt_irrefl _ (h ▸ hlt e he)
            simp [this, hfresh' e he]
          rw [ih _ _ _ _ _ _ hwf' hfresh'' h k, taskMap_find_emplace _ _ _ _ hupd_a]
          by_cases hak : k = a
          · subst hak; simp [TaskMap.find, hupd_a, h3]
          · have hak' : ¬ a = k := fun e => hak e.symm
            simp [TaskMap.find, hak, hak']
        · simp only [h3, if_false] at h
          rw [ih _ _ _ _ _ _ hwf' hfresh' h k]
          cases hk : TaskMap.find upd k with
          | some u => rfl
          | none =>
            by_cases hak : a = k
            · subst hak; simp [TaskMap.find, hrest_a, h3]
            · simp [TaskMap.find, hak]

/-- A result above `INT_MAX` is stored as a negative `int`. -/
theorem wrapInt_neg_of_gt (x : Int) (h : x > INT_MAX) : wrapInt x < 0 := by
  unfold wrapInt
  rw [if_pos h]
  omega

/-- A result in the range of `int` is stored as it is. -/
theorem wrapInt_of_range (x : Int) (h1 : INT_MIN ≤ x) (h2 : x ≤ INT_MAX) : wrapInt x = x := by
  unfold wrapInt
  rw [if_neg (not_lt.mpr h2), if_neg (not_lt.mpr h1)]

/-- A non-negative result that is stored as a non-negative `int` is stored as it is. -/
theorem wrapInt_eq_of_nonneg (x : Int) (h1 : 0 ≤ x) (h2 : 0 ≤ wrapInt x) : wrapInt x = x := by
  by_cases h : x > INT_MAX
  · exact absurd (wrapInt_neg_of_gt x h) (not_lt.mpr h2)
  · exact wrapInt_of_range x (by unfold INT_MIN; omega) (not_lt.mp h)

/-- For the results of one addition or subtraction of two `int`s, `wrapInt` is the
reduction modulo `2^32` into the range of `int`. -/
theorem wrapInt_eq_mod (x : Int) (h1 : -4294967296 ≤ x) (h2 : x < 4294967296) :
    wrapInt x = (x + 2147483648) % 4294967296 - 2147483648 := by
  unfold wrapInt INT_MAX INT_MIN
  split_ifs <;> omega

/-- For an `int`, `intIncrement` is the successor reduced modulo `2^32` into the range of
`int`. -/
theorem intIncrement_eq_mod (x : Int) (h1 : INT_MIN ≤ x) (h2 : x ≤ INT_MAX) :
    intIncrement x = (x + 1 + 2147483648) % 4294967296 - 2147483648 := by
  unfold intIncrement
  unfold INT_MAX at h2 ⊢
  unfold INT_MIN at h1 ⊢
  split_ifs <;> omega

/-- The range start after `handleAddItem`. -/
theorem handleAddItem_start (env : Env T J) (items : List T) (a : T) (sp sa start : Int) :
    (handleAddItem env items a sp sa start).2 =
      if ((lowerBound (fun e => itemSort env e a sp sa) items : Nat) : Int) < start then
        intIncrement start
      else start := by
  unfold handleAddItem
  simp only []
  split <;> rfl

/-- After `handleAddItem` the range start is non-negative or `INT_MIN` (it has wrapped
around) when it was so before. -/
theorem handleAddItem_start_cases (env : Env T J) (items : List T) (a : T) (sp sa start : Int)
    (h : 0 ≤ start ∨ start = INT_MIN) :
    0 ≤ (handleAddItem env items a sp sa start).2 ∨
      (handleAddItem env items a sp sa start).2 = INT_MIN := by
  rw [handleAddItem_start]
  unfold intIncrement
  unfold INT_MIN at h ⊢
  split_ifs <;> omega

/-- The method `handleRemoveItem` keeps the range start non-negative and does not raise
it. -/
theorem handleRemoveItem_start_nonneg (env : Env T J) (items : List T) (a : T) (start : Int)
    (r : List T × Int) (hr : handleRemoveItem env items a start = some r) (h : 0 ≤ start) :
    0 ≤ r.2 ∧ r.2 ≤ start := by
  unfold handleRemoveItem at hr
  cases hf : findItem env a items with
  | none => simp [hf] at hr
  | some pos =>
    simp only [hf] at hr
    split at hr
    · simp only [Option.some.injEq] at hr; subst hr; simp only []; omega
    · simp only [Option.some.injEq] at hr; subst hr; simp only []; omega

/-- The method `handleRemoveItem` leaves a negative range start as it is. -/
theorem handleRemoveItem_start_neg (env : Env T J) (items : List T) (a : T) (start : Int)
    (r : List T × Int) (hr : handleRemoveItem env items a start = some r) (h : start < 0) :
    r.2 = start := by
  unfold handleRemoveItem at hr
  cases hf : findItem env a items with
  | none => simp [hf] at hr
  | some pos =>
    simp only [hf] at hr
    split at hr
    · omega
    · simp only [Option.some.injEq] at hr; subst hr; rfl

/-- After the task loop the range start is non-negative or `INT_MIN` (it has wrapped
around) when it was so before. -/
theorem taskLoop_start_cases (env : Env T J) (sp sa : Int) :
    ∀ (tl : TaskMap T) (items : List T) (start : Int) (upd : TaskMap T)
      (r : List T × Int × TaskMap T),
      taskLoop env sp sa tl (items, start, upd) = some r →
      (0 ≤ start ∨ start = INT_MIN) → (0 ≤ r.2.1 ∨ r.2.1 = INT_MIN) := by
  intro tl
  induction tl with
  | nil =>
    intro items start upd r h hs
    simp only [taskLoop, Option.some.injEq] at h
    subst h; exact hs
  | cons e rest ih =>
    intro items start upd r h hs
    obtain ⟨a, t⟩ := e
    unfold taskLoop at h
    split at h
    · exact ih _ _ _ _ h (handleAddItem_start_cases env items a sp sa start hs)
    · split at h
      · cases hr : handleRemoveItem env items a start with
        | none => simp [hr] at h
        | some r' =>
          simp only [hr] at h
          refine ih _ _ _ _ h ?_
          rcases hs with hs | hs
          · exact Or.inl (handleRemoveItem_start_nonneg env items a start r' hr hs).1
          · right
            rw [handleRemoveItem_start_neg env items a start r' hr
              (by rw [hs]; unfold INT_MIN; omega)]
            exact hs
      · split at h
        · exact ih _ _ _ _ h hs
        · exact ih _ _ _ _ h hs

/-- What a run of `runTasks` that reaches `sendJson` computes. -/
theorem runTasks_completed (env : Env T J) (s s' : ListViewController T)
    (sent : Option (Payload J)) (h : runTasks env s = some (s', .completed sent)) :
    ∃ (items0 : List T) (start1 newStart count : Int) (updatedItems : TaskMap T),
      0 ≤ s.currentValues.values.get .TYPE_SORT_PROPERTY ∧
      0 ≤ s.currentValues.values.get .TYPE_RANGE_START ∧
      (items0 = s.allItems ∨
        items0 = sortItems (fun t1 t2 => itemSort env t1 t2
          (s.currentValues.values.get .TYPE_SORT_PROPERTY)
          (s.currentValues.values.get .TYPE_SORT_ASCENDING)) s.allItems) ∧
      taskLoop env (s.currentValues.values.get .TYPE_SORT_PROPERTY)
        (s.currentValues.values.get .TYPE_SORT_ASCENDING) s.tasks.tasks
        (items0, s.currentValues.values.get .TYPE_RANGE_START, []) =
          some (s'.allItems, start1, updatedItems) ∧
      newStart = (if start1 ≥ (s'.allItems.length : Int) then 0 else start1) ∧
      count = min ((s'.allItems.length : Int) - newStart)
        (s.currentValues.values.get .TYPE_MAX_COUNT) ∧
      0 ≤ count ∧
      s'.currentViewItems = (s'.allItems.drop newStart.toNat).take count.toNat ∧
      sent = some
        { items := (listItems env updatedItems s.currentViewItems s'.currentViewItems 0
            Payload.null).items,
          total_items :=
            if (s'.allItems.length : Int) ≠ s.prevTotalCount then some (s'.allItems.length : Int)
            else none,
          range_offset :=
            if newStart - s.currentValues.values.get .TYPE_RANGE_START ≠ 0 then
              some (newStart - s.currentValues.values.get .TYPE_RANGE_START)
            else none,
          range_start := some newStart } ∧
      s'.prevTotalCount = (s'.allItems.length : Int) ∧
      (∀ k, s'.prevValues.get k = s.currentValues.values.get k) ∧
      0 ≤ start1 := by
  unfold runTasks at h
  simp only [ViewTasks.get, ItemTasks.get, IntCollector.getAll, valueMap_index_fst,
    valueMap_index_snd_get] at h
  split at h
  · simp at h
  split at h
  · simp at h
  split at h
  · simp at h
  rename_i hsp hrs
  split at h
  · simp at h
  rename_i allItems start1 updatedItems hloop
  simp only [Option.some.injEq] at h
  obtain ⟨newStart, count, h1, h2, h3, h4, h5, h6, h7, h8, _⟩ :=
    runTasksFinish_completed env _ s' _ start1 updatedItems sent h
  simp only [valueMap_index_snd_get] at h1 h2 h3 h4 h5 h6 h7 h8
  simp only [← h4] at h1 h2 h5 h6 h7
  rw [← h4] at hloop
  have hwrap : 0 ≤ wrapInt ((s'.allItems.length : Int) - newStart) := by
    have := min_le_left (wrapInt ((s'.allItems.length : Int) - newStart))
      (s.currentValues.values.get .TYPE_MAX_COUNT)
    omega
  have hs1 : 0 ≤ start1 := by
    rcases taskLoop_start_cases env _ _ _ _ _ _ _ hloop (Or.inl (not_lt.mp hrs)) with hc | hc
    · exact hc
    · exfalso
      simp only [] at hc
      have hns : newStart = INT_MIN := by
        rw [h1, hc, if_neg (by unfold INT_MIN; omega)]
      rw [hns] at hwrap
      have := wrapInt_neg_of_gt ((s'.allItems.length : Int) - INT_MIN)
        (by unfold INT_MAX INT_MIN; omega)
      omega
  have hexact : wrapInt ((s'.allItems.length : Int) - newStart) =
      (s'.allItems.length : Int) - newStart := by
    apply wrapInt_eq_of_nonneg _ _ hwrap
    rw [h1]; split <;> omega
  rw [hexact] at h2
  refine ⟨_, start1, newStart, count, updatedItems, not_lt.mp hsp, not_lt.mp hrs, ?_, hloop,
    h1, h2, h3, h5, h6, h7, h8, hs1⟩
  split
  · right; rfl
  · left; rfl

/-- Lookup after merging into an entry. -/
theorem taskMap_find_mergeAt (m : TaskMap T) (k : T) (d : MergeTask) (k' : T) :
    TaskMap.find (TaskMap.mergeAt m k d) k' =
      if k' = k then (TaskMap.find m k).map (fun v => v.merge d) else TaskMap.find m k' := by
  induction m with
  | nil => simp [TaskMap.mergeAt, TaskMap.find]
  | cons e rest ih =>
    obtain ⟨a, v⟩ := e
    unfold TaskMap.mergeAt
    by_cases hak : a = k
    · subst hak
      by_cases h : k' = a
      · subst h; simp [TaskMap.find]
      · have h' : ¬ a = k' := fun e => h e.symm
        simp [TaskMap.find, h, h']
    · simp only [hak, if_false, TaskMap.find]
      rw [ih]
      by_cases h : k' = k
      · subst h; simp [hak]
      · simp [h]

/-- Lookup after `ItemTasks::add`. -/
theorem itemTasks_find_add (m : TaskMap T) (k : T) (d : MergeTask) (k' : T) :
    TaskMap.find (ItemTasks.add m k d) k' =
      if k' = k then
        some (match TaskMap.find m k with
          | some v => v.merge d
          | none => d)
      else TaskMap.find m k' := by
  unfold ItemTasks.add
  cases hf : TaskMap.find m k with
  | some v =>
    simp only []
    rw [taskMap_find_mergeAt, hf]
    simp
  | none =>
    simp only []
    rw [taskMap_find_emplace _ _ _ _ hf]

/-- The position returned by `findItem` holds an item with the token searched for. -/
theorem findItem_some (env : Env T J) (aItem : T) :
    ∀ (aItems : List T) (pos : Nat), findItem env aItem aItems = some pos →
      ∃ i, aItems[pos]? = some i ∧ env.getToken i = env.getToken aItem := by
  intro aItems
  induction aItems with
  | nil => intro pos h; simp [findItem] at h
  | cons a rest ih =>
    intro pos h
    unfold findItem at h
    split at h
    · rename_i heq
      simp only [Option.some.injEq] at h
      subst h
      exact ⟨a, by simp, heq.symm⟩
    · cases hf : findItem env aItem rest with
      | none => simp [hf] at h
      | some n =>
        simp only [hf, Option.map_some', Option.some.injEq] at h
        subst h
        obtain ⟨i, hi, ht⟩ := ih n hf
        exact ⟨i, by simpa using hi, ht⟩

/-- A prefix is the prefix of its own length. -/
theorem take_length_take {α : Type} (l : List α) (n : Nat) :
    l.take (l.take n).length = l.take n := by
  induction l generalizing n with
  | nil => simp
  | cons a l ih =>
    cases n with
    | zero => simp
    | succ n => simp [ih]

/-- Every entry after `emplace` is the new one or an old one. -/
theorem taskMap_emplace_mem (m : TaskMap T) (k : T) (d : MergeTask) :
    ∀ e ∈ TaskMap.emplace m k d, e.1 = k ∨ e ∈ m := by
  induction m with
  | nil => intro e he; simp [TaskMap.emplace] at he; left; rw [he]
  | cons a rest ih =>
    obtain ⟨a, v⟩ := a
    intro e he
    unfold TaskMap.emplace at he
    split at he
    · rcases List.mem_cons.mp he with h | h
      · left; rw [h]
      · right; exact h
    · split at he
      · right; exact he
      · rcases List.mem_cons.mp he with h | h
        · right; rw [h]; exact List.mem_cons_self _ _
        · rcases ih e h with h' | h'
          · left; exact h'
          · right; exact List.mem_cons_of_mem _ h'

/-- The map invariant survives `emplace`. -/
theorem taskMap_emplace_wf (m : TaskMap T) (k : T) (d : MergeTask) (h : TaskMap.WF m) :
    TaskMap.WF (TaskMap.emplace m k d) := by
  induction m with
  | nil => simp [TaskMap.emplace, TaskMap.WF]
  | cons a rest ih =>
    obtain ⟨a, v⟩ := a
    have hrest : TaskMap.WF rest := (List.pairwise_cons.mp h).2
    have hlt : ∀ e ∈ rest, a < e.1 := fun e he =>
      (List.pairwise_cons.mp h).1 e.1 (List.mem_map_of_mem _ he)
    unfold TaskMap.emplace
    split
    · rename_i hka
      unfold TaskMap.WF
      simp only [List.map_cons]
      refine List.pairwise_cons.mpr ⟨?_, h⟩
      intro b hb
      rcases List.mem_cons.mp hb with hb | hb
      · rw [hb]; exact hka
      · obtain ⟨e, he, hfe⟩ := List.mem_map.mp hb
        rw [← hfe]
        exact lt_trans hka (hlt e he)
    · split
      · exact h
      · rename_i h1 h2
        unfold TaskMap.WF
        simp only [List.map_cons]
        refine List.pairwise_cons.mpr ⟨?_, ih hrest⟩
        intro b hb
        obtain ⟨e, he, hfe⟩ := List.mem_map.mp hb
        rw [← hfe]
        rcases taskMap_emplace_mem rest k d e he with h' | h'
        · rw [h']
          exact lt_of_le_of_ne (not_lt.mp h1) (fun e => h2 e.symm)
        · exact hlt e h'

/-- Merging into an entry keeps the keys. -/
theorem taskMap_mergeAt_keys (m : TaskMap T) (k : T) (d : MergeTask) :
    (TaskMap.mergeAt m k d).map Prod.fst = m.map Prod.fst := by
  induction m with
  | nil => rfl
  | cons a rest ih =>
    obtain ⟨a, v⟩ := a
    unfold TaskMap.mergeAt
    split
    · rfl
    · simp [ih]

/-- The map invariant survives `ItemTasks::add`. -/
theorem itemTasks_add_wf (m : TaskMap T) (k : T) (d : MergeTask) (h : TaskMap.WF m) :
    TaskMap.WF (ItemTasks.add m k d) := by
  unfold ItemTasks.add
  split
  · unfold TaskMap.WF
    rw [taskMap_mergeAt_keys]
    exact h
  · exact taskMap_emplace_wf m k d h

/-- The binary search stays inside the range it is given. -/
theorem lowerBoundLoop_le (comp : T → Bool) (l : List T) :
    ∀ (fuel first len : Nat), lowerBoundLoop comp l fuel first len ≤ first + len := by
  intro fuel
  induction fuel with
  | zero => intro first len; simp [lowerBoundLoop]
  | succ n ih =>
    intro first len
    unfold lowerBoundLoop
    split
    · omega
    · rename_i hlen
      simp only []
      split
      · omega
      · split
        · have := ih (first + len / 2 + 1) (len - len / 2 - 1)
          have hdiv : len / 2 < len := Nat.div_lt_self (Nat.pos_of_ne_zero hlen) (by decide)
          omega
        · have := ih first (len / 2)
          have hdiv : len / 2 ≤ len := Nat.div_le_self _ _
          omega

/-- The position returned by `lowerBound` is a position of the list or its end. -/
theorem lowerBound_le_length (comp : T → Bool) (l : List T) : lowerBound comp l ≤ l.length := by
  have := lowerBoundLoop_le comp l l.length 0 l.length
  unfold lowerBound
  omega

/-- A run of `runTasksFinish` that leaves through `count < 0` changes nothing. -/
theorem runTasksFinish_countNegative (env : Env T J) (s s' : ListViewController T)
    (uv : ValueMap) (start1 : Int) (updatedItems : TaskMap T)
    (h : runTasksFinish env s uv start1 updatedItems = (s', .countNegative)) :
    s' = s ∧
    min (wrapInt ((s.allItems.length : Int) -
        (if start1 ≥ (s.allItems.length : Int) then 0 else start1)))
      (uv.get .TYPE_MAX_COUNT) < 0 := by
  unfold runTasksFinish at h
  simp only [valueMap_index_fst, valueMap_index_snd_get] at h
  by_cases hc : min (wrapInt ((s.allItems.length : Int) -
      (if start1 ≥ (s.allItems.length : Int) then 0 else start1))) (uv.get .TYPE_MAX_COUNT) < 0
  · rw [if_pos hc] at h
    simp only [Prod.mk.injEq, and_true] at h
    exact ⟨h.symm, hc⟩
  · rw [if_neg hc] at h
    simp at h

/-- A run of `runTasksFinish` leaves through `count < 0` or reaches `sendJson`, and it
keeps the queue. -/
theorem runTasksFinish_outcome (env : Env T J) (s s' : ListViewController T)
    (uv : ValueMap) (start1 : Int) (updatedItems : TaskMap T) (o : TickOutcome J)
    (h : runTasksFinish env s uv start1 updatedItems = (s', o)) :
    (o = .countNegative ∨ ∃ sent, o = .completed sent) ∧ s'.tasks = s.tasks := by
  unfold runTasksFinish at h
  simp only [] at h
  by_cases hc : min (wrapInt ((s.allItems.length : Int) -
      (if start1 ≥ (s.allItems.length : Int) then 0 else start1)))
      (uv.index .TYPE_MAX_COUNT).1 < 0
  · rw [if_pos hc] at h
    simp only [Prod.mk.injEq] at h
    exact ⟨Or.inl h.2.symm, by rw [← h.1]⟩
  · rw [if_neg hc] at h
    simp only [Prod.mk.injEq] at h
    exact ⟨Or.inr ⟨_, h.2.symm⟩, by rw [← h.1]⟩

/-- Every run of `runTasks` leaves the queue empty. -/
theorem runTasks_tasks (env : Env T J) (s s' : ListViewController T) (o : TickOutcome J)
    (h : runTasks env s = some (s', o)) :
    s'.tasks = { updatedProperties := ∅, tasks := [] } := by
  unfold runTasks at h
  simp only [ViewTasks.get, ItemTasks.get, IntCollector.getAll] at h
  split at h
  · simp only [Option.some.injEq, Prod.mk.injEq] at h
    rw [← h.1]
  split at h
  · simp only [Option.some.injEq, Prod.mk.injEq] at h
    rw [← h.1]
  split at h
  · simp only [Option.some.injEq, Prod.mk.injEq] at h
    rw [← h.1]
  split at h
  · simp at h
  simp only [Option.some.injEq] at h
  exact (runTasksFinish_outcome env _ _ _ _ _ _ h).2

/-- After `ItemTasks::add` the map holds a task. -/
theorem itemTasks_add_ne_nil (m : TaskMap T) (k : T) (d : MergeTask) :
    ItemTasks.add m k d ≠ [] := by
  intro h
  have hf := itemTasks_find_add m k d k
  rw [h] at hf
  simp [TaskMap.find] at hf

/-- Every call that queues a task leaves a consistent queue. -/
theorem consistent_enqueue (q : ViewTasks T) (aItem : T) (type : Tasks) (props : PropertyIdSet) :
    (q.enqueue aItem type props).Consistent := by
  intro h
  cases type <;>
    exact absurd h (itemTasks_add_ne_nil _ _ _)

/-- The notification `onItemUpdated` keeps the queue consistent. -/
theorem consistent_onItemUpdated (env : Env T J) (s : ListViewController T) (aItem : T)
    (ps : PropertyIdSet) (h : s.tasks.Consistent) :
    (onItemUpdated env s aItem ps).tasks.Consistent := by
  unfold onItemUpdated
  split
  · exact h
  · simp only []
    split
    · split
      · exact consistent_enqueue s.tasks aItem .REMOVE_ITEM ∅
      · exact h
    · split
      · exact consistent_enqueue s.tasks aItem .ADD_ITEM ∅
      · exact consistent_enqueue s.tasks aItem .UPDATE_ITEM ps

/-- The notification `onItemAdded` keeps the queue consistent. -/
theorem consistent_onItemAdded (env : Env T J) (s : ListViewController T) (aItem : T)
    (h : s.tasks.Consistent) : (onItemAdded env s aItem).tasks.Consistent := by
  unfold onItemAdded
  split
  · exact h
  · split
    · exact h
    · exact consistent_enqueue s.tasks aItem .ADD_ITEM ∅

/-- The notification `onItemRemoved` keeps the queue consistent. -/
theorem consistent_onItemRemoved (env : Env T J) (s : ListViewController T) (aItem : T)
    (h : s.tasks.Consistent) : (onItemRemoved env s aItem).tasks.Consistent := by
  unfold onItemRemoved
  split
  · exact h
  · split
    · exact h
    · split
      · exact h
      · rename_i i _
        exact consistent_enqueue s.tasks i .REMOVE_ITEM ∅

/-- The method `parseProperties` throws with the controller untouched, or returns the
controller with at most the timer and the settings collector changed. -/
theorem parseProperties_cases (env : Env T J) (s : ListViewController T) (j : SettingsJson) :
    (∃ msg, parseProperties env s j = .error (msg, s)) ∨
    (∃ (running : Bool) (c : IntCollector),
      parseProperties env s j = .ok { s with timerRunning := running, currentValues := c }) := by
  unfold parseProperties
  cases hrs : j.range_start with
  | some n =>
    by_cases hn : n < 0
    · left; exact ⟨"Negative range start not allowed", by simp [hn, bind, Except.bind]⟩
    · cases hsp : j.sort_property with
      | some name =>
        by_cases hp : findPropertyByName name env.itemHandler.properties = -1
        · left
          exact ⟨"Invalid sort property", by simp [hn, hp, bind, Except.bind, pure, Except.pure]⟩
        · right
          simp only [hn, hp, bind, Except.bind, pure, Except.pure, if_false]
          split
          · exact ⟨_, _, rfl⟩
          · exact ⟨_, _, rfl⟩
      | none =>
        right
        simp only [hn, bind, Except.bind, pure, Except.pure, if_false]
        split
        · exact ⟨_, _, rfl⟩
        · exact ⟨_, _, rfl⟩
  | none =>
    cases hsp : j.sort_property with
    | some name =>
      by_cases hp : findPropertyByName name env.itemHandler.properties = -1
      · left
        exact ⟨"Invalid sort property", by simp [hp, bind, Except.bind, pure, Except.pure]⟩
      · right
        simp only [hp, bind, Except.bind, pure, Except.pure, if_false]
        split
        · exact ⟨_, _, rfl⟩
        · exact ⟨_, _, rfl⟩
    | none =>
      right
      simp only [bind, Except.bind, pure, Except.pure]
      split
      · exact ⟨_, _, rfl⟩
      · exact ⟨_, _, rfl⟩

/-- A settings POST does not touch the queue, whether it is accepted or rejected. -/
theorem handlePostSettings_tasks (env : Env T J) (s : ListViewController T) (j : SettingsJson) :
    (∀ s', handlePostSettings env s j = .ok s' → s'.tasks = s.tasks) ∧
    (∀ e, handlePostSettings env s j = .error e → e.2.tasks = s.tasks) := by
  unfold handlePostSettings
  rcases parseProperties_cases env s j with ⟨msg, h⟩ | ⟨r, c, h⟩
  · rw [h]
    constructor
    · intro s' hs; simp [bind, Except.bind] at hs
    · intro e he
      simp only [bind, Except.bind, Except.error.injEq] at he
      rw [← he]
  · rw [h]
    constructor
    · intro s' hs
      simp only [bind, Except.bind, pure, Except.pure] at hs
      split at hs
      · simp only [Except.ok.injEq] at hs; rw [← hs]; rfl
      · simp only [Except.ok.injEq] at hs; rw [← hs]
    · intro e he
      simp only [bind, Except.bind, pure, Except.pure] at he
      split at he <;> simp at he

/-- Every event keeps the queue consistent. -/
theorem consistent_step (w w' : World T J) (e : Event T) (hstep : w.step e = some w')
    (h : w.lvc.tasks.Consistent) : w'.lvc.tasks.Consistent := by
  cases e with
  | postSettings j =>
    obtain ⟨hok, herr⟩ := handlePostSettings_tasks w.env w.lvc j
    simp only [World.step] at hstep
    cases hr : handlePostSettings w.env w.lvc j with
    | ok s' =>
      rw [hr] at hstep
      simp only [Option.some.injEq] at hstep
      subst hstep
      simp only
      rw [hok s' hr]; exact h
    | error e =>
      rw [hr] at hstep
      simp only [Option.some.injEq] at hstep
      subst hstep
      simp only
      rw [herr e hr]; exact h
  | postFilter j =>
    simp only [World.step, Option.some.injEq] at hstep
    subst hstep
    simp only [handlePostFilter]
    split <;> exact h
  | deleteFilter =>
    simp only [World.step, Option.some.injEq] at hstep
    subst hstep
    exact h
  | deleteView =>
    simp only [World.step, Option.some.injEq] at hstep
    subst hstep
    intro _
    rfl
  | sourceAdd x =>
    simp only [World.step] at hstep
    split at hstep
    · simp only [Option.some.injEq] at hstep; subst hstep; exact h
    · simp only [Option.some.injEq] at hstep; subst hstep
      exact consistent_onItemAdded _ _ _ h
  | sourceRemove x =>
    simp only [World.step] at hstep
    split at hstep
    · simp only [Option.some.injEq] at hstep; subst hstep; exact h
    · simp only [Option.some.injEq] at hstep; subst hstep
      exact consistent_onItemRemoved _ _ _ h
  | sourceUpdate x property value =>
    simp only [World.step, Option.some.injEq] at hstep
    subst hstep
    exact consistent_onItemUpdated _ _ _ _ h
  | timerTick =>
    simp only [World.step] at hstep
    split at hstep
    · simp only [Option.some.injEq] at hstep; subst hstep; exact h
    · cases hr : runTasks w.env w.lvc with
      | none => rw [hr] at hstep; simp at hstep
      | some r =>
        obtain ⟨s', o⟩ := r
        have ht := runTasks_tasks w.env w.lvc s' o hr
        rw [hr] at hstep
        have hw : w'.lvc = s' := by
          split at hstep
          · simp at hstep
          · rename_i heq
            simp only [Option.some.injEq, Prod.mk.injEq] at heq hstep
            rw [← hstep]; exact heq.1.symm
          · rename_i heq
            simp only [Option.some.injEq, Prod.mk.injEq] at heq hstep
            rw [← hstep]; exact heq.1.symm
        rw [hw, ht]
        intro _; rfl
  | sourceReset items =>
    simp only [World.step, Option.some.injEq] at hstep
    subst hstep
    intro _
    rfl

/-- Every world reached from a fresh controller has a consistent queue. -/
theorem consistent_run (es : List (Event T)) :
    ∀ (w w' : World T J), w.run es = some w' → w.lvc.tasks.Consistent →
      w'.lvc.tasks.Consistent := by
  induction es with
  | nil =>
    intro w w' hrun h
    simp only [World.run, Option.some.injEq] at hrun
    subst hrun; exact h
  | cons e es ih =>
    intro w w' hrun h
    simp only [World.run] at hrun
    cases hs : w.step e with
    | none => rw [hs] at hrun; simp at hrun
    | some w1 =>
      rw [hs] at hrun
      exact ih w1 w' hrun (consistent_step w w1 e hs h)

/-- The accumulated property ids after a sequence of calls. -/
theorem enqueueAll_updatedProperties (ops : List (T × Tasks × PropertyIdSet)) :
    ∀ q : ViewTasks T,
      (q.enqueueAll ops).updatedProperties = q.updatedProperties ∪ updatedUnion ops := by
  induction ops with
  | nil => intro q; simp [ViewTasks.enqueueAll, updatedUnion]
  | cons op ops ih =>
    intro q
    obtain ⟨x, type, ps⟩ := op
    simp only [ViewTasks.enqueueAll, updatedUnion]
    rw [ih]
    cases type
    · simp [ViewTasks.enqueue, ViewTasks.updateItem, Finset.union_assoc]
    · simp [ViewTasks.enqueue, ViewTasks.addItem]
    · simp [ViewTasks.enqueue, ViewTasks.removeItem]

/-- The elements of the `items` array of a message, by the previous window and the
drained tasks. -/
theorem runTasks_itemEntries (env : Env T J) (s s' : ListViewController T) (p : Payload J)
    (hq : TaskMap.WF s.tasks.tasks)
    (h : runTasks env s = some (s', .completed (some p))) :
    ∃ updatedItems : TaskMap T,
      p.itemEntries = s'.currentViewItems.map (itemEntry env updatedItems s.currentViewItems) ∧
      ∀ k, TaskMap.find updatedItems k =
        match TaskMap.find s.tasks.tasks k with
        | some t => if t.type = Tasks.UPDATE_ITEM.val then some t else none
        | none => none := by
  obtain ⟨items0, start1, newStart, count, upd, _, _, _, hloop, _, _, _, _, hsent, _, _⟩ :=
    runTasks_completed env s s' (some p) h
  have hupd := taskLoop_updatedItems env _ _ s.tasks.tasks items0 _ [] _ _ _ hq
    (fun _ _ => rfl) hloop
  refine ⟨upd, ?_, ?_⟩
  · have hl := (listItems_spec env upd s.currentViewItems s'.currentViewItems 0
      Payload.null rfl).1
    simp only [Option.some.injEq] at hsent
    rw [hsent]
    simpa [Payload.itemEntries, Payload.null] using hl
  · intro k
    have := hupd k
    simpa [TaskMap.find] using this

/-- An invalidated list is always sorted again. -/
theorem needSort_of_changed (ups : PropertyIdSet) (prev : ValueMap) (sp sa : Int) :
    (needSort ups prev sp sa true).1 = true := by
  unfold needSort
  split
  · rfl
  · simp only []
    split
    · rfl
    · split <;> rfl

/-- A run of `runTasks` on an invalidated list that reaches `sendJson` applied the task
loop to the sorted list. -/
theorem runTasks_completed_invalidated (env : Env T J) (s s' : ListViewController T)
    (sent : Option (Payload J)) (h : runTasks env s = some (s', .completed sent))
    (hflag : s.itemListChanged = true) :
    ∃ (start1 : Int) (updatedItems : TaskMap T),
      taskLoop env (s.currentValues.values.get .TYPE_SORT_PROPERTY)
        (s.currentValues.values.get .TYPE_SORT_ASCENDING) s.tasks.tasks
        (sortItems (fun t1 t2 => itemSort env t1 t2
            (s.currentValues.values.get .TYPE_SORT_PROPERTY)
            (s.currentValues.values.get .TYPE_SORT_ASCENDING)) s.allItems,
          s.currentValues.values.get .TYPE_RANGE_START, []) =
          some (s'.allItems, start1, updatedItems) := by
  unfold runTasks at h
  simp only [ViewTasks.get, ItemTasks.get, IntCollector.getAll, valueMap_index_fst,
    valueMap_index_snd_get] at h
  split at h
  · simp at h
  split at h
  · simp at h
  split at h
  · simp at h
  split at h
  · simp at h
  rename_i allItems start1 updatedItems hloop
  simp only [Option.some.injEq] at h
  obtain ⟨_, _, _, _, _, h4, _⟩ :=
    runTasksFinish_completed env _ s' _ start1 updatedItems sent h
  simp only at h4
  rw [hflag, needSort_of_changed, if_pos rfl, ← h4] at hloop
  exact ⟨start1, updatedItems, hloop⟩

/-! ### Lemmas on the merge, the tokens of the list and the returns of `runTasks` -/

/-- The method `MergeTask::merge` does not depend on the order of its two tasks. -/
theorem merge_comm (a b : MergeTask) : a.merge b = b.merge a := by
  obtain ⟨ta, pa⟩ := a
  obtain ⟨tb, pb⟩ := b
  unfold MergeTask.merge
  simp only
  rcases lt_trichotomy ta tb with h | h | h
  · have h1 : ¬ tb < ta := not_lt.mpr (le_of_lt h)
    have h2 : ¬ tb = ta := fun e => (ne_of_lt h) e.symm
    simp [h, h1, h2]
  · subst h
    simp [Finset.union_comm]
  · have h1 : ¬ ta < tb := not_lt.mpr (le_of_lt h)
    have h2 : ¬ ta = tb := fun e => (ne_of_lt h) e.symm
    simp [h, h1, h2]

/-- The type after a merge is the smaller of the two types. -/
theorem merge_type (a b : MergeTask) : (a.merge b).type = min a.type b.type := by
  unfold MergeTask.merge
  rcases lt_trichotomy a.type b.type with h | h | h
  · simp [h, min_eq_left (le_of_lt h)]
  · simp [h]
  · have h1 : ¬ a.type < b.type := not_lt.mpr (le_of_lt h)
    have h2 : ¬ a.type = b.type := ne_of_gt h
    simp [h1, h2, min_eq_right (le_of_lt h)]

/-- The property ids after a merge are those of the tasks that have the smaller type. -/
theorem merge_props (a b : MergeTask) (i : Int) :
    i ∈ (a.merge b).updatedProperties ↔
      (a.type = (a.merge b).type ∧ i ∈ a.updatedProperties) ∨
      (b.type = (a.merge b).type ∧ i ∈ b.updatedProperties) := by
  unfold MergeTask.merge
  rcases lt_trichotomy a.type b.type with h | h | h
  · have h2 : ¬ b.type = a.type := fun e => (ne_of_lt h) e.symm
    simp [h, h2]
  · simp [h]
  · have h1 : ¬ a.type < b.type := not_lt.mpr (le_of_lt h)
    have h2 : ¬ a.type = b.type := ne_of_gt h
    simp [h1, h2]

/-- A task is determined by its type and the members of its property set. -/
theorem mergeTask_ext (a b : MergeTask) (ht : a.type = b.type)
    (hp : ∀ i, i ∈ a.updatedProperties ↔ i ∈ b.updatedProperties) : a = b := by
  obtain ⟨ta, pa⟩ := a
  obtain ⟨tb, pb⟩ := b
  simp only at ht hp
  subst ht
  have : pa = pb := Finset.ext hp
  rw [this]

/-- The method `MergeTask::merge` is associative. -/
theorem merge_assoc (a b c : MergeTask) : (a.merge b).merge c = a.merge (b.merge c) := by
  apply mergeTask_ext
  · simp only [merge_type, min_assoc]
  · intro i
    obtain ⟨ta, pa⟩ := a
    obtain ⟨tb, pb⟩ := b
    obtain ⟨tc, pc⟩ := c
    simp only [MergeTask.merge]
    split_ifs <;> (try simp only at *) <;> first
      | omega
      | rfl
      | tauto
      | (subst_vars; simp only [Finset.mem_union]; tauto)

/-- Merging one more task keeps the description of the merged task. -/
theorem isMergeOf_merge (acc a : MergeTask) (pre : List MergeTask)
    (h : acc.IsMergeOf pre) : (acc.merge a).IsMergeOf (pre ++ [a]) := by
  obtain ⟨⟨t0, ht0, ht0e⟩, hmin, hprops⟩ := h
  have hty := merge_type acc a
  refine ⟨?_, ?_, ?_⟩
  · rcases le_total acc.type a.type with hle | hle
    · exact ⟨t0, List.mem_append_left _ ht0, by rw [hty, min_eq_left hle, ht0e]⟩
    · exact ⟨a, List.mem_append_right _ (List.mem_singleton_self a),
        by rw [hty, min_eq_right hle]⟩
  · intro t ht
    rw [hty]
    rcases List.mem_append.mp ht with h1 | h1
    · exact le_trans (min_le_left _ _) (hmin t h1)
    · rw [List.mem_singleton.mp h1]; exact min_le_right _ _
  · intro i
    rw [merge_props]
    constructor
    · rintro (⟨he, hi⟩ | ⟨he, hi⟩)
      · obtain ⟨t, ht, hte, hti⟩ := (hprops i).mp hi
        exact ⟨t, List.mem_append_left _ ht, by rw [hte, he], hti⟩
      · exact ⟨a, List.mem_append_right _ (List.mem_singleton_self a), he, hi⟩
    · rintro ⟨t, ht, hte, hti⟩
      rcases List.mem_append.mp ht with h1 | h1
      · left
        have h2 : acc.type ≤ t.type := hmin t h1
        have h3 : (acc.merge a).type ≤ acc.type := by rw [hty]; exact min_le_left _ _
        have h4 : acc.type = (acc.merge a).type := by omega
        exact ⟨h4, (hprops i).mpr ⟨t, h1, by rw [hte, h4], hti⟩⟩
      · right
        rw [List.mem_singleton.mp h1] at hte hti
        exact ⟨hte, hti⟩

/-- Folding `merge` over a sequence gives the task described by `IsMergeOf`. -/
theorem isMergeOf_foldl (ts : List MergeTask) :
    ∀ (acc : MergeTask) (pre : List MergeTask), acc.IsMergeOf pre →
      (ts.foldl MergeTask.merge acc).IsMergeOf (pre ++ ts) := by
  induction ts with
  | nil => intro acc pre h; simpa using h
  | cons a ts ih =>
    intro acc pre h
    have := ih (acc.merge a) (pre ++ [a]) (isMergeOf_merge acc a pre h)
    simpa using this

/-- A single task is its own merge. -/
theorem isMergeOf_singleton (t : MergeTask) : t.IsMergeOf [t] := by
  refine ⟨⟨t, List.mem_singleton_self t, rfl⟩, ?_, ?_⟩
  · intro t' ht'; rw [List.mem_singleton.mp ht']
  · intro i
    constructor
    · intro hi; exact ⟨t, List.mem_singleton_self t, rfl, hi⟩
    · rintro ⟨t', ht', _, hi⟩; rw [List.mem_singleton.mp ht'] at hi; exact hi

/-- The description `IsMergeOf` determines the task. -/
theorem isMergeOf_unique (r1 r2 : MergeTask) (l : List MergeTask)
    (h1 : r1.IsMergeOf l) (h2 : r2.IsMergeOf l) : r1 = r2 := by
  obtain ⟨⟨t1, ht1, ht1e⟩, hmin1, hp1⟩ := h1
  obtain ⟨⟨t2, ht2, ht2e⟩, hmin2, hp2⟩ := h2
  have hty : r1.type = r2.type := by
    have a := hmin1 t2 ht2
    have b := hmin2 t1 ht1
    omega
  apply mergeTask_ext _ _ hty
  intro i
  rw [hp1 i, hp2 i, hty]

/-- The description `IsMergeOf` does not depend on the order of the sequence. -/
theorem isMergeOf_perm (r : MergeTask) (l1 l2 : List MergeTask) (hperm : l1.Perm l2)
    (h : r.IsMergeOf l1) : r.IsMergeOf l2 := by
  obtain ⟨⟨t1, ht1, ht1e⟩, hmin, hp⟩ := h
  refine ⟨⟨t1, hperm.mem_iff.mp ht1, ht1e⟩, fun t ht => hmin t (hperm.mem_iff.mpr ht), ?_⟩
  intro i
  rw [hp i]
  constructor
  · rintro ⟨t, ht, h⟩; exact ⟨t, hperm.mem_iff.mp ht, h⟩
  · rintro ⟨t, ht, h⟩; exact ⟨t, hperm.mem_iff.mpr ht, h⟩

/-- Queueing a sequence of tasks for an item that has a task merges them into it. -/
theorem find_enqueueTasks (x : T) (ts : List MergeTask) :
    ∀ (m : TaskMap T) (v : MergeTask), TaskMap.find m x = some v →
      TaskMap.find (enqueueTasks x m ts) x = some (ts.foldl MergeTask.merge v) := by
  induction ts with
  | nil => intro m v h; simpa [enqueueTasks] using h
  | cons a ts ih =>
    intro m v h
    simp only [enqueueTasks, List.foldl_cons]
    apply ih
    rw [itemTasks_find_add, h]
    simp

/-- Queueing a non-empty sequence of tasks for an item that has no entry in the map. -/
theorem find_enqueueTasks_fresh (m : TaskMap T) (x : T) (t : MergeTask) (ts : List MergeTask)
    (hm : TaskMap.find m x = none) :
    TaskMap.find (enqueueTasks x m (t :: ts)) x = some (ts.foldl MergeTask.merge t) := by
  simp only [enqueueTasks]
  apply find_enqueueTasks
  rw [itemTasks_find_add, if_pos rfl, hm]

/-- The result of folding `merge` over a non-empty sequence of tasks. -/
theorem isMergeOf_fold (t : MergeTask) (ts : List MergeTask) :
    (ts.foldl MergeTask.merge t).IsMergeOf (t :: ts) := by
  have := isMergeOf_foldl ts t [t] (isMergeOf_singleton t)
  simpa using this

/-- The insertion of `sortItems` adds the element and keeps the others. -/
theorem sortInsert_perm (comp : T → T → Bool) (a : T) (l : List T) :
    (sortInsert comp a l).Perm (a :: l) := by
  induction l with
  | nil => exact List.Perm.refl _
  | cons b l ih =>
    unfold sortInsert
    split
    · exact (List.Perm.cons b ih).trans (List.Perm.swap a b l)
    · exact List.Perm.refl _

/-- Sorting permutes the list. -/
theorem sortItems_perm (comp : T → T → Bool) (l : List T) : (sortItems comp l).Perm l := by
  induction l with
  | nil => exact List.Perm.refl _
  | cons a l ih =>
    unfold sortItems
    exact (sortInsert_perm comp a _).trans (List.Perm.cons a ih)

/-- Erasing a position takes out the element at that position. -/
theorem perm_cons_eraseIdx {α : Type} (l : List α) (pos : Nat) (e : α)
    (h : l[pos]? = some e) : l.Perm (e :: l.eraseIdx pos) := by
  induction l generalizing pos with
  | nil => simp at h
  | cons a l ih =>
    cases pos with
    | zero =>
      simp only [List.getElem?_cons_zero, Option.some.injEq] at h
      subst h
      exact List.Perm.refl _
    | succ n =>
      simp only [List.getElem?_cons_succ] at h
      simp only [List.eraseIdx_cons_succ]
      exact (List.Perm.cons a (ih n h)).trans (List.Perm.swap e a _)

/-- An item whose token is in the list is found. -/
theorem findItem_of_mem (env : Env T J) (aItem : T) (aItems : List T)
    (h : env.getToken aItem ∈ aItems.map env.getToken) :
    ∃ pos, findItem env aItem aItems = some pos := by
  induction aItems with
  | nil => simp at h
  | cons a rest ih =>
    unfold findItem
    by_cases heq : env.getToken aItem = env.getToken a
    · exact ⟨0, by simp [heq]⟩
    · simp only [heq, if_false]
      have h' : env.getToken aItem ∈ rest.map env.getToken := by
        simp only [List.map_cons, List.mem_cons] at h
        rcases h with h | h
        · exact absurd h heq
        · exact h
      obtain ⟨pos, hpos⟩ := ih h'
      exact ⟨pos + 1, by rw [hpos]; rfl⟩

/-- The tokens after `handleAddItem`. -/
theorem handleAddItem_tokens (env : Env T J) (items : List T) (a : T) (sp sa start : Int) :
    ((handleAddItem env items a sp sa start).1.map env.getToken).Perm
      (env.getToken a :: items.map env.getToken) := by
  have h1 : (handleAddItem env items a sp sa start).1 =
      items.insertIdx (lowerBound (fun e => itemSort env e a sp sa) items) a := by
    unfold handleAddItem; simp only []; split <;> rfl
  rw [h1]
  exact (List.perm_insertIdx a items (lowerBound_le_length _ _)).map env.getToken

/-- The tokens before `handleRemoveItem` are the token of the item and the tokens after
it. -/
theorem handleRemoveItem_tokens (env : Env T J) (items : List T) (a : T) (start : Int)
    (r : List T × Int) (h : handleRemoveItem env items a start = some r) :
    (items.map env.getToken).Perm (env.getToken a :: r.1.map env.getToken) := by
  unfold handleRemoveItem at h
  cases hf : findItem env a items with
  | none => simp [hf] at h
  | some pos =>
    obtain ⟨e, he, htok⟩ := findItem_some env a items pos hf
    have hr : r.1 = items.eraseIdx pos := by
      simp only [hf] at h
      split at h <;> (simp only [Option.some.injEq] at h; rw [← h])
    rw [hr, ← htok]
    exact (perm_cons_eraseIdx items pos e he).map env.getToken

/-- The tokens of the tasks of one type, for a map that starts with the entry `(k, t)`. -/
theorem taskTokens_cons (env : Env T J) (type : Tasks) (k : T) (t : MergeTask)
    (rest : TaskMap T) :
    taskTokens env type ((k, t) :: rest) =
      if t.type = type.val then env.getToken k :: taskTokens env type rest
      else taskTokens env type rest := by
  unfold taskTokens
  by_cases h : t.type = type.val <;> simp [List.filter_cons, h]

/-- The task loop has a result when the Remove tasks name pairwise different tokens of the
list, and it adds the tokens of the Add tasks and takes out those of the Remove tasks. -/
theorem taskLoop_tokens (env : Env T J) (sp sa : Int) :
    ∀ (tl : TaskMap T) (items : List T) (start : Int) (upd : TaskMap T),
      (taskTokens env .REMOVE_ITEM tl).Nodup →
      (∀ tok ∈ taskTokens env .REMOVE_ITEM tl, tok ∈ items.map env.getToken) →
      ∃ r : List T × Int × TaskMap T,
        taskLoop env sp sa tl (items, start, upd) = some r ∧
        (r.1.map env.getToken ++ taskTokens env .REMOVE_ITEM tl).Perm
          (taskTokens env .ADD_ITEM tl ++ items.map env.getToken) := by
  intro tl
  induction tl with
  | nil =>
    intro items start upd _ _
    exact ⟨_, rfl, by simp [taskTokens]⟩
  | cons e rest ih =>
    intro items start upd hnd hmem
    obtain ⟨k, t⟩ := e
    rw [taskTokens_cons] at hnd hmem
    rw [taskTokens_cons, taskTokens_cons]
    unfold taskLoop
    by_cases h1 : t.type = Tasks.ADD_ITEM.val
    · have h2 : ¬ t.type = Tasks.REMOVE_ITEM.val := by rw [h1]; decide
      simp only [h1, h2, if_true, if_false] at hnd hmem ⊢
      have hperm := handleAddItem_tokens env items k sp sa start
      obtain ⟨r, hr, hp⟩ := ih (handleAddItem env items k sp sa start).1
        (handleAddItem env items k sp sa start).2 upd hnd
        (fun tok ht => hperm.mem_iff.mpr (List.mem_cons_of_mem _ (hmem tok ht)))
      refine ⟨r, hr, hp.trans ?_⟩
      exact ((List.Perm.refl _).append hperm).trans List.perm_middle
    · simp only [h1, if_false] at hnd hmem ⊢
      by_cases h2 : t.type = Tasks.REMOVE_ITEM.val
      · simp only [h2, if_true] at hnd hmem ⊢
        have hk : env.getToken k ∈ items.map env.getToken :=
          hmem _ (List.mem_cons_self _ _)
        obtain ⟨pos, hpos⟩ := findItem_of_mem env k items hk
        have hsome : ∃ r1, handleRemoveItem env items k start = some r1 := by
          unfold handleRemoveItem
          rw [hpos]
          simp only []
          split <;> exact ⟨_, rfl⟩
        obtain ⟨r1, hr1⟩ := hsome
        have hperm := handleRemoveItem_tokens env items k start r1 hr1
        have hnd' := List.nodup_cons.mp hnd
        obtain ⟨r, hr, hp⟩ := ih r1.1 r1.2 upd hnd'.2 (by
          intro tok ht
          have h3 := hperm.mem_iff.mp (hmem tok (List.mem_cons_of_mem _ ht))
          rcases List.mem_cons.mp h3 with h4 | h4
          · exact absurd (h4 ▸ ht) hnd'.1
          · exact h4)
        refine ⟨r, by rw [hr1]; exact hr, ?_⟩
        refine List.perm_middle.trans ?_
        refine (List.Perm.cons _ hp).trans ?_
        refine List.perm_middle.symm.trans ?_
        exact (List.Perm.refl _).append hperm.symm
      · simp only [h2, if_false] at hnd hmem ⊢
        by_cases h3 : t.type = Tasks.UPDATE_ITEM.val
        · simp only [h3, if_true]
          exact ih items start _ hnd hmem
        · simp only [h3, if_false]
          exact ih items start upd hnd hmem

/-- The list the task loop of `runTasks` starts from: sorted when a sort is due. -/
theorem runTasks_of_taskLoop (env : Env T J) (s : ListViewController T)
    (hidle : (s.tasks.tasks.isEmpty && !s.currentValues.hasChanged && !s.itemListChanged) =
      false)
    (hsp : 0 ≤ s.currentValues.values.get .TYPE_SORT_PROPERTY)
    (hrs : 0 ≤ s.currentValues.values.get .TYPE_RANGE_START) :
    ∃ items0 : List T,
      items0.Perm s.allItems ∧
      (taskLoop env (s.currentValues.values.get .TYPE_SORT_PROPERTY)
          (s.currentValues.values.get .TYPE_SORT_ASCENDING) s.tasks.tasks
          (items0, s.currentValues.values.get .TYPE_RANGE_START, []) = none →
        runTasks env s = none) ∧
      (∀ (items1 : List T) (start1 : Int) (upd : TaskMap T),
        taskLoop env (s.currentValues.values.get .TYPE_SORT_PROPERTY)
          (s.currentValues.values.get .TYPE_SORT_ASCENDING) s.tasks.tasks
          (items0, s.currentValues.values.get .TYPE_RANGE_START, []) =
            some (items1, start1, upd) →
        ∃ (sMid : ListViewController T) (uv : ValueMap),
          runTasks env s = some (runTasksFinish env sMid uv start1 upd) ∧
          sMid.allItems = items1 ∧
          sMid.currentViewItems = s.currentViewItems ∧
          sMid.prevTotalCount = s.prevTotalCount ∧
          (∀ k, uv.get k = s.currentValues.values.get k)) := by
  refine ⟨if (needSort s.tasks.updatedProperties s.prevValues
      (s.currentValues.values.get .TYPE_SORT_PROPERTY)
      (s.currentValues.values.get .TYPE_SORT_ASCENDING) s.itemListChanged).1 = true
    then sortItems (fun t1 t2 => itemSort env t1 t2
      (s.currentValues.values.get .TYPE_SORT_PROPERTY)
      (s.currentValues.values.get .TYPE_SORT_ASCENDING)) s.allItems
    else s.allItems, ?_, ?_, ?_⟩
  · split
    · exact sortItems_perm _ _
    · exact List.Perm.refl _
  · intro hnone
    unfold runTasks
    simp only [ViewTasks.get, ItemTasks.get, IntCollector.getAll, valueMap_index_fst,
      valueMap_index_snd_get]
    rw [if_neg (by rw [hidle]; simp), if_neg (not_lt.mpr hsp), if_neg (not_lt.mpr hrs)]
    rw [hnone]
  · intro items1 start1 upd hloop
    unfold runTasks
    simp only [ViewTasks.get, ItemTasks.get, IntCollector.getAll, valueMap_index_fst,
      valueMap_index_snd_get]
    rw [if_neg (by rw [hidle]; simp), if_neg (not_lt.mpr hsp), if_neg (not_lt.mpr hrs)]
    rw [hloop]
    refine ⟨_, _, rfl, rfl, rfl, rfl, ?_⟩
    intro k
    simp only [valueMap_index_snd_get]

/-- What `runTasksFinish` does, by the sign of the window length. -/
theorem runTasksFinish_cases (env : Env T J) (s : ListViewController T) (uv : ValueMap)
    (start1 : Int) (upd : TaskMap T) :
    (runTasksFinish env s uv start1 upd).1.allItems = s.allItems ∧
    (min (wrapInt ((s.allItems.length : Int) -
        (if start1 ≥ (s.allItems.length : Int) then 0 else start1)))
      (uv.get .TYPE_MAX_COUNT) < 0 →
      (runTasksFinish env s uv start1 upd).2 = .countNegative) ∧
    (0 ≤ min (wrapInt ((s.allItems.length : Int) -
        (if start1 ≥ (s.allItems.length : Int) then 0 else start1)))
      (uv.get .TYPE_MAX_COUNT) →
      ∃ p : Payload J, (runTasksFinish env s uv start1 upd).2 = .completed (some p) ∧
        p.range_start = some (if start1 ≥ (s.allItems.length : Int) then 0 else start1)) := by
  unfold runTasksFinish
  simp only [valueMap_index_fst, valueMap_index_snd_get]
  by_cases hc : min (wrapInt ((s.allItems.length : Int) -
      (if start1 ≥ (s.allItems.length : Int) then 0 else start1))) (uv.get .TYPE_MAX_COUNT) < 0
  · rw [if_pos hc]
    exact ⟨rfl, fun _ => rfl, fun h => absurd hc (not_lt.mpr h)⟩
  · rw [if_neg hc]
    refine ⟨rfl, fun h => absurd h hc, fun _ => ?_⟩
    rw [sendJson_range_start _ _ rfl]
    exact ⟨_, rfl, rfl⟩

/-- The tokens of the tasks of one type are among the tokens of all task keys, in order. -/
theorem taskTokens_sublist (env : Env T J) (type : Tasks) (tl : TaskMap T) :
    (taskTokens env type tl).Sublist (tl.map (fun e => env.getToken e.1)) :=
  (List.filter_sublist tl).map _

/-- The condition of the first return of `runTasks`, as a Boolean. -/
theorem idle_eq_false_iff (s : ListViewController T) :
    (s.tasks.tasks.isEmpty && !s.currentValues.hasChanged && !s.itemListChanged) = false ↔
      (s.tasks.tasks ≠ [] ∨ s.currentValues.hasChanged = true ∨ s.itemListChanged = true) := by
  cases h1 : s.tasks.tasks <;> cases h2 : s.currentValues.hasChanged <;>
    cases h3 : s.itemListChanged <;> simp

/-- An entry that `find` returns is an entry of the map. -/
theorem taskMap_mem_of_find : ∀ (m : TaskMap T) (k : T) (v : MergeTask),
    TaskMap.find m k = some v → (k, v) ∈ m := by
  intro m
  induction m with
  | nil => intro k v h; simp [TaskMap.find] at h
  | cons e rest ih =>
    obtain ⟨k', v'⟩ := e
    intro k v h
    unfold TaskMap.find at h
    by_cases hk : k' = k
    · rw [if_pos hk] at h
      simp only [Option.some.injEq] at h
      rw [hk, h]
      exact List.mem_cons_self _ _
    · rw [if_neg hk] at h
      exact List.mem_cons_of_mem _ (ih k v h)

/-- In a map with strictly increasing keys `find` returns every entry at its key. -/
theorem taskMap_find_of_mem : ∀ (m : TaskMap T), TaskMap.WF m →
    ∀ e ∈ m, TaskMap.find m e.1 = some e.2 := by
  intro m
  induction m with
  | nil => intro _ e he; simp at he
  | cons e0 rest ih =>
    obtain ⟨k', v'⟩ := e0
    intro hwf e he
    unfold TaskMap.WF at hwf
    simp only [List.map_cons, List.pairwise_cons] at hwf
    unfold TaskMap.find
    rcases List.mem_cons.mp he with h | h
    · rw [h]; simp
    · have hlt : k' < e.1 := hwf.1 e.1 (List.mem_map_of_mem Prod.fst h)
      rw [if_neg (ne_of_lt hlt)]
      exact ih hwf.2 e h

/-- In a map with strictly increasing keys the entry of a key is its only entry. -/
theorem taskMap_filter_key : ∀ (m : TaskMap T), TaskMap.WF m → ∀ (k : T) (v : MergeTask),
    TaskMap.find m k = some v → m.filter (fun e => decide (e.1 = k)) = [(k, v)] := by
  intro m
  induction m with
  | nil => intro _ k v h; simp [TaskMap.find] at h
  | cons e0 rest ih =>
    obtain ⟨k', v'⟩ := e0
    intro hwf k v h
    unfold TaskMap.WF at hwf
    simp only [List.map_cons, List.pairwise_cons] at hwf
    unfold TaskMap.find at h
    by_cases hk : k' = k
    · rw [if_pos hk] at h
      simp only [Option.some.injEq] at h
      have hrest : rest.filter (fun e => decide (e.1 = k)) = [] := by
        rw [List.filter_eq_nil_iff]
        intro e he
        have hlt : k' < e.1 := hwf.1 e.1 (List.mem_map_of_mem Prod.fst he)
        rw [hk] at hlt
        simp [ne_of_gt hlt]
      rw [List.filter_cons, if_pos (by simp [hk]), hrest, hk, h]
    · rw [if_neg hk] at h
      rw [List.filter_cons, if_neg (by simp [hk])]
      exact ih hwf.2 k v h

/-- The list after `handleAddItem` holds the added item and the items before. -/
theorem handleAddItem_mem (env : Env T J) (items : List T) (a : T) (sp sa start : Int)
    (x : T) : x ∈ (handleAddItem env items a sp sa start).1 ↔ x = a ∨ x ∈ items := by
  have h1 : (handleAddItem env items a sp sa start).1 =
      items.insertIdx (lowerBound (fun e => itemSort env e a sp sa) items) a := by
    unfold handleAddItem; simp only []; split <;> rfl
  rw [h1, (List.perm_insertIdx a items (lowerBound_le_length _ _)).mem_iff, List.mem_cons]

/-- An item stays in the list when `handleRemoveItem` runs for another token. -/
theorem handleRemoveItem_mem (env : Env T J) (items : List T) (a : T) (start : Int)
    (r : List T × Int) (h : handleRemoveItem env items a start = some r) (x : T)
    (hx : x ∈ items) (htok : env.getToken a ≠ env.getToken x) : x ∈ r.1 := by
  unfold handleRemoveItem at h
  cases hf : findItem env a items with
  | none => simp [hf] at h
  | some pos =>
    obtain ⟨e, he, hte⟩ := findItem_some env a items pos hf
    have hr : r.1 = items.eraseIdx pos := by
      simp only [hf] at h
      split at h <;> (simp only [Option.some.injEq] at h; rw [← h])
    rw [hr]
    have hmem := (perm_cons_eraseIdx items pos e he).mem_iff.mp hx
    rcases List.mem_cons.mp hmem with h1 | h1
    · rw [h1] at htok
      exact absurd hte.symm htok
    · exact h1

/-- An item of the list is still there after the task loop when no Remove task has its
token. -/
theorem taskLoop_mem (env : Env T J) (sp sa : Int) (x : T) :
    ∀ (tl : TaskMap T) (items : List T) (start : Int) (upd : TaskMap T)
      (r : List T × Int × TaskMap T),
      x ∈ items →
      (∀ e ∈ tl, e.2.type = Tasks.REMOVE_ITEM.val → env.getToken e.1 ≠ env.getToken x) →
      taskLoop env sp sa tl (items, start, upd) = some r → x ∈ r.1 := by
  intro tl
  induction tl with
  | nil =>
    intro items start upd r hx _ h
    simp only [taskLoop, Option.some.injEq] at h
    rw [← h]; exact hx
  | cons e rest ih =>
    obtain ⟨k, t⟩ := e
    intro items start upd r hx hrem h
    have hrest : ∀ e ∈ rest, e.2.type = Tasks.REMOVE_ITEM.val →
        env.getToken e.1 ≠ env.getToken x := fun e he => hrem e (List.mem_cons_of_mem _ he)
    unfold taskLoop at h
    by_cases hadd : t.type = Tasks.ADD_ITEM.val
    · rw [if_pos hadd] at h
      exact ih _ _ _ r ((handleAddItem_mem env items k sp sa start x).mpr (Or.inr hx)) hrest h
    · rw [if_neg hadd] at h
      by_cases hdel : t.type = Tasks.REMOVE_ITEM.val
      · rw [if_pos hdel] at h
        cases hr : handleRemoveItem env items k start with
        | none => simp [hr] at h
        | some r1 =>
          simp only [hr] at h
          exact ih _ _ _ r (handleRemoveItem_mem env items k start r1 hr x hx
            (hrem (k, t) (List.mem_cons_self _ _) hdel)) hrest h
      · rw [if_neg hdel] at h
        by_cases hupd : t.type = Tasks.UPDATE_ITEM.val
        · rw [if_pos hupd] at h
          exact ih _ _ _ r hx hrest h
        · rw [if_neg hupd] at h
          exact ih _ _ _ r hx hrest h

/-- The item of an Add task is in the list after the task loop when no Remove task has its
token. -/
theorem taskLoop_inserts (env : Env T J) (sp sa : Int) (x : T) :
    ∀ (tl : TaskMap T) (items : List T) (start : Int) (upd : TaskMap T)
      (r : List T × Int × TaskMap T),
      (∃ e ∈ tl, e.1 = x ∧ e.2.type = Tasks.ADD_ITEM.val) →
      (∀ e ∈ tl, e.2.type = Tasks.REMOVE_ITEM.val → env.getToken e.1 ≠ env.getToken x) →
      taskLoop env sp sa tl (items, start, upd) = some r → x ∈ r.1 := by
  intro tl
  induction tl with
  | nil =>
    intro items start upd r hex _ _
    obtain ⟨e, he, _⟩ := hex
    simp at he
  | cons e rest ih =>
    obtain ⟨k, t⟩ := e
    intro items start upd r hex hrem h
    have hrest : ∀ e ∈ rest, e.2.type = Tasks.REMOVE_ITEM.val →
        env.getToken e.1 ≠ env.getToken x := fun e he => hrem e (List.mem_cons_of_mem _ he)
    by_cases hhead : k = x ∧ t.type = Tasks.ADD_ITEM.val
    · unfold taskLoop at h
      rw [if_pos hhead.2] at h
      exact taskLoop_mem env sp sa x rest _ _ _ r
        ((handleAddItem_mem env items k sp sa start x).mpr (Or.inl hhead.1.symm)) hrest h
    · have hex' : ∃ e ∈ rest, e.1 = x ∧ e.2.type = Tasks.ADD_ITEM.val := by
        obtain ⟨e, he, hk, ht⟩ := hex
        rcases List.mem_cons.mp he with h1 | h1
        · rw [h1] at hk ht
          exact absurd ⟨hk, ht⟩ hhead
        · exact ⟨e, h1, hk, ht⟩
      unfold taskLoop at h
      by_cases hadd : t.type = Tasks.ADD_ITEM.val
      · rw [if_pos hadd] at h
        exact ih _ _ _ r hex' hrest h
      · rw [if_neg hadd] at h
        by_cases hdel : t.type = Tasks.REMOVE_ITEM.val
        · rw [if_pos hdel] at h
          cases hr : handleRemoveItem env items k start with
          | none => simp [hr] at h
          | some r1 =>
            simp only [hr] at h
            exact ih _ _ _ r hex' hrest h
        · rw [if_neg hdel] at h
          by_cases hupd : t.type = Tasks.UPDATE_ITEM.val
          · rw [if_pos hupd] at h
            exact ih _ _ _ r hex' hrest h
          · rw [if_neg hupd] at h
            exact ih _ _ _ r hex' hrest h

/-- The list after a run of `runTasks`: a rearrangement of the list before when the run
returns before the task loop, and the result of the task loop on such a rearrangement
otherwise. -/
theorem runTasks_allItems (env : Env T J) (s s' : ListViewController T) (o : TickOutcome J)
    (h : runTasks env s = some (s', o)) :
    ((o = .noChanges ∨ o = .sortPropertyUnset ∨ o = .rangeStartNegative) ∧
      s'.allItems.Perm s.allItems) ∨
    ((o = .countNegative ∨ ∃ sent, o = .completed sent) ∧
      ∃ (items0 : List T) (start1 : Int) (upd : TaskMap T),
        items0.Perm s.allItems ∧
        taskLoop env (s.currentValues.values.get .TYPE_SORT_PROPERTY)
          (s.currentValues.values.get .TYPE_SORT_ASCENDING) s.tasks.tasks
          (items0, s.currentValues.values.get .TYPE_RANGE_START, []) =
            some (s'.allItems, start1, upd)) := by
  cases hidle : (s.tasks.tasks.isEmpty && !s.currentValues.hasChanged && !s.itemListChanged)
  swap
  · left
    unfold runTasks at h
    simp only [ViewTasks.get, ItemTasks.get] at h
    rw [if_pos hidle] at h
    simp only [Option.some.injEq, Prod.mk.injEq] at h
    rw [← h.1, ← h.2]
    exact ⟨Or.inl rfl, List.Perm.refl _⟩
  by_cases hsp : s.currentValues.values.get .TYPE_SORT_PROPERTY < 0
  · left
    unfold runTasks at h
    simp only [ViewTasks.get, ItemTasks.get, IntCollector.getAll, valueMap_index_fst,
      valueMap_index_snd_get] at h
    rw [if_neg (by rw [hidle]; simp), if_pos hsp] at h
    simp only [Option.some.injEq, Prod.mk.injEq] at h
    rw [← h.1, ← h.2]
    exact ⟨Or.inr (Or.inl rfl), List.Perm.refl _⟩
  by_cases hrs : s.currentValues.values.get .TYPE_RANGE_START < 0
  · left
    unfold runTasks at h
    simp only [ViewTasks.get, ItemTasks.get, IntCollector.getAll, valueMap_index_fst,
      valueMap_index_snd_get] at h
    rw [if_neg (by rw [hidle]; simp), if_neg hsp, if_pos hrs] at h
    simp only [Option.some.injEq, Prod.mk.injEq] at h
    rw [← h.1, ← h.2]
    refine ⟨Or.inr (Or.inr rfl), ?_⟩
    show (if _ then _ else _ : List T).Perm _
    split
    · exact sortItems_perm _ _
    · exact List.Perm.refl _
  right
  obtain ⟨items0, hperm0, hnone, hsome⟩ :=
    runTasks_of_taskLoop env s hidle (not_lt.mp hsp) (not_lt.mp hrs)
  cases hloop : taskLoop env (s.currentValues.values.get .TYPE_SORT_PROPERTY)
      (s.currentValues.values.get .TYPE_SORT_ASCENDING) s.tasks.tasks
      (items0, s.currentValues.values.get .TYPE_RANGE_START, []) with
  | none =>
    rw [hnone hloop] at h
    exact Option.noConfusion h
  | some r =>
    obtain ⟨items1, start1, upd⟩ := r
    obtain ⟨sMid, uv, hrun, hmid, _⟩ := hsome items1 start1 upd hloop
    rw [hrun] at h
    simp only [Option.some.injEq] at h
    have hs' : s' = (runTasksFinish env sMid uv start1 upd).1 := by rw [h]
    have ho : o = (runTasksFinish env sMid uv start1 upd).2 := by rw [h]
    refine ⟨?_, items0, start1, upd, hperm0, ?_⟩
    · rw [ho]
      exact (runTasksFinish_outcome env sMid _ uv start1 upd _ rfl).1
    · rw [hs', (runTasksFinish_cases env sMid uv start1 upd).1, hmid]
      exact hloop

/-- The notification methods leave `allItems` as it is. -/
theorem notifications_allItems (env : Env T J) (s : ListViewController T) (y : T)
    (ps : PropertyIdSet) :
    (onItemAdded env s y).allItems = s.allItems ∧
    (onItemRemoved env s y).allItems = s.allItems ∧
    (onItemUpdated env s y ps).allItems = s.allItems := by
  refine ⟨?_, ?_, ?_⟩
  · unfold onItemAdded; split_ifs <;> rfl
  · unfold onItemRemoved
    split_ifs
    · rfl
    · split
      · rfl
      · split <;> rfl
  · unfold onItemUpdated; simp only []; split_ifs <;> rfl

/-- The state after `onItemAdded` and `onItemRemoved` for an item that passes the filter and
is not in the list. -/
theorem added_then_removed (env : Env T J) (s : ListViewController T) (x : T)
    (hactive : s.active = true)
    (hfilter : matchesFilter env s.filter x = true)
    (habsent : isInList env x s.allItems = false) :
    onItemRemoved env (onItemAdded env s x) x = { s with tasks := s.tasks.addItem x } := by
  have hfind : findItem env x s.allItems = none := by
    unfold isInList at habsent
    cases hf : findItem env x s.allItems with
    | none => rfl
    | some pos => rw [hf] at habsent; simp at habsent
  have h1 : onItemAdded env s x = { s with tasks := s.tasks.addItem x } := by
    unfold onItemAdded
    simp [hactive, hfilter]
  rw [h1]
  unfold onItemRemoved
  simp [hactive, hfind]

/-! ### Lemmas on the range of `int` and on the stored total -/

/-- A settings POST does not touch the stored total, whether it is accepted or rejected. -/
theorem handlePostSettings_prevTotalCount (env : Env T J) (s : ListViewController T)
    (j : SettingsJson) :
    (∀ s', handlePostSettings env s j = .ok s' → s'.prevTotalCount = s.prevTotalCount) ∧
    (∀ e, handlePostSettings env s j = .error e → e.2.prevTotalCount = s.prevTotalCount) := by
  unfold handlePostSettings
  rcases parseProperties_cases env s j with ⟨msg, h⟩ | ⟨r, c, h⟩
  · rw [h]
    constructor
    · intro s' hs; simp [bind, Except.bind] at hs
    · intro e he
      simp only [bind, Except.bind, Except.error.injEq] at he
      rw [← he]
  · rw [h]
    constructor
    · intro s' hs
      simp only [bind, Except.bind, pure, Except.pure] at hs
      split at hs
      · simp only [Except.ok.injEq] at hs; rw [← hs]; rfl
      · simp only [Except.ok.injEq] at hs; rw [← hs]
    · intro e he
      simp only [bind, Except.bind, pure, Except.pure] at he
      split at he <;> simp at he

/-- The notification methods leave the stored total as it is. -/
theorem notifications_prevTotalCount (env : Env T J) (s : ListViewController T) (y : T)
    (ps : PropertyIdSet) :
    (onItemAdded env s y).prevTotalCount = s.prevTotalCount ∧
    (onItemRemoved env s y).prevTotalCount = s.prevTotalCount ∧
    (onItemUpdated env s y ps).prevTotalCount = s.prevTotalCount := by
  refine ⟨?_, ?_, ?_⟩
  · unfold onItemAdded; split_ifs <;> rfl
  · unfold onItemRemoved
    split_ifs
    · rfl
    · split
      · rfl
      · split <;> rfl
  · unfold onItemUpdated; simp only []; split_ifs <;> rfl

/-- A run of `runTasks` sends a message or leaves the stored total as it is. -/
theorem runTasks_prevTotalCount (env : Env T J) (s s' : ListViewController T)
    (o : TickOutcome J) (h : runTasks env s = some (s', o)) :
    (∃ p, o = .completed (some p)) ∨
      (o.message = none ∧ s'.prevTotalCount = s.prevTotalCount) := by
  cases hidle : (s.tasks.tasks.isEmpty && !s.currentValues.hasChanged && !s.itemListChanged)
  swap
  · right
    unfold runTasks at h
    simp only [ViewTasks.get, ItemTasks.get] at h
    rw [if_pos hidle] at h
    simp only [Option.some.injEq, Prod.mk.injEq] at h
    rw [← h.1, ← h.2]
    exact ⟨rfl, rfl⟩
  by_cases hsp : s.currentValues.values.get .TYPE_SORT_PROPERTY < 0
  · right
    unfold runTasks at h
    simp only [ViewTasks.get, ItemTasks.get, IntCollector.getAll, valueMap_index_fst,
      valueMap_index_snd_get] at h
    rw [if_neg (by rw [hidle]; simp), if_pos hsp] at h
    simp only [Option.some.injEq, Prod.mk.injEq] at h
    rw [← h.1, ← h.2]
    exact ⟨rfl, rfl⟩
  by_cases hrs : s.currentValues.values.get .TYPE_RANGE_START < 0
  · right
    unfold runTasks at h
    simp only [ViewTasks.get, ItemTasks.get, IntCollector.getAll, valueMap_index_fst,
      valueMap_index_snd_get] at h
    rw [if_neg (by rw [hidle]; simp), if_neg hsp, if_pos hrs] at h
    simp only [Option.some.injEq, Prod.mk.injEq] at h
    rw [← h.1, ← h.2]
    exact ⟨rfl, rfl⟩
  obtain ⟨items0, _, hnone, hsome⟩ :=
    runTasks_of_taskLoop env s hidle (not_lt.mp hsp) (not_lt.mp hrs)
  cases hloop : taskLoop env (s.currentValues.values.get .TYPE_SORT_PROPERTY)
      (s.currentValues.values.get .TYPE_SORT_ASCENDING) s.tasks.tasks
      (items0, s.currentValues.values.get .TYPE_RANGE_START, []) with
  | none =>
    rw [hnone hloop] at h
    exact Option.noConfusion h
  | some r =>
    obtain ⟨items1, start1, upd⟩ := r
    obtain ⟨sMid, uv, hrun, _, _, hprev, _⟩ := hsome items1 start1 upd hloop
    rw [hrun] at h
    simp only [Option.some.injEq] at h
    obtain ⟨_, hneg, hpos⟩ := runTasksFinish_cases env sMid uv start1 upd
    by_cases hc : min (wrapInt ((sMid.allItems.length : Int) -
        (if start1 ≥ (sMid.allItems.length : Int) then 0 else start1)))
        (uv.get .TYPE_MAX_COUNT) < 0
    · right
      have ho : o = .countNegative := by rw [← hneg hc, h]
      subst ho
      rw [(runTasksFinish_countNegative env sMid s' uv start1 upd h).1]
      exact ⟨rfl, hprev⟩
    · left
      obtain ⟨p, hp, _⟩ := hpos (not_lt.mp hc)
      exact ⟨p, by rw [← hp, h]⟩

/-- Every event other than the stop of the view and the reset of the items adds at most
one message, and leaves the stored total as it is when it adds none. -/
theorem step_prevTotalCount (w w' : World T J) (e : Event T) (hstep : w.step e = some w')
    (hstop : e ≠ .deleteView) (hreset : ∀ items, e ≠ .sourceReset items) :
    w.sent.length ≤ w'.sent.length ∧
    (w'.sent.length = w.sent.length → w'.lvc.prevTotalCount = w.lvc.prevTotalCount) := by
  cases e with
  | postSettings j =>
    obtain ⟨hok, herr⟩ := handlePostSettings_prevTotalCount w.env w.lvc j
    simp only [World.step] at hstep
    cases hr : handlePostSettings w.env w.lvc j with
    | ok s' =>
      rw [hr] at hstep
      simp only [Option.some.injEq] at hstep
      subst hstep
      exact ⟨le_refl _, fun _ => hok s' hr⟩
    | error e =>
      rw [hr] at hstep
      simp only [Option.some.injEq] at hstep
      subst hstep
      exact ⟨le_refl _, fun _ => herr e hr⟩
  | postFilter j =>
    simp only [World.step, Option.some.injEq] at hstep
    subst hstep
    refine ⟨le_refl _, fun _ => ?_⟩
    simp only [handlePostFilter]
    split <;> rfl
  | deleteFilter =>
    simp only [World.step, Option.some.injEq] at hstep
    subst hstep
    exact ⟨le_refl _, fun _ => rfl⟩
  | deleteView => exact absurd rfl hstop
  | sourceAdd x =>
    simp only [World.step] at hstep
    split at hstep
    · simp only [Option.some.injEq] at hstep; subst hstep; exact ⟨le_refl _, fun _ => rfl⟩
    · simp only [Option.some.injEq] at hstep; subst hstep
      exact ⟨le_refl _, fun _ => (notifications_prevTotalCount _ _ _ ∅).1⟩
  | sourceRemove x =>
    simp only [World.step] at hstep
    split at hstep
    · simp only [Option.some.injEq] at hstep; subst hstep; exact ⟨le_refl _, fun _ => rfl⟩
    · simp only [Option.some.injEq] at hstep; subst hstep
      exact ⟨le_refl _, fun _ => (notifications_prevTotalCount _ _ _ ∅).2.1⟩
  | sourceUpdate x property value =>
    simp only [World.step, Option.some.injEq] at hstep
    subst hstep
    exact ⟨le_refl _, fun _ => (notifications_prevTotalCount _ _ _ _).2.2⟩
  | timerTick =>
    simp only [World.step] at hstep
    split at hstep
    · simp only [Option.some.injEq] at hstep; subst hstep; exact ⟨le_refl _, fun _ => rfl⟩
    · cases hr : runTasks w.env w.lvc with
      | none => rw [hr] at hstep; simp at hstep
      | some r =>
        obtain ⟨s', o⟩ := r
        rw [hr] at hstep
        rcases runTasks_prevTotalCount w.env w.lvc s' o hr with ⟨p, hp⟩ | ⟨hmsg, hprev⟩
        · subst hp
          simp only [Option.some.injEq] at hstep
          subst hstep
          simp only [List.length_append, List.length_singleton]
          exact ⟨by omega, fun hlen => by omega⟩
        · have hw : w' = { w with lvc := s' } := by
            cases o with
            | completed sent =>
              cases sent with
              | none => simp only [Option.some.injEq] at hstep; exact hstep.symm
              | some p => simp [TickOutcome.message] at hmsg
            | noChanges => simp only [Option.some.injEq] at hstep; exact hstep.symm
            | sortPropertyUnset => simp only [Option.some.injEq] at hstep; exact hstep.symm
            | rangeStartNegative => simp only [Option.some.injEq] at hstep; exact hstep.symm
            | countNegative => simp only [Option.some.injEq] at hstep; exact hstep.symm
          subst hw
          exact ⟨le_refl _, fun _ => hprev⟩
  | sourceReset items => exact absurd rfl (hreset items)

/-- A sequence of events without a stop of the view and without a reset of the items that
adds no message leaves the stored total as it is. -/
theorem run_prevTotalCount (es : List (Event T)) :
    ∀ (w w' : World T J), w.run es = some w' →
      (∀ e ∈ es, e ≠ .deleteView ∧ ∀ items, e ≠ .sourceReset items) →
      w.sent.length ≤ w'.sent.length ∧
      (w'.sent.length = w.sent.length → w'.lvc.prevTotalCount = w.lvc.prevTotalCount) := by
  induction es with
  | nil =>
    intro w w' hrun _
    simp only [World.run, Option.some.injEq] at hrun
    subst hrun
    exact ⟨le_refl _, fun _ => rfl⟩
  | cons e es ih =>
    intro w w' hrun hes
    simp only [World.run] at hrun
    cases hs : w.step e with
    | none => rw [hs] at hrun; simp at hrun
    | some w1 =>
      rw [hs] at hrun
      simp only at hrun
      have h1 := step_prevTotalCount w w1 e hs (hes e (List.mem_cons_self _ _)).1
        (hes e (List.mem_cons_self _ _)).2
      have h2 := ih w1 w' hrun (fun e' he' => hes e' (List.mem_cons_of_mem _ he'))
      refine ⟨le_trans h1.1 h2.1, fun hlen => ?_⟩
      rw [h2.2 (by omega), h1.2 (by omega)]

end Lemmas

/-! ## The merge queue (C1) -/

section Claims

variable {T : Type} [LinearOrder T] {J : Type}

/-- C1: enqueueing `existing` and then `incoming` for the same item on an empty queue and
draining yields exactly one task for the item; its type is Update if either task is an
Update, otherwise Add if either is an Add, otherwise Remove; Update after Update carries
the union of both property sets, Update after Add or Remove carries the incoming set. -/
theorem C1_merge_table (x : T) (existing incoming : Tasks) (pe pi : PropertyIdSet) :
    ∃ task : MergeTask,
      (ViewTasks.get (((ViewTasks.empty : ViewTasks T).enqueue x existing pe).enqueue x
        incoming pi) [] ∅).1 = [(x, task)] ∧
      task.type =
        (if existing = .UPDATE_ITEM ∨ incoming = .UPDATE_ITEM then Tasks.UPDATE_ITEM.val
         else if existing = .ADD_ITEM ∨ incoming = .ADD_ITEM then Tasks.ADD_ITEM.val
         else Tasks.REMOVE_ITEM.val) ∧
      (existing = .UPDATE_ITEM ∧ incoming = .UPDATE_ITEM → task.updatedProperties = pe ∪ pi) ∧
      (existing ≠ .UPDATE_ITEM ∧ incoming = .UPDATE_ITEM → task.updatedProperties = pi) := by
  cases existing <;> cases incoming <;>
    simp [ViewTasks.get, ItemTasks.get, ViewTasks.enqueue, ViewTasks.empty, ViewTasks.updateItem,
      ViewTasks.addItem, ViewTasks.removeItem, ItemTasks.add, TaskMap.find, TaskMap.emplace,
      TaskMap.mergeAt, MergeTask.merge, Tasks.val]

/-! ## The message of a tick (C2, C3) -/

/-- C2: in a message sent by a tick the `items` array has one element per item of the new
window, element `i` has the token of the `i`-th window item, and the element is written in
full (all schema properties) when the item was not in the previous window, with exactly
the properties of its Update task when it was in the previous window and the drained
tasks hold an Update for it, and with the id only when it was in the previous window and
has no Update task. -/
theorem C2_payload_items (env : Env T J) (s s' : ListViewController T) (p : Payload J)
    (hq : TaskMap.WF s.tasks.tasks)
    (h : runTasks env s = some (s', .completed (some p))) :
    p.itemEntries.length = s'.currentViewItems.length ∧
    ∀ (i : Nat) (item : T) (e : ItemJson J),
      s'.currentViewItems[i]? = some item → p.itemEntries[i]? = some e →
        e.id = some (env.getToken item) ∧
        (isInList env item s.currentViewItems = false →
          e.properties = some (env.serializeItemProperties item
            (toPropertyIdSet env.itemHandler.properties) env.itemHandler)) ∧
        (∀ ps : PropertyIdSet, isInList env item s.currentViewItems = true →
          TaskMap.find s.tasks.tasks item = some ⟨Tasks.UPDATE_ITEM.val, ps⟩ →
          e.properties = some (env.serializeItemProperties item ps env.itemHandler)) ∧
        (isInList env item s.currentViewItems = true →
          (∀ ps : PropertyIdSet,
            TaskMap.find s.tasks.tasks item ≠ some ⟨Tasks.UPDATE_ITEM.val, ps⟩) →
          e.properties = none) := by
  obtain ⟨items0, start1, newStart, count, upd, _, _, _, hloop, _, _, _, _, hsent, _, _⟩ :=
    runTasks_completed env s s' (some p) h
  have hupd := taskLoop_updatedItems env _ _ s.tasks.tasks items0 _ [] _ _ _ hq
    (fun _ _ => rfl) hloop
  have hp : p.itemEntries =
      s'.currentViewItems.map (itemEntry env upd s.currentViewItems) := by
    have hl := (listItems_spec env upd s.currentViewItems s'.currentViewItems 0
      Payload.null rfl).1
    simp only [Option.some.injEq] at hsent
    rw [hsent]
    simpa [Payload.itemEntries, Payload.null] using hl
  refine ⟨by rw [hp, List.length_map], ?_⟩
  intro i item e hi he
  rw [hp, List.getElem?_map, hi] at he
  simp only [Option.map_some', Option.some.injEq] at he
  subst he
  have hfind := hupd item
  simp only [TaskMap.find] at hfind
  unfold itemEntry
  refine ⟨?_, ?_, ?_, ?_⟩
  · split
    · rfl
    · split <;> rfl
  · intro hin
    simp [hin]
  · intro ps hin hf
    rw [hf] at hfind
    simp [hin, hfind]
  · intro hin hno
    have : TaskMap.find upd item = none := by
      rw [hfind]
      cases hf : TaskMap.find s.tasks.tasks item with
      | none => rfl
      | some t =>
        simp only
        split
        · rename_i ht
          exact absurd (by rw [hf]; cases t; simp_all) (hno t.updatedProperties)
        · rfl
    simp [hin, this]

/-- C2 at the world `worldUpdated`: the new window is `[1, 3, 5]`, the item `1` is new, the
item `3` is unchanged and the item `5` has an Update task for property `1`. -/
theorem C2_payload_items_witness :
    TaskMap.WF worldUpdated.lvc.tasks.tasks ∧
    runTasks worldUpdated.env worldUpdated.lvc =
      some (demoTickState worldUpdated, .completed (some (demoTickPayload worldUpdated))) ∧
    (demoTickState worldUpdated).currentViewItems = [1, 3, 5] ∧
    (demoTickPayload worldUpdated).itemEntries =
      [⟨some 1, some [(0, 1), (1, 99)]⟩, ⟨some 3, none⟩, ⟨some 5, some [(1, 42)]⟩] ∧
    (demoTickPayload worldUpdated).itemEntries.length =
      (demoTickState worldUpdated).currentViewItems.length := by
  have hq : TaskMap.WF worldUpdated.lvc.tasks.tasks := by unfold TaskMap.WF; decide
  have hrun : runTasks worldUpdated.env worldUpdated.lvc =
      some (demoTickState worldUpdated, .completed (some (demoTickPayload worldUpdated))) := rfl
  exact ⟨hq, hrun, rfl, rfl,
    (C2_payload_items worldUpdated.env worldUpdated.lvc (demoTickState worldUpdated)
      (demoTickPayload worldUpdated) hq hrun).1⟩

/-- C3: after a tick that reaches the end of `runTasks`, the stored window is the slice of
`allItems` that starts at the resolved range start (the `range_start` of the message) and
has the length `min(totalCount - rangeStart, maxCount)`; the range start is not negative,
the window is not longer than `maxCount` and it ends inside the list. -/
theorem C3_window_is_slice (env : Env T J) (s s' : ListViewController T)
    (sent : Option (Payload J)) (h : runTasks env s = some (s', .completed sent)) :
    ∃ (p : Payload J) (rangeStart : Int),
      sent = some p ∧ p.range_start = some rangeStart ∧
      s'.currentViewItems =
        (s'.allItems.drop rangeStart.toNat).take
          (min ((s'.allItems.length : Int) - rangeStart)
            (s.currentValues.values.get .TYPE_MAX_COUNT)).toNat ∧
      (s'.currentViewItems.length : Int) =
        min ((s'.allItems.length : Int) - rangeStart)
          (s.currentValues.values.get .TYPE_MAX_COUNT) ∧
      0 ≤ rangeStart ∧
      (s'.currentViewItems.length : Int) ≤ s.currentValues.values.get .TYPE_MAX_COUNT ∧
      rangeStart + (s'.currentViewItems.length : Int) ≤ (s'.allItems.length : Int) := by
  obtain ⟨items0, start1, newStart, count, upd, _, hrs, _, hloop, hns, hcount, hc0, hview,
    hsent, _, _, hs1⟩ := runTasks_completed env s s' sent h
  have hns0 : 0 ≤ newStart := by rw [hns]; split <;> omega
  have hnsle : newStart ≤ (s'.allItems.length : Int) := by rw [hns]; split <;> omega
  have hlen : (s'.currentViewItems.length : Int) = count := by
    rw [hview, List.length_take, List.length_drop]
    have : count ≤ (s'.allItems.length : Int) - newStart := by rw [hcount]; exact min_le_left _ _
    omega
  refine ⟨_, newStart, hsent, rfl, ?_, ?_, hns0, ?_, ?_⟩
  · rw [← hcount]; exact hview
  · rw [← hcount]; exact hlen
  · rw [hlen, hcount]; exact min_le_right _ _
  · rw [hlen, hcount]
    have := min_le_left ((s'.allItems.length : Int) - newStart)
      (s.currentValues.values.get .TYPE_MAX_COUNT)
    omega

/-- C3 at the first tick of `worldActivated`. -/
theorem C3_window_is_slice_witness :
    runTasks worldActivated.env worldActivated.lvc =
      some (demoTickState worldActivated,
        .completed (some (demoTickPayload worldActivated))) ∧
    (demoTickState worldActivated).allItems = [3, 5, 9] ∧
    ∃ (p : Payload (List (Int × Int))) (rangeStart : Int),
      some (demoTickPayload worldActivated) = some p ∧ p.range_start = some rangeStart ∧
      (demoTickState worldActivated).currentViewItems =
        ((demoTickState worldActivated).allItems.drop rangeStart.toNat).take
          (min (((demoTickState worldActivated).allItems.length : Int) - rangeStart)
            (worldActivated.lvc.currentValues.values.get .TYPE_MAX_COUNT)).toNat ∧
      ((demoTickState worldActivated).currentViewItems.length : Int) =
        min (((demoTickState worldActivated).allItems.length : Int) - rangeStart)
          (worldActivated.lvc.currentValues.values.get .TYPE_MAX_COUNT) ∧
      0 ≤ rangeStart ∧
      ((demoTickState worldActivated).currentViewItems.length : Int) ≤
        worldActivated.lvc.currentValues.values.get .TYPE_MAX_COUNT ∧
      rangeStart + ((demoTickState worldActivated).currentViewItems.length : Int) ≤
        ((demoTickState worldActivated).allItems.length : Int) := by
  have hrun : runTasks worldActivated.env worldActivated.lvc =
      some (demoTickState worldActivated,
        .completed (some (demoTickPayload worldActivated))) := rfl
  exact ⟨hrun, rfl,
    C3_window_is_slice worldActivated.env worldActivated.lvc (demoTickState worldActivated)
      (some (demoTickPayload worldActivated)) hrun⟩

/-! ## Order, tokens and filter of the list (C4, C5, C6, C7) -/

/-- C4, evaluated: after `eventsUnsorted` (a first tick that sorts ascending and leaves
through `count < 0` because `max_count` was never set, then a settings POST that sets
`max_count` and asks for descending order) the next tick reaches the end of `runTasks`
without sorting: `allItems` is still `[1, 2, 3]` although the active order is property `0`
descending. -/
theorem C4_unsorted_after_completed_tick :
    (World.init (demoEnv [1, 2, 3])).run eventsUnsorted = some worldUnsorted ∧
    runTasks worldUnsorted.env worldUnsorted.lvc =
      some (demoTickState worldUnsorted,
        .completed (some (demoTickPayload worldUnsorted))) ∧
    (demoTickState worldUnsorted).prevValues.get .TYPE_SORT_PROPERTY = 0 ∧
    (demoTickState worldUnsorted).prevValues.get .TYPE_SORT_ASCENDING = 0 ∧
    (demoTickState worldUnsorted).allItems = [1, 2, 3] ∧
    itemSort worldUnsorted.env 2 1 0 0 = true ∧
    ¬ sortedBy worldUnsorted.env 0 0 (demoTickState worldUnsorted).allItems := by
  refine ⟨rfl, rfl, rfl, rfl, rfl, rfl, ?_⟩
  have hl : (demoTickState worldUnsorted).allItems = [1, 2, 3] := rfl
  rw [hl]
  intro hsorted
  have h12 : itemSort worldUnsorted.env 2 1 0 0 = false := (List.chain'_cons.mp hsorted).1
  have h21 : itemSort worldUnsorted.env 2 1 0 0 = true := rfl
  rw [h21] at h12
  exact Bool.noConfusion h12

/-- C5, evaluated: the source `[1, 2, 3]` gains the item `7` (an Add task is queued), the
filter is deleted (the list is rebuilt from the source, which already holds `7`, and the
queue is kept), and the next tick inserts `7` a second time. -/
theorem C5_duplicate_token_after_rebuild :
    ∃ w : World Nat (List (Int × Int)),
      (World.init (demoEnv [1, 2, 3])).run eventsDuplicate = some w ∧
      (w.env.itemListF.map w.env.getToken).Nodup ∧
      w.lvc.allItems = [1, 2, 3, 7, 7] ∧
      ¬ (w.lvc.allItems.map w.env.getToken).Nodup := by
  refine ⟨_, rfl, ?_, rfl, ?_⟩
  · decide
  · decide

/-- C6, evaluated: a filter "even" is posted before the view is activated; the settings POST
that activates the view copies the whole source `[1, 2, 3]` into `allItems`, although the
filter accepts only the item `2`. -/
theorem C6_activation_ignores_filter :
    ∃ w : World Nat (List (Int × Int)),
      (World.init (demoEnv [1, 2, 3])).run eventsFilterFirst = some w ∧
      w.lvc.active = true ∧
      w.lvc.filter.pattern = "even" ∧
      w.lvc.allItems = [1, 2, 3] ∧
      w.env.itemListF.filter (fun i => matchesFilter w.env w.lvc.filter i) = [2] := by
  exact ⟨_, rfl, rfl, rfl, rfl, rfl⟩

/-- C7: after `setFilter` and after `resetFilter` the filter is the new one, `allItems` is
the current snapshot of the source restricted to the items the new filter accepts, in
snapshot order, and `itemListChanged` is set. -/
theorem C7_filter_rebuild (env : Env T J) (s : ListViewController T) (aPattern : String)
    (aMethod aProperty : Int) :
    ((setFilter env s aPattern aMethod aProperty).filter =
        { pattern := aPattern, method := aMethod, property := aProperty } ∧
      (setFilter env s aPattern aMethod aProperty).allItems =
        env.itemListF.filter (fun i =>
          matchesFilter env (setFilter env s aPattern aMethod aProperty).filter i) ∧
      (setFilter env s aPattern aMethod aProperty).itemListChanged = true) ∧
    ((resetFilter env s).filter = s.filter.clear ∧
      (resetFilter env s).allItems =
        env.itemListF.filter (fun i => matchesFilter env (resetFilter env s).filter i) ∧
      (resetFilter env s).itemListChanged = true) := by
  refine ⟨⟨rfl, rfl, rfl⟩, rfl, rfl, rfl⟩

/-! ## Notifications (C8, C9) -/

/-- C8 as stated fails: in `worldEven` the view is active, the item `5` fails the filter and
is not in the list, and `onItemUpdated` queues nothing for it, in particular no Update. -/
theorem C8_no_update_when_absent_and_rejected :
    worldEven.lvc.active = true ∧
    matchesFilter worldEven.env worldEven.lvc.filter 5 = false ∧
    isInList worldEven.env 5 worldEven.lvc.allItems = false ∧
    (onItemUpdated worldEven.env worldEven.lvc 5 {0}).tasks.tasks = [] ∧
    (worldEven.lvc.tasks.updateItem 5 {0}).tasks ≠
      (onItemUpdated worldEven.env worldEven.lvc 5 {0}).tasks.tasks := by
  refine ⟨rfl, rfl, rfl, rfl, ?_⟩
  have h1 : (onItemUpdated worldEven.env worldEven.lvc 5 {0}).tasks.tasks = [] := rfl
  have h2 : (worldEven.lvc.tasks.updateItem 5 {0}).tasks = [(5, ⟨0, {0}⟩)] := rfl
  rw [h1, h2]
  exact List.cons_ne_nil _ _

/-- C8, amended: while the view is active `onItemUpdated` queues a Remove when the item
fails the filter and is in the list, an Add when it passes and is not in the list, an
Update with the changed properties when it passes and is in the list, and nothing when it
fails the filter and is not in the list. -/
theorem C8_onItemUpdated_cases (env : Env T J) (s : ListViewController T) (aItem : T)
    (aUpdatedProperties : PropertyIdSet) (hactive : s.active = true) :
    (matchesFilter env s.filter aItem = false → isInList env aItem s.allItems = true →
      onItemUpdated env s aItem aUpdatedProperties =
        { s with tasks := s.tasks.removeItem aItem }) ∧
    (matchesFilter env s.filter aItem = true → isInList env aItem s.allItems = false →
      onItemUpdated env s aItem aUpdatedProperties =
        { s with tasks := s.tasks.addItem aItem }) ∧
    (matchesFilter env s.filter aItem = true → isInList env aItem s.allItems = true →
      onItemUpdated env s aItem aUpdatedProperties =
        { s with tasks := s.tasks.updateItem aItem aUpdatedProperties }) ∧
    (matchesFilter env s.filter aItem = false → isInList env aItem s.allItems = false →
      onItemUpdated env s aItem aUpdatedProperties = s) := by
  refine ⟨?_, ?_, ?_, ?_⟩ <;> intro hm hin <;> simp [onItemUpdated, hactive, hm, hin]

/-- C8, amended, at `worldEven` and the item `5`. -/
theorem C8_onItemUpdated_cases_witness :
    worldEven.lvc.active = true ∧
    onItemUpdated worldEven.env worldEven.lvc 5 {0} = worldEven.lvc :=
  ⟨rfl, (C8_onItemUpdated_cases worldEven.env worldEven.lvc 5 {0} rfl).2.2.2 rfl rfl⟩

/-- C9: while the view is active `onItemRemoved` queues a Remove (for the list element with
the token of the item) when the list holds an item with that token, and leaves the
controller, the queue included, as it was when it does not; in both cases a task that is
an Add stays an Add. -/
theorem C9_onItemRemoved (env : Env T J) (s : ListViewController T) (aItem : T)
    (hactive : s.active = true) :
    (isInList env aItem s.allItems = true →
      ∃ i, i ∈ s.allItems ∧ env.getToken i = env.getToken aItem ∧
        onItemRemoved env s aItem = { s with tasks := s.tasks.removeItem i }) ∧
    (isInList env aItem s.allItems = false → onItemRemoved env s aItem = s) ∧
    (∀ (k : T) (t : MergeTask), TaskMap.find s.tasks.tasks k = some t →
      t.type = Tasks.ADD_ITEM.val →
      TaskMap.find (onItemRemoved env s aItem).tasks.tasks k = some t) := by
  refine ⟨?_, ?_, ?_⟩
  · intro hin
    unfold isInList at hin
    cases hf : findItem env aItem s.allItems with
    | none => simp [hf] at hin
    | some pos =>
      obtain ⟨i, hi, ht⟩ := findItem_some env aItem s.allItems pos hf
      refine ⟨i, List.getElem?_mem hi, ht, ?_⟩
      simp [onItemRemoved, hactive, hf, hi]
  · intro hin
    unfold isInList at hin
    cases hf : findItem env aItem s.allItems with
    | none => simp [onItemRemoved, hf]
    | some pos => simp [hf] at hin
  · intro k t hk ht
    unfold onItemRemoved
    simp only [hactive, Bool.not_true, Bool.false_eq_true, if_false]
    cases hf : findItem env aItem s.allItems with
    | none => exact hk
    | some pos =>
      simp only []
      cases hi : s.allItems[pos]? with
      | none => exact hk
      | some i =>
        simp only [ViewTasks.removeItem]
        rw [itemTasks_find_add]
        by_cases hki : k = i
        · subst hki
          simp [hk, MergeTask.merge, ht, Tasks.val]
        · simp [hki, hk]

/-- C9 at `worldEven` and the item `2`, which is in the list. -/
theorem C9_onItemRemoved_witness :
    worldEven.lvc.active = true ∧
    isInList worldEven.env 2 worldEven.lvc.allItems = true ∧
    ∃ i, i ∈ worldEven.lvc.allItems ∧ worldEven.env.getToken i = worldEven.env.getToken 2 ∧
      onItemRemoved worldEven.env worldEven.lvc 2 =
        { worldEven.lvc with tasks := worldEven.lvc.tasks.removeItem i } :=
  ⟨rfl, rfl, (C9_onItemRemoved worldEven.env worldEven.lvc 2 rfl).1 rfl⟩

/-! ## Counters of the message (C10) -/

/-- C10 as stated fails: the stored total is set back to `-1` when the view is stopped and
when the items are reset. Over the source `[5, 3, 9]` the view is activated and a tick
sends `total_items = 3`; then the view is deleted and activated again (`eventsRestarted`),
or the items are reset (`eventsItemsReset`); the next tick completes with the same three
items and sends `total_items = 3` again. -/
theorem C10_total_sent_again_after_reset :
    worldTicked.lvc.prevTotalCount = 3 ∧
    (handleReset worldTicked.lvc).prevTotalCount = -1 ∧
    (setResetItems worldTicked.env worldTicked.lvc).prevTotalCount = -1 ∧
    (World.init (demoEnv [5, 3, 9])).run eventsRestarted =
      some (demoWorld [5, 3, 9] eventsRestarted) ∧
    (demoWorld [5, 3, 9] eventsRestarted).lvc.allItems = [3, 5, 9] ∧
    (demoWorld [5, 3, 9] eventsRestarted).sent.map (fun p => p.total_items) =
      [some 3, some 3] ∧
    (World.init (demoEnv [5, 3, 9])).run eventsItemsReset =
      some (demoWorld [5, 3, 9] eventsItemsReset) ∧
    (demoWorld [5, 3, 9] eventsItemsReset).lvc.allItems = [3, 5, 9] ∧
    (demoWorld [5, 3, 9] eventsItemsReset).sent.map (fun p => p.total_items) =
      [some 3, some 3] := by
  exact ⟨rfl, rfl, rfl, rfl, rfl, rfl, rfl, rfl, rfl⟩

/-- C10, amended: a message sent by a tick has `range_start`, the resolved start of the
window; it has `total_items`, the size of `allItems`, exactly when that size differs from
the stored total `prevTotalCount`; it has `range_offset`, the resolved start minus the
requested start, exactly when the two differ. The tick stores the size; `stop` and
`setResetItems` set the stored total back to `-1`. After any events other than a stop of
the view and a reset of the items that send no message, the next completed tick with the
same size sends no `total_items`; a completed tick that finds the stored total `-1` sends
`total_items`. -/
theorem C10_payload_counters (env : Env T J) (s s' : ListViewController T) (p : Payload J)
    (h : runTasks env s = some (s', .completed (some p))) :
    ∃ rangeStart : Int,
      p.range_start = some rangeStart ∧
      s'.currentViewItems = (s'.allItems.drop rangeStart.toNat).take s'.currentViewItems.length ∧
      p.total_items =
        (if (s'.allItems.length : Int) ≠ s.prevTotalCount then some (s'.allItems.length : Int)
         else none) ∧
      p.range_offset =
        (if rangeStart ≠ s.currentValues.values.get .TYPE_RANGE_START then
          some (rangeStart - s.currentValues.values.get .TYPE_RANGE_START)
         else none) ∧
      s'.prevTotalCount = (s'.allItems.length : Int) ∧
      (stop s').prevTotalCount = -1 ∧
      (setResetItems env s').prevTotalCount = -1 ∧
      (∀ (w w2 : World T J) (es : List (Event T)) (s3 : ListViewController T)
          (p2 : Payload J),
        w.lvc = s' → w.run es = some w2 →
        (∀ e ∈ es, e ≠ .deleteView ∧ ∀ items, e ≠ .sourceReset items) →
        w2.sent = w.sent →
        runTasks w2.env w2.lvc = some (s3, .completed (some p2)) →
        s3.allItems.length = s'.allItems.length → p2.total_items = none) ∧
      (∀ (env2 : Env T J) (s2 s3 : ListViewController T) (p2 : Payload J),
        s2.prevTotalCount = -1 →
        runTasks env2 s2 = some (s3, .completed (some p2)) →
        p2.total_items = some (s3.allItems.length : Int)) := by
  obtain ⟨items0, start1, newStart, count, upd, _, hrs, _, hloop, hns, hcount, hc0, hview,
    hsent, hprev, _⟩ := runTasks_completed env s s' (some p) h
  simp only [Option.some.injEq] at hsent
  refine ⟨newStart, by rw [hsent], ?_, by rw [hsent], ?_, hprev, rfl, rfl, ?_, ?_⟩
  · rw [hview]
    exact (take_length_take _ _).symm
  · rw [hsent]
    simp only [ne_eq, sub_eq_zero]
  · intro w w2 es s3 p2 hw hrun hes hquiet hrun2 hlen
    have hkeep := (run_prevTotalCount es w w2 hrun hes).2 (by rw [hquiet])
    obtain ⟨_, _, _, _, _, _, _, _, _, _, _, _, _, hsent2, _, _⟩ :=
      runTasks_completed w2.env w2.lvc s3 (some p2) hrun2
    simp only [Option.some.injEq] at hsent2
    rw [hsent2]
    simp only [ne_eq, ite_not]
    rw [if_pos]
    rw [hkeep, hw, hprev, hlen]
  · intro env2 s2 s3 p2 hreset hrun2
    obtain ⟨_, _, _, _, _, _, _, _, _, _, _, _, _, hsent2, _, _⟩ :=
      runTasks_completed env2 s2 s3 (some p2) hrun2
    simp only [Option.some.injEq] at hsent2
    rw [hsent2]
    simp only [ne_eq]
    rw [if_pos]
    rw [hreset]
    omega

/-- C10, amended, at the first tick of `worldActivated`, which sends `total_items = 3`,
and the tick of `worldTouched` after it, which sends none. -/
theorem C10_payload_counters_witness :
    runTasks worldActivated.env worldActivated.lvc =
      some (worldTicked.lvc, .completed (some (demoTickPayload worldActivated))) ∧
    (demoTickPayload worldActivated).total_items = some 3 ∧
    worldTicked.run [.sourceUpdate 5 1 42] = some worldTouched ∧
    worldTouched.sent = worldTicked.sent ∧
    runTasks worldTouched.env worldTouched.lvc =
      some (demoTickState worldTouched, .completed (some (demoTickPayload worldTouched))) ∧
    (demoTickState worldTouched).allItems.length = worldTicked.lvc.allItems.length ∧
    (demoTickPayload worldTouched).total_items = none ∧
    ∃ rangeStart : Int, (demoTickPayload worldActivated).range_start = some rangeStart ∧
      (demoTickPayload worldActivated).total_items =
        (if (worldTicked.lvc.allItems.length : Int) ≠ worldActivated.lvc.prevTotalCount
          then some (worldTicked.lvc.allItems.length : Int) else none) := by
  have hrun : runTasks worldActivated.env worldActivated.lvc =
      some (worldTicked.lvc, .completed (some (demoTickPayload worldActivated))) := rfl
  have hrun2 : runTasks worldTouched.env worldTouched.lvc =
      some (demoTickState worldTouched, .completed (some (demoTickPayload worldTouched))) := rfl
  have hes : worldTicked.run [.sourceUpdate 5 1 42] = some worldTouched := rfl
  have hsent : worldTouched.sent = worldTicked.sent := rfl
  have hlen : (demoTickState worldTouched).allItems.length = worldTicked.lvc.allItems.length :=
    rfl
  obtain ⟨rangeStart, h1, _, h3, _, _, _, _, h8, _⟩ :=
    C10_payload_counters worldActivated.env worldActivated.lvc worldTicked.lvc
      (demoTickPayload worldActivated) hrun
  refine ⟨hrun, rfl, hes, hsent, hrun2, hlen, ?_, rangeStart, h1, h3⟩
  refine h8 worldTicked worldTouched [.sourceUpdate 5 1 42] _ _ rfl hes ?_ hsent hrun2 hlen
  intro e he
  simp only [List.mem_singleton] at he
  subst he
  exact ⟨by simp, by simp⟩

/-! ## Range compensation (C11) -/

/-- C12: when the queue holds no task, the settings collector is not dirty and
`itemListChanged` is clear, `runTasks` sends nothing and returns the controller exactly as
it was. -/
theorem C12_idle_tick (env : Env T J) (s : ListViewController T)
    (hq : s.tasks.tasks = []) (hcons : s.tasks.Consistent)
    (hclean : s.currentValues.hasChanged = false) (hflag : s.itemListChanged = false) :
    ∃ outcome : TickOutcome J, runTasks env s = some (s, outcome) ∧ outcome.message = none := by
  have hup : s.tasks.updatedProperties = ∅ := hcons hq
  have hs : s.tasks = { updatedProperties := ∅, tasks := [] } := by
    cases hst : s.tasks with
    | mk u t =>
      rw [hst] at hq hup
      simp only at hq hup
      rw [hq, hup]
  have hsame : ({ s with tasks := { updatedProperties := ∅, tasks := [] } } :
      ListViewController T) = s := by rw [← hs]
  have hcond : (s.tasks.tasks.isEmpty && !s.currentValues.hasChanged && !s.itemListChanged) =
      true := by rw [hq, hclean, hflag]; rfl
  refine ⟨.noChanges, ?_, rfl⟩
  unfold runTasks
  simp only [ViewTasks.get, ItemTasks.get]
  rw [if_pos hcond, hsame]

/-- C12 at `worldTicked`, right after a tick that sent the window. -/
theorem C12_idle_tick_witness :
    worldTicked.lvc.tasks.tasks = [] ∧
    worldTicked.lvc.currentValues.hasChanged = false ∧
    worldTicked.lvc.itemListChanged = false ∧
    ∃ outcome : TickOutcome (List (Int × Int)),
      runTasks worldTicked.env worldTicked.lvc = some (worldTicked.lvc, outcome) ∧
      outcome.message = none :=
  ⟨rfl, rfl, rfl,
    C12_idle_tick worldTicked.env worldTicked.lvc rfl (fun _ => rfl) rfl rfl⟩

/-- C14: a settings POST with a negative `range_start` or with a `sort_property` that is
not in the schema throws, whatever else the body holds, and the controller (settings
values, dirty flag, `active`, timer) is then exactly as before the request. -/
theorem C14_settings_rejected (env : Env T J) (s : ListViewController T) (j : SettingsJson)
    (hbad : (∃ n : Int, j.range_start = some n ∧ n < 0) ∨
      (∃ name : String, j.sort_property = some name ∧
        findPropertyByName name env.itemHandler.properties = -1)) :
    ∃ msg : String, handlePostSettings env s j = .error (msg, s) := by
  have hparse : ∃ msg : String, parseProperties env s j = .error (msg, s) := by
    unfold parseProperties
    cases hrs : j.range_start with
    | some n =>
      by_cases hn : n < 0
      · exact ⟨"Negative range start not allowed", by simp [hn, bind, Except.bind]⟩
      · rcases hbad with ⟨n', hn', hneg⟩ | ⟨name, hname, hp⟩
        · rw [hrs] at hn'
          simp only [Option.some.injEq] at hn'
          exact absurd (hn' ▸ hneg) hn
        · exact ⟨"Invalid sort property",
            by simp [hn, hname, hp, bind, Except.bind, pure, Except.pure]⟩
    | none =>
      rcases hbad with ⟨n', hn', _⟩ | ⟨name, hname, hp⟩
      · rw [hrs] at hn'; simp at hn'
      · exact ⟨"Invalid sort property",
          by simp [hname, hp, bind, Except.bind, pure, Except.pure]⟩
  obtain ⟨msg, hmsg⟩ := hparse
  exact ⟨msg, by unfold handlePostSettings; rw [hmsg]; rfl⟩

/-- C14 at `worldTicked` and a body with `range_start = -1` and four other keys. -/
theorem C14_settings_rejected_witness :
    ((∃ n : Int, demoSettingsNegative.range_start = some n ∧ n < 0) ∨
      (∃ name : String, demoSettingsNegative.sort_property = some name ∧
        findPropertyByName name worldTicked.env.itemHandler.properties = -1)) ∧
    ∃ msg : String,
      handlePostSettings worldTicked.env worldTicked.lvc demoSettingsNegative =
        .error (msg, worldTicked.lvc) :=
  ⟨Or.inl ⟨-1, rfl, by decide⟩,
    C14_settings_rejected worldTicked.env worldTicked.lvc demoSettingsNegative
      (Or.inl ⟨-1, rfl, by decide⟩)⟩

/-- C15 as stated fails: in `worldTicked` a filter POST with the pattern "even" and the
unknown property name "nope" is carried out: the filter, the list and `itemListChanged`
all change. -/
theorem C15_unknown_property_not_rejected :
    demoFilterUnknown.pattern.isEmpty = false ∧
    findPropertyByName demoFilterUnknown.property worldTicked.env.itemHandler.properties = -1 ∧
    worldTicked.lvc.filter = { pattern := "", method := 0, property := -1 } ∧
    (handlePostFilter worldTicked.env worldTicked.lvc demoFilterUnknown).filter =
      { pattern := "even", method := 0, property := -1 } ∧
    worldTicked.lvc.allItems = [3, 5, 9] ∧
    (handlePostFilter worldTicked.env worldTicked.lvc demoFilterUnknown).allItems = [] ∧
    worldTicked.lvc.itemListChanged = false ∧
    (handlePostFilter worldTicked.env worldTicked.lvc demoFilterUnknown).itemListChanged =
      true :=
  ⟨rfl, rfl, rfl, rfl, rfl, rfl, rfl, rfl⟩

/-- C15, amended: a filter POST with a non-empty pattern and a property name that is not
in the schema is not rejected: it is `setFilter` with the property `-1`, so the filter is
replaced, `allItems` is rebuilt from the snapshot with the new filter and
`itemListChanged` is set. -/
theorem C15_filter_unknown_property (env : Env T J) (s : ListViewController T)
    (reqJson : FilterJson) (hpattern : reqJson.pattern.isEmpty = false)
    (hunknown : findPropertyByName reqJson.property env.itemHandler.properties = -1) :
    handlePostFilter env s reqJson = setFilter env s reqJson.pattern reqJson.method (-1) ∧
    (handlePostFilter env s reqJson).filter =
      { pattern := reqJson.pattern, method := reqJson.method, property := -1 } ∧
    (handlePostFilter env s reqJson).allItems =
      env.itemListF.filter (fun i =>
        matchesFilter env
          { pattern := reqJson.pattern, method := reqJson.method, property := -1 } i) ∧
    (handlePostFilter env s reqJson).itemListChanged = true := by
  have h : handlePostFilter env s reqJson =
      setFilter env s reqJson.pattern reqJson.method (-1) := by
    unfold handlePostFilter
    rw [hpattern, hunknown]
    rfl
  rw [h]
  exact ⟨rfl, rfl, rfl, rfl⟩

/-- C15, amended, at `worldTicked` and the body `demoFilterUnknown`. -/
theorem C15_filter_unknown_property_witness :
    demoFilterUnknown.pattern.isEmpty = false ∧
    findPropertyByName demoFilterUnknown.property worldTicked.env.itemHandler.properties = -1 ∧
    handlePostFilter worldTicked.env worldTicked.lvc demoFilterUnknown =
      setFilter worldTicked.env worldTicked.lvc demoFilterUnknown.pattern
        demoFilterUnknown.method (-1) :=
  ⟨rfl, rfl,
    (C15_filter_unknown_property worldTicked.env worldTicked.lvc demoFilterUnknown rfl rfl).1⟩

/-! ## Teardown, settings collector and queue (C16, C17, C18) -/

/-- C16: after `stop` the controller is inactive, the queue (tasks and accumulated
property ids), `allItems` and the window are empty and every setting is `-1`; a second
`stop` gives the same controller as the first. -/
theorem C16_stop_clears (s : ListViewController T) :
    (stop s).active = false ∧
    (stop s).tasks = { updatedProperties := ∅, tasks := [] } ∧
    (stop s).allItems = [] ∧
    (stop s).currentViewItems = [] ∧
    (∀ k : ValueType, (stop s).currentValues.values.find k = some (-1)) ∧
    stop (stop s) = stop s := by
  refine ⟨rfl, rfl, rfl, rfl, ?_, rfl⟩
  intro k
  cases k <;> rfl

/-- C17: `set` and the map version of `set` mark the collector as changed, give every key
that is passed its new value and leave every other key as it was; `getAll` right after
returns these values. -/
theorem C17_collector_merge (c : IntCollector) (aType : ValueType) (aValue : Int)
    (aMap : ValueMap) :
    ((c.set aType aValue).hasChanged = true ∧
      (c.set aType aValue).getAll.1.find aType = some aValue ∧
      (∀ k : ValueType, k ≠ aType →
        (c.set aType aValue).getAll.1.find k = c.values.find k)) ∧
    ((c.setMany aMap).hasChanged = true ∧
      (∀ (k : ValueType) (v : Int), aMap.find k = some v →
        (c.setMany aMap).getAll.1.find k = some v) ∧
      (∀ k : ValueType, aMap.find k = none →
        (c.setMany aMap).getAll.1.find k = c.values.find k)) := by
  refine ⟨⟨rfl, ?_, ?_⟩, rfl, ?_, ?_⟩
  · cases aType <;> rfl
  · intro k hk
    cases aType <;> cases k <;> first | rfl | exact absurd rfl hk
  · intro k v hv
    obtain ⟨a, b, cc, d⟩ := aMap
    cases a <;> cases b <;> cases cc <;> cases d <;> cases k <;>
      simp only [ValueMap.find] at hv <;> cases hv <;> rfl
  · intro k hv
    obtain ⟨a, b, cc, d⟩ := aMap
    cases a <;> cases b <;> cases cc <;> cases d <;> cases k <;>
      simp only [ValueMap.find] at hv <;> first | rfl | exact absurd hv (by simp)

/-- C18: draining the queue into empty containers returns the task map and the
accumulated property ids and leaves the queue empty, so a second drain returns an empty
map and an empty set; the accumulated set drained after a sequence of calls since the
last drain or `clear` is the union of the sets passed to the `updateItem` calls. -/
theorem C18_drain (q : ViewTasks T) (ops : List (T × Tasks × PropertyIdSet)) :
    (q.get [] ∅).1 = q.tasks ∧
    (q.get [] ∅).2.1 = q.updatedProperties ∧
    (q.get [] ∅).2.2 = { updatedProperties := ∅, tasks := [] } ∧
    ((q.get [] ∅).2.2.get [] ∅).1 = [] ∧
    ((q.get [] ∅).2.2.get [] ∅).2.1 = ∅ ∧
    (((q.get [] ∅).2.2.enqueueAll ops).get [] ∅).2.1 = updatedUnion ops ∧
    ((q.clear.enqueueAll ops).get [] ∅).2.1 = updatedUnion ops := by
  refine ⟨rfl, rfl, rfl, rfl, rfl, ?_, ?_⟩
  · simp only [ViewTasks.get, ItemTasks.get]
    rw [enqueueAll_updatedProperties]
    simp
  · simp only [ViewTasks.get, ItemTasks.get, ViewTasks.clear]
    rw [enqueueAll_updatedProperties]
    simp

/-! ## Notifications while inactive (C19) -/

/-- C19: while the view is inactive `onItemAdded`, `onItemRemoved`, `onItemUpdated` and
`onItemsUpdated` return the controller unchanged. -/
theorem C19_inactive_ignores (env : Env T J) (s : ListViewController T) (aItem : T)
    (aItems : List T) (aUpdatedProperties : PropertyIdSet) (hinactive : s.active = false) :
    onItemAdded env s aItem = s ∧
    onItemRemoved env s aItem = s ∧
    onItemUpdated env s aItem aUpdatedProperties = s ∧
    onItemsUpdated env s aItems aUpdatedProperties = s := by
  refine ⟨?_, ?_, ?_, ?_⟩
  · simp [onItemAdded, hinactive]
  · simp [onItemRemoved, hinactive]
  · simp [onItemUpdated, hinactive]
  · simp [onItemsUpdated, hinactive]

/-- C19 at a freshly constructed controller. -/
theorem C19_inactive_ignores_witness :
    (ListViewController.new : ListViewController Nat).active = false ∧
    onItemAdded (demoEnv [5, 3, 9]) ListViewController.new 5 = ListViewController.new ∧
    onItemRemoved (demoEnv [5, 3, 9]) ListViewController.new 5 = ListViewController.new ∧
    onItemUpdated (demoEnv [5, 3, 9]) ListViewController.new 5 {0} = ListViewController.new ∧
    onItemsUpdated (demoEnv [5, 3, 9]) ListViewController.new [5, 3] {0} =
      ListViewController.new :=
  ⟨rfl, C19_inactive_ignores (demoEnv [5, 3, 9]) ListViewController.new 5 [5, 3] {0} rfl⟩

/-! ## The tick after a filter change (C20) -/

/-- C20 as stated fails: in `worldRefiltered` (the window `[3, 5, 9]` was sent, then the
filter was deleted) the next tick completes with the same window and writes every item
with its id only. -/
theorem C20_no_full_resend_after_filter_change :
    worldRefiltered.lvc = resetFilter worldTicked.env worldTicked.lvc ∧
    worldTicked.lvc.currentViewItems = [3, 5, 9] ∧
    runTasks worldRefiltered.env worldRefiltered.lvc =
      some (demoTickState worldRefiltered,
        .completed (some (demoTickPayload worldRefiltered))) ∧
    (demoTickState worldRefiltered).currentViewItems = [3, 5, 9] ∧
    (demoTickPayload worldRefiltered).itemEntries =
      [⟨some 3, none⟩, ⟨some 5, none⟩, ⟨some 9, none⟩] :=
  ⟨rfl, rfl, rfl, rfl, rfl⟩

/-- C20, amended: `setFilter` and `resetFilter` keep the stored window and set
`itemListChanged`; the tick that runs next and completes sorts the rebuilt list before the
task loop and computes its diff against that stored window as every tick does: an item of
the new window is written in full only when it was
not in the window before the filter change, with the properties of its Update task when
it was and has one, and with its id only when it was and has none. -/
theorem C20_diff_after_filter_change (env0 env : Env T J) (s0 s1 s' : ListViewController T)
    (p : Payload J)
    (hfilter : (∃ (aPattern : String) (aMethod aProperty : Int),
        s1 = setFilter env0 s0 aPattern aMethod aProperty) ∨ s1 = resetFilter env0 s0)
    (hq : TaskMap.WF s1.tasks.tasks)
    (h : runTasks env s1 = some (s', .completed (some p))) :
    s1.currentViewItems = s0.currentViewItems ∧
    s1.itemListChanged = true ∧
    (∃ (start1 : Int) (updatedItems : TaskMap T),
      taskLoop env (s1.currentValues.values.get .TYPE_SORT_PROPERTY)
        (s1.currentValues.values.get .TYPE_SORT_ASCENDING) s1.tasks.tasks
        (sortItems (fun t1 t2 => itemSort env t1 t2
            (s1.currentValues.values.get .TYPE_SORT_PROPERTY)
            (s1.currentValues.values.get .TYPE_SORT_ASCENDING)) s1.allItems,
          s1.currentValues.values.get .TYPE_RANGE_START, []) =
          some (s'.allItems, start1, updatedItems)) ∧
    ∀ (i : Nat) (item : T) (e : ItemJson J),
      s'.currentViewItems[i]? = some item → p.itemEntries[i]? = some e →
        e.id = some (env.getToken item) ∧
        (isInList env item s0.currentViewItems = false →
          e.properties = some (env.serializeItemProperties item
            (toPropertyIdSet env.itemHandler.properties) env.itemHandler)) ∧
        (∀ ps : PropertyIdSet, isInList env item s0.currentViewItems = true →
          TaskMap.find s1.tasks.tasks item = some ⟨Tasks.UPDATE_ITEM.val, ps⟩ →
          e.properties = some (env.serializeItemProperties item ps env.itemHandler)) ∧
        (isInList env item s0.currentViewItems = true →
          (∀ ps : PropertyIdSet,
            TaskMap.find s1.tasks.tasks item ≠ some ⟨Tasks.UPDATE_ITEM.val, ps⟩) →
          e.properties = none) := by
  have hview : s1.currentViewItems = s0.currentViewItems := by
    rcases hfilter with ⟨a, b, c, hs⟩ | hs <;> rw [hs] <;> rfl
  have hflag : s1.itemListChanged = true := by
    rcases hfilter with ⟨a, b, c, hs⟩ | hs <;> rw [hs] <;> rfl
  refine ⟨hview, hflag, runTasks_completed_invalidated env s1 s' (some p) h hflag, ?_⟩
  obtain ⟨upd, hp, hfind⟩ := runTasks_itemEntries env s1 s' p hq h
  rw [hview] at hp
  intro i item e hi he
  rw [hp, List.getElem?_map, hi] at he
  simp only [Option.map_some', Option.some.injEq] at he
  subst he
  have hf := hfind item
  unfold itemEntry
  refine ⟨?_, ?_, ?_, ?_⟩
  · split
    · rfl
    · split <;> rfl
  · intro hin
    simp [hin]
  · intro ps hin hfi
    rw [hfi] at hf
    simp [hin, hf]
  · intro hin hno
    have hnone : TaskMap.find upd item = none := by
      rw [hf]
      cases hfi : TaskMap.find s1.tasks.tasks item with
      | none => rfl
      | some t =>
        simp only
        split
        · rename_i ht
          refine absurd ?_ (hno t.updatedProperties)
          rw [hfi, ← ht]
        · rfl
    simp [hin, hnone]

/-- C20, amended, at the filter deletion of `worldTicked` and the tick after it. -/
theorem C20_diff_after_filter_change_witness :
    worldRefiltered.lvc = resetFilter worldTicked.env worldTicked.lvc ∧
    TaskMap.WF worldRefiltered.lvc.tasks.tasks ∧
    runTasks worldRefiltered.env worldRefiltered.lvc =
      some (demoTickState worldRefiltered,
        .completed (some (demoTickPayload worldRefiltered))) ∧
    worldRefiltered.lvc.currentViewItems = worldTicked.lvc.currentViewItems ∧
    worldRefiltered.lvc.itemListChanged = true := by
  have hs : worldRefiltered.lvc = resetFilter worldTicked.env worldTicked.lvc := rfl
  have hq : TaskMap.WF worldRefiltered.lvc.tasks.tasks := by unfold TaskMap.WF; decide
  have hrun : runTasks worldRefiltered.env worldRefiltered.lvc =
      some (demoTickState worldRefiltered,
        .completed (some (demoTickPayload worldRefiltered))) := rfl
  have h := C20_diff_after_filter_change worldTicked.env worldRefiltered.env worldTicked.lvc
    worldRefiltered.lvc (demoTickState worldRefiltered) (demoTickPayload worldRefiltered)
    (Or.inr hs) hq hrun
  exact ⟨hs, hq, hrun, h.1, h.2.1⟩

/-! ## The task loop and the membership of the list (C21) -/

/-- C21: a tick that is not idle and passes the sort property and range start checks, with
a drained map whose keys have pairwise different tokens, whose Add tokens are absent from
the list (which has pairwise different tokens) and whose Remove tokens are present in it,
has a result that stops at the count check or completes; the queue is empty afterwards;
the tokens of the list after the task loop are the old tokens plus the Add tokens minus the
Remove tokens; its length is the old length plus the number of Adds minus the number of
Removes; Update tasks enter neither. -/
theorem C21_task_loop_membership (env : Env T J) (s : ListViewController T)
    (hbusy : s.tasks.tasks ≠ [] ∨ s.currentValues.hasChanged = true ∨
      s.itemListChanged = true)
    (hsp : 0 ≤ s.currentValues.values.get .TYPE_SORT_PROPERTY)
    (hrs : 0 ≤ s.currentValues.values.get .TYPE_RANGE_START)
    (hkeys : (s.tasks.tasks.map (fun e => env.getToken e.1)).Nodup)
    (hlist : (s.allItems.map env.getToken).Nodup)
    (hadd : ∀ tok ∈ taskTokens env .ADD_ITEM s.tasks.tasks,
      tok ∉ s.allItems.map env.getToken)
    (hrem : ∀ tok ∈ taskTokens env .REMOVE_ITEM s.tasks.tasks,
      tok ∈ s.allItems.map env.getToken) :
    ∃ (s' : ListViewController T) (o : TickOutcome J),
      runTasks env s = some (s', o) ∧
      (o = .countNegative ∨ ∃ sent, o = .completed sent) ∧
      s'.tasks = { updatedProperties := ∅, tasks := [] } ∧
      (∀ tok : Nat, tok ∈ s'.allItems.map env.getToken ↔
        (tok ∈ s.allItems.map env.getToken ∨ tok ∈ taskTokens env .ADD_ITEM s.tasks.tasks) ∧
          tok ∉ taskTokens env .REMOVE_ITEM s.tasks.tasks) ∧
      s'.allItems.length + (taskTokens env .REMOVE_ITEM s.tasks.tasks).length =
        s.allItems.length + (taskTokens env .ADD_ITEM s.tasks.tasks).length ∧
      (s'.allItems.map env.getToken ++ taskTokens env .REMOVE_ITEM s.tasks.tasks).Perm
        (taskTokens env .ADD_ITEM s.tasks.tasks ++ s.allItems.map env.getToken) := by
  obtain ⟨items0, hperm0, _, hsome⟩ :=
    runTasks_of_taskLoop env s ((idle_eq_false_iff s).mpr hbusy) hsp hrs
  have hp0 : (items0.map env.getToken).Perm (s.allItems.map env.getToken) :=
    hperm0.map env.getToken
  have hndRem : (taskTokens env .REMOVE_ITEM s.tasks.tasks).Nodup :=
    hkeys.sublist (taskTokens_sublist env _ _)
  have hndAdd : (taskTokens env .ADD_ITEM s.tasks.tasks).Nodup :=
    hkeys.sublist (taskTokens_sublist env _ _)
  obtain ⟨r, hr, hp⟩ := taskLoop_tokens env
    (s.currentValues.values.get .TYPE_SORT_PROPERTY)
    (s.currentValues.values.get .TYPE_SORT_ASCENDING) s.tasks.tasks items0
    (s.currentValues.values.get .TYPE_RANGE_START) [] hndRem
    (fun tok ht => hp0.mem_iff.mpr (hrem tok ht))
  obtain ⟨items1, start1, upd⟩ := r
  obtain ⟨sMid, uv, hrun, hmid, _, _, _⟩ := hsome items1 start1 upd hr
  have hall : (runTasksFinish env sMid uv start1 upd).1.allItems = items1 := by
    rw [(runTasksFinish_cases env sMid uv start1 upd).1, hmid]
  have hperm : ((runTasksFinish env sMid uv start1 upd).1.allItems.map env.getToken ++
        taskTokens env .REMOVE_ITEM s.tasks.tasks).Perm
      (taskTokens env .ADD_ITEM s.tasks.tasks ++ s.allItems.map env.getToken) := by
    rw [hall]
    exact hp.trans ((List.Perm.refl _).append hp0)
  have hndR : (taskTokens env .ADD_ITEM s.tasks.tasks ++ s.allItems.map env.getToken).Nodup :=
    List.nodup_append.mpr ⟨hndAdd, hlist, fun tok h1 h2 => hadd tok h1 h2⟩
  have hndL := (hperm.nodup_iff).mpr hndR
  refine ⟨(runTasksFinish env sMid uv start1 upd).1, (runTasksFinish env sMid uv start1 upd).2,
    hrun, (runTasksFinish_outcome env sMid _ uv start1 upd _ rfl).1,
    runTasks_tasks env s _ _ hrun, ?_, ?_, hperm⟩
  · intro tok
    constructor
    · intro h
      have h1 := hperm.mem_iff.mp (List.mem_append_left _ h)
      refine ⟨?_, fun h2 => (List.nodup_append.mp hndL).2.2 h h2⟩
      rcases List.mem_append.mp h1 with h3 | h3
      · exact Or.inr h3
      · exact Or.inl h3
    · rintro ⟨h1, h2⟩
      have h3 : tok ∈ taskTokens env .ADD_ITEM s.tasks.tasks ++ s.allItems.map env.getToken := by
        rcases h1 with h1 | h1
        · exact List.mem_append_right _ h1
        · exact List.mem_append_left _ h1
      rcases List.mem_append.mp (hperm.mem_iff.mpr h3) with h4 | h4
      · exact h4
      · exact absurd h4 h2
  · have := hperm.length_eq
    simp only [List.length_append, List.length_map] at this
    omega

/-- C21 at the tick of `worldMixed`: the list `[3, 5, 9]` with an Add for `1`, an Update
for `5` and a Remove for `9` pending becomes `[1, 3, 5]`. -/
theorem C21_task_loop_membership_witness :
    worldMixed.lvc.allItems = [3, 5, 9] ∧
    worldMixed.lvc.tasks.tasks =
      [(1, ⟨Tasks.ADD_ITEM.val, ∅⟩), (5, ⟨Tasks.UPDATE_ITEM.val, {1}⟩),
        (9, ⟨Tasks.REMOVE_ITEM.val, ∅⟩)] ∧
    taskTokens worldMixed.env .ADD_ITEM worldMixed.lvc.tasks.tasks = [1] ∧
    taskTokens worldMixed.env .REMOVE_ITEM worldMixed.lvc.tasks.tasks = [9] ∧
    (demoTickState worldMixed).allItems = [1, 3, 5] ∧
    ∃ (s' : ListViewController Nat) (o : TickOutcome (List (Int × Int))),
      runTasks worldMixed.env worldMixed.lvc = some (s', o) ∧
      (o = .countNegative ∨ ∃ sent, o = .completed sent) ∧
      s'.tasks = { updatedProperties := ∅, tasks := [] } ∧
      (∀ tok : Nat, tok ∈ s'.allItems.map worldMixed.env.getToken ↔
        (tok ∈ worldMixed.lvc.allItems.map worldMixed.env.getToken ∨
          tok ∈ taskTokens worldMixed.env .ADD_ITEM worldMixed.lvc.tasks.tasks) ∧
          tok ∉ taskTokens worldMixed.env .REMOVE_ITEM worldMixed.lvc.tasks.tasks) ∧
      s'.allItems.length +
          (taskTokens worldMixed.env .REMOVE_ITEM worldMixed.lvc.tasks.tasks).length =
        worldMixed.lvc.allItems.length +
          (taskTokens worldMixed.env .ADD_ITEM worldMixed.lvc.tasks.tasks).length ∧
      (s'.allItems.map worldMixed.env.getToken ++
          taskTokens worldMixed.env .REMOVE_ITEM worldMixed.lvc.tasks.tasks).Perm
        (taskTokens worldMixed.env .ADD_ITEM worldMixed.lvc.tasks.tasks ++
          worldMixed.lvc.allItems.map worldMixed.env.getToken) := by
  have hq : worldMixed.lvc.tasks.tasks =
      [(1, ⟨Tasks.ADD_ITEM.val, ∅⟩), (5, ⟨Tasks.UPDATE_ITEM.val, {1}⟩),
        (9, ⟨Tasks.REMOVE_ITEM.val, ∅⟩)] := rfl
  have hl : worldMixed.lvc.allItems.map worldMixed.env.getToken = [3, 5, 9] := rfl
  have hk : worldMixed.lvc.tasks.tasks.map (fun e => worldMixed.env.getToken e.1) =
      [1, 5, 9] := rfl
  have ha : taskTokens worldMixed.env .ADD_ITEM worldMixed.lvc.tasks.tasks = [1] := rfl
  have hr : taskTokens worldMixed.env .REMOVE_ITEM worldMixed.lvc.tasks.tasks = [9] := rfl
  have hsp : worldMixed.lvc.currentValues.values.get .TYPE_SORT_PROPERTY = 0 := rfl
  have hrs : worldMixed.lvc.currentValues.values.get .TYPE_RANGE_START = 0 := rfl
  exact ⟨rfl, hq, ha, hr, rfl,
    C21_task_loop_membership worldMixed.env worldMixed.lvc
      (Or.inl (by rw [hq]; exact List.cons_ne_nil _ _))
      (by rw [hsp]) (by rw [hrs])
      (by rw [hk]; decide) (by rw [hl]; decide)
      (by rw [ha, hl]; decide) (by rw [hr, hl]; decide)⟩

/-! ## The start of the window (C22) -/

/-- C22 as stated fails: in `worldBeyond` (three items, `range_start` 5) the tick completes
with the resolved start `0`, not `totalCount - 1 = 2`, and sends the window `[3, 5, 9]`. -/
theorem C22_start_beyond_total_is_zero :
    worldBeyond.lvc.currentValues.values.get .TYPE_RANGE_START = 5 ∧
    worldBeyond.lvc.tasks.tasks = [] ∧
    runTasks worldBeyond.env worldBeyond.lvc =
      some (demoTickState worldBeyond, .completed (some (demoTickPayload worldBeyond))) ∧
    (demoTickState worldBeyond).allItems = [3, 5, 9] ∧
    (demoTickPayload worldBeyond).range_start = some 0 ∧
    (demoTickPayload worldBeyond).range_start ≠
      some (((demoTickState worldBeyond).allItems.length : Int) - 1) ∧
    (demoTickState worldBeyond).currentViewItems = [3, 5, 9] := by
  refine ⟨rfl, rfl, rfl, rfl, rfl, ?_, rfl⟩
  have h : (demoTickPayload worldBeyond).range_start = some 0 := rfl
  have hlen : (demoTickState worldBeyond).allItems.length = 3 := rfl
  rw [h, hlen]
  decide

/-- C22, amended: in a tick that completes, the start written to the message is the
working start left by the task loop when that is below the list length, and `0` when it is
the list length or more (in particular for an empty list); so it lies in `[0, totalCount)`
for a non-empty list. -/
theorem C22_range_start_reset (env : Env T J) (s s' : ListViewController T) (p : Payload J)
    (h : runTasks env s = some (s', .completed (some p))) :
    ∃ (items0 : List T) (workingStart resolvedStart : Int) (updatedItems : TaskMap T),
      taskLoop env (s.currentValues.values.get .TYPE_SORT_PROPERTY)
        (s.currentValues.values.get .TYPE_SORT_ASCENDING) s.tasks.tasks
        (items0, s.currentValues.values.get .TYPE_RANGE_START, []) =
          some (s'.allItems, workingStart, updatedItems) ∧
      0 ≤ workingStart ∧
      p.range_start = some resolvedStart ∧
      (workingStart < (s'.allItems.length : Int) → resolvedStart = workingStart) ∧
      ((s'.allItems.length : Int) ≤ workingStart → resolvedStart = 0) ∧
      (s'.allItems.length = 0 → resolvedStart = 0) ∧
      0 ≤ resolvedStart ∧
      (0 < s'.allItems.length → resolvedStart < (s'.allItems.length : Int)) := by
  obtain ⟨items0, start1, newStart, count, upd, _, hrs, _, hloop, hns, _, _, _, hsent, _, _,
    hs1⟩ := runTasks_completed env s s' (some p) h
  simp only [Option.some.injEq] at hsent
  refine ⟨items0, start1, newStart, upd, hloop, hs1, by rw [hsent], ?_, ?_, ?_, ?_, ?_⟩
  · intro hlt; rw [hns, if_neg (not_le.mpr hlt)]
  · intro hle; rw [hns, if_pos hle]
  · intro h0; rw [hns, if_pos (by omega)]
  · rw [hns]; split <;> omega
  · intro hpos; rw [hns]; split <;> omega

/-- C22, amended, at the tick of `worldBeyond`. -/
theorem C22_range_start_reset_witness :
    runTasks worldBeyond.env worldBeyond.lvc =
      some (demoTickState worldBeyond, .completed (some (demoTickPayload worldBeyond))) ∧
    ∃ (items0 : List Nat) (workingStart resolvedStart : Int) (updatedItems : TaskMap Nat),
      taskLoop worldBeyond.env
        (worldBeyond.lvc.currentValues.values.get .TYPE_SORT_PROPERTY)
        (worldBeyond.lvc.currentValues.values.get .TYPE_SORT_ASCENDING)
        worldBeyond.lvc.tasks.tasks
        (items0, worldBeyond.lvc.currentValues.values.get .TYPE_RANGE_START, []) =
          some ((demoTickState worldBeyond).allItems, workingStart, updatedItems) ∧
      0 ≤ workingStart ∧
      (demoTickPayload worldBeyond).range_start = some resolvedStart ∧
      (workingStart < ((demoTickState worldBeyond).allItems.length : Int) →
        resolvedStart = workingStart) ∧
      (((demoTickState worldBeyond).allItems.length : Int) ≤ workingStart →
        resolvedStart = 0) ∧
      ((demoTickState worldBeyond).allItems.length = 0 → resolvedStart = 0) ∧
      0 ≤ resolvedStart ∧
      (0 < (demoTickState worldBeyond).allItems.length →
        resolvedStart < ((demoTickState worldBeyond).allItems.length : Int)) := by
  have hrun : runTasks worldBeyond.env worldBeyond.lvc =
      some (demoTickState worldBeyond, .completed (some (demoTickPayload worldBeyond))) := rfl
  exact ⟨hrun, C22_range_start_reset worldBeyond.env worldBeyond.lvc
    (demoTickState worldBeyond) (demoTickPayload worldBeyond) hrun⟩

/-! ## When a tick sends (C23) -/

/-- C24 as stated fails in three ways. (1) In `worldPendingUpdate` the view is active, the
item `4` passes the filter and is absent from the list, and an Update for `4` is pending;
after `onItemAdded(4)` and `onItemRemoved(4)` the pending task for `4` is still the Update,
and the tick that runs next completes without `4` in the list. (2) After
`eventsUnsortedTick` the tick that followed the two notifications stopped at the sort
property check and dropped the Add; the next tick completes without `4` in the list.
(3) After `eventsRebuilt` the item `4` was inserted by a completed tick and no Remove was
ever queued, but the filter deletion rebuilt the list without it. -/
theorem C24_add_can_be_lost :
    (worldPendingUpdate.lvc.active = true ∧
      matchesFilter worldPendingUpdate.env worldPendingUpdate.lvc.filter 4 = true ∧
      worldPendingUpdate.lvc.allItems = [5, 3, 9] ∧
      worldPendingUpdate.lvc.tasks.tasks = [(4, ⟨Tasks.UPDATE_ITEM.val, {1}⟩)] ∧
      (World.init (demoEnv [5, 3, 9, 4])).run
        (eventsPendingUpdate ++ [.sourceAdd 4, .sourceRemove 4]) = some worldReadded ∧
      worldReadded.lvc =
        onItemRemoved worldReadded.env (onItemAdded worldReadded.env worldPendingUpdate.lvc 4) 4 ∧
      worldReadded.lvc.tasks.tasks = [(4, ⟨Tasks.UPDATE_ITEM.val, {1}⟩)] ∧
      runTasks worldReadded.env worldReadded.lvc =
        some (demoTickState worldReadded, .completed (some (demoTickPayload worldReadded))) ∧
      (demoTickState worldReadded).allItems = [3, 5, 9]) ∧
    ((demoWorld [5, 3, 9] [.postSettings demoSettingsNoSort]).lvc.active = true ∧
      (demoWorld [5, 3, 9] [.postSettings demoSettingsNoSort]).lvc.allItems = [5, 3, 9] ∧
      (demoWorld [5, 3, 9]
        [.postSettings demoSettingsNoSort, .sourceAdd 4, .sourceRemove 4]).lvc.tasks.tasks =
          [(4, ⟨Tasks.ADD_ITEM.val, ∅⟩)] ∧
      (∃ s, runTasks (demoEnv [5, 3, 9]) (demoWorld [5, 3, 9]
        [.postSettings demoSettingsNoSort, .sourceAdd 4, .sourceRemove 4]).lvc =
          some (s, .sortPropertyUnset) ∧ s.allItems = [5, 3, 9] ∧ s.tasks.tasks = []) ∧
      runTasks (demoWorld [5, 3, 9] eventsUnsortedTick).env
          (demoWorld [5, 3, 9] eventsUnsortedTick).lvc =
        some (demoTickState (demoWorld [5, 3, 9] eventsUnsortedTick),
          .completed (some (demoTickPayload (demoWorld [5, 3, 9] eventsUnsortedTick)))) ∧
      (demoTickState (demoWorld [5, 3, 9] eventsUnsortedTick)).allItems = [3, 5, 9]) ∧
    (worldAddedRemoved.lvc.tasks.tasks = [(4, ⟨Tasks.ADD_ITEM.val, ∅⟩)] ∧
      runTasks worldAddedRemoved.env worldAddedRemoved.lvc =
        some (demoTickState worldAddedRemoved,
          .completed (some (demoTickPayload worldAddedRemoved))) ∧
      (demoTickState worldAddedRemoved).allItems = [3, 4, 5, 9] ∧
      (demoTickState worldAddedRemoved).tasks.tasks = [] ∧
      (demoWorld [5, 3, 9] eventsRebuilt).lvc =
        resetFilter (demoWorld [5, 3, 9] eventsRebuilt).env (demoTickState worldAddedRemoved) ∧
      (demoWorld [5, 3, 9] eventsRebuilt).lvc.allItems = [5, 3, 9]) := by
  refine ⟨⟨rfl, rfl, rfl, rfl, rfl, rfl, rfl, rfl, rfl⟩, ⟨rfl, rfl, rfl, ⟨_, rfl, rfl, rfl⟩, rfl, rfl⟩,
    ⟨rfl, rfl, rfl, rfl, rfl, rfl⟩⟩

/-- C24, amended: for an active view and an item `x` that passes the filter, is absent
from the list and has no pending task of a type below Add (no Update), where no pending
task of another item carries the token of `x`: after `onItemAdded(x)` and
`onItemRemoved(x)` the queue has exactly one entry for `x`, of type Add, and the list is
unchanged; a tick that runs next and gets past the sort property and range start checks
(it completes or stops at the count check) leaves `x` in the list; every later tick whose
drained tasks hold no Remove with the token of `x` keeps `x` in the list, and so do the
notification methods. -/
theorem C24_add_then_remove (env : Env T J) (s : ListViewController T) (x : T)
    (hactive : s.active = true)
    (hfilter : matchesFilter env s.filter x = true)
    (habsent : isInList env x s.allItems = false)
    (hwf : TaskMap.WF s.tasks.tasks)
    (hpending : ∀ t, TaskMap.find s.tasks.tasks x = some t → Tasks.ADD_ITEM.val ≤ t.type)
    (htokens : ∀ e ∈ s.tasks.tasks, env.getToken e.1 = env.getToken x → e.1 = x) :
    (∃ t : MergeTask,
      (onItemRemoved env (onItemAdded env s x) x).tasks.tasks.filter
        (fun e => decide (e.1 = x)) = [(x, t)] ∧
      TaskMap.find (onItemRemoved env (onItemAdded env s x) x).tasks.tasks x = some t ∧
      t.type = Tasks.ADD_ITEM.val) ∧
    (onItemRemoved env (onItemAdded env s x) x).allItems = s.allItems ∧
    (∀ (s' : ListViewController T) (o : TickOutcome J),
      runTasks env (onItemRemoved env (onItemAdded env s x) x) = some (s', o) →
      (o = .countNegative ∨ ∃ sent, o = .completed sent) → x ∈ s'.allItems) ∧
    (∀ (env' : Env T J) (s3 s4 : ListViewController T) (o : TickOutcome J),
      x ∈ s3.allItems →
      (∀ e ∈ s3.tasks.tasks, e.2.type = Tasks.REMOVE_ITEM.val →
        env'.getToken e.1 ≠ env'.getToken x) →
      runTasks env' s3 = some (s4, o) → x ∈ s4.allItems) ∧
    (∀ (env' : Env T J) (s3 : ListViewController T) (y : T) (ps : PropertyIdSet),
      (onItemAdded env' s3 y).allItems = s3.allItems ∧
      (onItemRemoved env' s3 y).allItems = s3.allItems ∧
      (onItemUpdated env' s3 y ps).allItems = s3.allItems) := by
  rw [added_then_removed env s x hactive hfilter habsent]
  have hfind : ∃ t : MergeTask,
      TaskMap.find (ItemTasks.add s.tasks.tasks x ⟨Tasks.ADD_ITEM.val, ∅⟩) x = some t ∧
      t.type = Tasks.ADD_ITEM.val := by
    rw [itemTasks_find_add, if_pos rfl]
    cases hf : TaskMap.find s.tasks.tasks x with
    | none => exact ⟨_, rfl, rfl⟩
    | some v =>
      refine ⟨_, rfl, ?_⟩
      show (v.merge ⟨Tasks.ADD_ITEM.val, ∅⟩).type = Tasks.ADD_ITEM.val
      rw [merge_type]
      exact min_eq_right (hpending v hf)
  obtain ⟨t, ht, htype⟩ := hfind
  have hwf2 : TaskMap.WF (ItemTasks.add s.tasks.tasks x ⟨Tasks.ADD_ITEM.val, ∅⟩) :=
    itemTasks_add_wf _ _ _ hwf
  have hrem : ∀ e ∈ ItemTasks.add s.tasks.tasks x ⟨Tasks.ADD_ITEM.val, ∅⟩,
      e.2.type = Tasks.REMOVE_ITEM.val → env.getToken e.1 ≠ env.getToken x := by
    intro e he hdel htok
    have hfe := taskMap_find_of_mem _ hwf2 e he
    by_cases hk : e.1 = x
    · rw [hk, ht] at hfe
      simp only [Option.some.injEq] at hfe
      rw [← hfe, htype] at hdel
      simp [Tasks.val] at hdel
    · rw [itemTasks_find_add, if_neg hk] at hfe
      exact hk (htokens _ (taskMap_mem_of_find _ _ _ hfe) htok)
  refine ⟨⟨t, taskMap_filter_key _ hwf2 x t ht, ht, htype⟩, rfl, ?_, ?_, ?_⟩
  · intro s' o hrun hdone
    rcases runTasks_allItems env _ s' o hrun with ⟨hearly, _⟩ | ⟨_, items0, start1, upd, _, hloop⟩
    · rcases hdone with h | ⟨sent, h⟩ <;> rw [h] at hearly <;> simp at hearly
    · exact taskLoop_inserts env _ _ x _ _ _ _ _
        ⟨(x, t), taskMap_mem_of_find _ _ _ ht, rfl, htype⟩ hrem hloop
  · intro env' s3 s4 o hx hno hrun
    rcases runTasks_allItems env' s3 s4 o hrun with ⟨_, hperm⟩ | ⟨_, items0, start1, upd, hperm, hloop⟩
    · exact hperm.mem_iff.mpr hx
    · exact taskLoop_mem env' _ _ x _ _ _ _ _ (hperm.mem_iff.mpr hx) hno hloop
  · intro env' s3 y ps
    exact notifications_allItems env' s3 y ps

/-- C24, amended, at the item `4` in `worldTicked` (list `[3, 5, 9]`, empty queue): the two
notifications leave the Add for `4`, and the tick that runs next completes with `4` in the
list. -/
theorem C24_add_then_remove_witness :
    worldTicked.lvc.active = true ∧
    matchesFilter worldAddedRemoved.env worldTicked.lvc.filter 4 = true ∧
    isInList worldAddedRemoved.env 4 worldTicked.lvc.allItems = false ∧
    worldTicked.lvc.tasks.tasks = [] ∧
    worldAddedRemoved.lvc =
      onItemRemoved worldAddedRemoved.env (onItemAdded worldAddedRemoved.env worldTicked.lvc 4) 4 ∧
    runTasks worldAddedRemoved.env
        (onItemRemoved worldAddedRemoved.env
          (onItemAdded worldAddedRemoved.env worldTicked.lvc 4) 4) =
      some (demoTickState worldAddedRemoved,
        .completed (some (demoTickPayload worldAddedRemoved))) ∧
    4 ∈ (demoTickState worldAddedRemoved).allItems ∧
    (∃ t : MergeTask,
      (onItemRemoved worldAddedRemoved.env
        (onItemAdded worldAddedRemoved.env worldTicked.lvc 4) 4).tasks.tasks.filter
          (fun e => decide (e.1 = 4)) = [(4, t)] ∧
      TaskMap.find (onItemRemoved worldAddedRemoved.env
        (onItemAdded worldAddedRemoved.env worldTicked.lvc 4) 4).tasks.tasks 4 = some t ∧
      t.type = Tasks.ADD_ITEM.val) := by
  have hrun : runTasks worldAddedRemoved.env
        (onItemRemoved worldAddedRemoved.env
          (onItemAdded worldAddedRemoved.env worldTicked.lvc 4) 4) =
      some (demoTickState worldAddedRemoved,
        .completed (some (demoTickPayload worldAddedRemoved))) := rfl
  have hq : worldTicked.lvc.tasks.tasks = [] := rfl
  have hthm := C24_add_then_remove worldAddedRemoved.env worldTicked.lvc 4 rfl rfl rfl
    (by rw [hq]; unfold TaskMap.WF; decide)
    (by intro t ht; rw [hq] at ht; simp [TaskMap.find] at ht)
    (by intro e he; rw [hq] at he; simp at he)
  exact ⟨rfl, rfl, rfl, rfl, rfl, hrun, hthm.2.2.1 _ _ hrun (Or.inr ⟨_, rfl⟩), hthm.1⟩

/-! ## A Remove for an item that is not in the list (C25) -/

/-- C25, evaluated: over the source `[1, 2, 3]` the view is activated and ticks, the source
loses the item `2` (a Remove for `2` is queued), and the filter is deleted (the list is
rebuilt from the source as `[1, 3]` and the queue is kept). The next tick applies the
Remove: `findItem` returns the end of the list and `handleRemoveItem` erases it, so the run
has no defined result. -/
theorem C25_remove_of_absent_item :
    (World.init (demoEnv [1, 2, 3])).run eventsStaleRemove = some worldStaleRemove ∧
    worldStaleRemove.lvc.timerRunning = true ∧
    worldStaleRemove.lvc.allItems = [1, 3] ∧
    worldStaleRemove.lvc.tasks.tasks = [(2, ⟨Tasks.REMOVE_ITEM.val, ∅⟩)] ∧
    findItem worldStaleRemove.env 2 worldStaleRemove.lvc.allItems = none ∧
    handleRemoveItem worldStaleRemove.env worldStaleRemove.lvc.allItems 2 0 = none ∧
    runTasks worldStaleRemove.env worldStaleRemove.lvc = none ∧
    (World.init (demoEnv [1, 2, 3])).run (eventsStaleRemove ++ [.timerTick]) = none := by
  exact ⟨rfl, rfl, rfl, rfl, rfl, rfl, rfl, rfl⟩

/-! ## The merge of the tasks of one item (C26) -/

/-- C26: `MergeTask::merge` is commutative and associative, and when a non-empty sequence
of tasks is queued with `ItemTasks::add` for an item that had no entry in the queue, the
task that `ItemTasks::get` hands out for the item has the smallest type of the sequence and
the union of the property sets of the tasks of that type; every rearrangement of the
sequence gives the same task. -/
theorem C26_merge_order_independent (m : TaskMap T) (x : T) (t : MergeTask)
    (ts : List MergeTask) (hm : TaskMap.find m x = none) :
    (∀ a b : MergeTask, a.merge b = b.merge a) ∧
    (∀ a b c : MergeTask, (a.merge b).merge c = a.merge (b.merge c)) ∧
    ∃ r : MergeTask,
      TaskMap.find (ItemTasks.get (enqueueTasks x m (t :: ts)) []).1 x = some r ∧
      (∃ u ∈ t :: ts, u.type = r.type) ∧
      (∀ u ∈ t :: ts, r.type ≤ u.type) ∧
      (∀ i : Int, i ∈ r.updatedProperties ↔
        ∃ u ∈ t :: ts, u.type = r.type ∧ i ∈ u.updatedProperties) ∧
      (∀ (t' : MergeTask) (ts' : List MergeTask), (t' :: ts').Perm (t :: ts) →
        TaskMap.find (ItemTasks.get (enqueueTasks x m (t' :: ts')) []).1 x = some r) := by
  refine ⟨merge_comm, merge_assoc, ts.foldl MergeTask.merge t, ?_, ?_⟩
  · exact find_enqueueTasks_fresh m x t ts hm
  · have hspec := isMergeOf_fold t ts
    refine ⟨hspec.1, hspec.2.1, hspec.2.2, ?_⟩
    intro t' ts' hperm
    have heq := isMergeOf_unique _ _ _ (isMergeOf_perm _ _ _ hperm (isMergeOf_fold t' ts')) hspec
    show TaskMap.find (enqueueTasks x m (t' :: ts')) x = _
    rw [find_enqueueTasks_fresh m x t' ts' hm, heq]

/-- C26 for the item `4` in a queue that holds a Remove for the item `7`: a Remove, an
Update of property `1`, an Add and an Update of property `0` arrive. -/
theorem C26_merge_order_independent_witness :
    TaskMap.find ([(7, ⟨Tasks.REMOVE_ITEM.val, ∅⟩)] : TaskMap Nat) 4 = none ∧
    TaskMap.find (ItemTasks.get (enqueueTasks 4 ([(7, ⟨Tasks.REMOVE_ITEM.val, ∅⟩)] : TaskMap Nat)
      [⟨Tasks.REMOVE_ITEM.val, ∅⟩, ⟨Tasks.UPDATE_ITEM.val, {1}⟩, ⟨Tasks.ADD_ITEM.val, ∅⟩,
        ⟨Tasks.UPDATE_ITEM.val, {0}⟩]) []).1 4 = some ⟨Tasks.UPDATE_ITEM.val, {1} ∪ {0}⟩ ∧
    ∃ r : MergeTask,
      TaskMap.find (ItemTasks.get (enqueueTasks 4 ([(7, ⟨Tasks.REMOVE_ITEM.val, ∅⟩)] : TaskMap Nat)
        (⟨Tasks.REMOVE_ITEM.val, ∅⟩ :: [⟨Tasks.UPDATE_ITEM.val, {1}⟩, ⟨Tasks.ADD_ITEM.val, ∅⟩,
          ⟨Tasks.UPDATE_ITEM.val, {0}⟩])) []).1 4 = some r ∧
      (∀ (t' : MergeTask) (ts' : List MergeTask),
        (t' :: ts').Perm (⟨Tasks.REMOVE_ITEM.val, ∅⟩ :: [⟨Tasks.UPDATE_ITEM.val, {1}⟩,
          ⟨Tasks.ADD_ITEM.val, ∅⟩, ⟨Tasks.UPDATE_ITEM.val, {0}⟩]) →
        TaskMap.find (ItemTasks.get
          (enqueueTasks 4 ([(7, ⟨Tasks.REMOVE_ITEM.val, ∅⟩)] : TaskMap Nat) (t' :: ts')) []).1 4 =
            some r) := by
  have hm : TaskMap.find ([(7, ⟨Tasks.REMOVE_ITEM.val, ∅⟩)] : TaskMap Nat) 4 = none := rfl
  obtain ⟨_, _, r, hr, _, _, _, hperm⟩ := C26_merge_order_independent
    ([(7, ⟨Tasks.REMOVE_ITEM.val, ∅⟩)] : TaskMap Nat) 4 ⟨Tasks.REMOVE_ITEM.val, ∅⟩
    [⟨Tasks.UPDATE_ITEM.val, {1}⟩, ⟨Tasks.ADD_ITEM.val, ∅⟩, ⟨Tasks.UPDATE_ITEM.val, {0}⟩] hm
  exact ⟨hm, rfl, r, hr, hperm⟩

end Claims

end webserver
